import Mathlib

/-!
SBCL runtime: thread state machine, stop-the-world, thread registry.

A shallow embedding of `src/runtime/thread.c`.  A `struct thread *` is a
natural number (`0` is `NULL`); the heap of thread structures is a function
from addresses to `thread` records.  Code that can block (`os_sem_wait`,
`thread_mutex_lock`) or loop (`goto start`, `for_each_thread`) takes a step
budget and an environment `env : World → World` describing what the other
threads do while the caller is blocked.
-/

namespace SbclThread

/-! ## Data model -/

/-- Modelled from the spec: `thread.h` is not part of the sources at hand; the
three thread states RUNNING, STOPPED and DEAD are distinct codes held in the
`char` field `state_word.state`.  Only their distinctness is used. -/
def STATE_RUNNING : Int := 1

/-- Modelled from the spec: the code of the STOPPED state (see `STATE_RUNNING`). -/
def STATE_STOPPED : Int := 2

/-- Modelled from the spec: the code of the terminal DEAD state (see `STATE_RUNNING`). -/
def STATE_DEAD : Int := 3

/-- The part of `struct extra_thread_data` used by the state machine: three
counting semaphores (their current values) and the two `int` wait counts. -/
structure extra_thread_data where
  state_sem : Nat := 1
  state_not_running_sem : Nat := 0
  state_not_stopped_sem : Nat := 0
  state_not_running_waitcount : Int := 0
  state_not_stopped_waitcount : Int := 0
deriving DecidableEq, Repr

/-- The fields of `struct thread` that `thread.c` reads and writes in the code
modelled here.  `extra` is what `thread_extra_data(th)` points to. -/
structure thread where
  next : Nat := 0
  prev : Nat := 0
  state : Int := 0
  os_thread : Nat := 0
  os_kernel_tid : Nat := 0
  os_address : Nat := 0
  control_stack_start : Nat := 0
  control_stack_end : Nat := 0
  binding_stack_start : Nat := 0
  alien_stack_start : Nat := 0
  no_tls_value_marker : Nat := 0
  extra : extra_thread_data := {}
deriving DecidableEq, Repr

/-- The three semaphores of `struct extra_thread_data`. -/
inductive SemId where
  | state_sem
  | state_not_running_sem
  | state_not_stopped_sem
deriving DecidableEq, Repr

/-- A `struct timespec` as filled in by `clock_gettime`. -/
structure timespec where
  tv_sec : Int := 0
  tv_nsec : Int := 0
deriving DecidableEq, Repr

/-- The statistics kept under `COLLECT_GC_STATS` (durations in nanoseconds,
`long` values taken as integers; `LONG_MAX` is that of a 64-bit build). -/
structure gc_stats where
  gc_start_time : timespec := {}
  stw_elapsed : Int := 0
  stw_min_duration : Int := 9223372036854775807
  stw_max_duration : Int := 0
  stw_sum_duration : Int := 0
  gc_min_duration : Int := 9223372036854775807
  gc_max_duration : Int := 0
  gc_sum_duration : Int := 0
  n_gcs_done : Int := 0
  show_gc_stats : Int := 0
deriving DecidableEq, Repr

/-- The global state of the runtime seen by `thread.c`.

* `all_threads`, `mem`: the registry head and the heap of thread structures;
* `all_threads_lock`: `none` when free, `some t` when held by the thread whose
  structure is at `t`;
* `recyclebin_threads`, `recyclebin_lock`: the free list and its mutex;
* `signals`: the `os_thread` ids to which `pthread_kill(_, SIG_STOP_FOR_GC)`
  was delivered, oldest first;
* `sigmask`: whether the blockable signals are blocked in the calling thread;
* `bytes`: raw memory (the stacks), one byte per address;
* `clock`: the value `clock_gettime(CLOCK_MONOTONIC, _)` reads;
* `stats`: the pause statistics. -/
structure World where
  all_threads : Nat := 0
  mem : Nat → thread := fun _ => {}
  all_threads_lock : Option Nat := none
  recyclebin_threads : Nat := 0
  recyclebin_lock : Bool := false
  signals : List Nat := []
  sigmask : Bool := false
  bytes : Nat → Nat := fun _ => 0
  clock : timespec := {}
  stats : gc_stats := {}

/-- Outcome of running a piece of the runtime: it returns a value in a new
world, or it calls `lose()` (the process aborts in the given world), or the
step budget ran out while it was blocked or looping. -/
inductive Res (α : Type) where
  | ret : α → World → Res α
  | lose : World → Res α
  | blocked : Res α

/-- The value returned, if the run returned. -/
def Res.value? {α : Type} : Res α → Option α
  | Res.ret a _ => some a
  | Res.lose _ => none
  | Res.blocked => none

/-- The world in which the run returned or aborted (`w` when it is still blocked). -/
def Res.world {α : Type} (w : World) : Res α → World
  | Res.ret _ w1 => w1
  | Res.lose w1 => w1
  | Res.blocked => w

/-- Whether the run ended in `lose()`. -/
def Res.lost {α : Type} : Res α → Bool
  | Res.lose _ => true
  | _ => false

/-! ## Semaphores and signal mask -/

/-- Current value of one of a thread's semaphores. -/
def sem_value (e : extra_thread_data) : SemId → Nat
  | SemId.state_sem => e.state_sem
  | SemId.state_not_running_sem => e.state_not_running_sem
  | SemId.state_not_stopped_sem => e.state_not_stopped_sem

/-- Store a new value in one of a thread's semaphores. -/
def sem_store (e : extra_thread_data) (s : SemId) (v : Nat) : extra_thread_data :=
  match s with
  | SemId.state_sem => { e with state_sem := v }
  | SemId.state_not_running_sem => { e with state_not_running_sem := v }
  | SemId.state_not_stopped_sem => { e with state_not_stopped_sem := v }

/-- Write a thread structure back to the heap. -/
def store_thread (w : World) (th : Nat) (t : thread) : World :=
  { w with mem := Function.update w.mem th t }

/-- Call `os_sem_post(&semaphores->s)` on a thread record: the value goes up by one. -/
def sem_post (s : SemId) (t : thread) : thread :=
  { t with extra := sem_store t.extra s (sem_value t.extra s + 1) }

/-- A successful `os_sem_wait(&semaphores->s)` on a thread record: the value
goes down by one. -/
def sem_take (s : SemId) (t : thread) : thread :=
  { t with extra := sem_store t.extra s (sem_value t.extra s - 1) }

/-- Call `os_sem_post` on semaphore `s` of the thread at `th`. -/
def os_sem_post (th : Nat) (s : SemId) (w : World) : World :=
  store_thread w th (sem_post s (w.mem th))

/-- Call `os_sem_wait` on semaphore `s` of the thread at `th`: when the value is
positive it is decremented and the call returns; when it is zero the caller
sleeps, the other threads run (`env`), and the caller tries again. -/
def os_sem_wait (env : World → World) : Nat → Nat → SemId → World → Res Unit
  | 0, _, _, _ => Res.blocked
  | fuel + 1, th, s, w =>
    if 0 < sem_value (w.mem th).extra s then
      Res.ret () (store_thread w th (sem_take s (w.mem th)))
    else os_sem_wait env fuel th s (env w)

/-- Call `block_blockable_signals(&old)`: the blockable signals become blocked. -/
def block_blockable_signals (w : World) : World := { w with sigmask := true }

/-- Call `thread_sigmask(SIG_SETMASK, &old, NULL)`: the saved mask is restored. -/
def thread_sigmask (old : Bool) (w : World) : World := { w with sigmask := old }

/-- The macro `get_thread_state(thread)`: an atomic read of `state_word.state`. -/
def get_thread_state (th : Nat) (w : World) : Int := (w.mem th).state

/-! ## `set_thread_state` -/

/-- The loop `for (i=0; i<waitcount; i++) os_sem_post(sem)`, as `n` posts. -/
def post_times (s : SemId) : Nat → thread → thread
  | 0, t => t
  | n + 1, t => post_times s n (sem_post s t)

/-- Lines 136-152 of `thread.c`: the critical section of `set_thread_state`,
run with `state_sem` held.  The `int` loop counter `i` runs from `0` while
`i < waitcount`, that is `waitcount.toNat` times. -/
def set_thread_state_locked (state : Int) (t : thread) : thread :=
  if t.state ≠ state then
    let t1 :=
      if state = STATE_STOPPED ∨ state = STATE_DEAD then
        let waitcount := t.extra.state_not_running_waitcount
        post_times SemId.state_not_running_sem waitcount.toNat
          { t with extra := { t.extra with state_not_running_waitcount := 0 } }
      else t
    let t2 :=
      if state = STATE_RUNNING ∨ state = STATE_DEAD then
        let waitcount := t1.extra.state_not_stopped_waitcount
        post_times SemId.state_not_stopped_sem waitcount.toNat
          { t1 with extra := { t1.extra with state_not_stopped_waitcount := 0 } }
      else t1
    { t2 with state := state }
  else t

/-- The function `set_thread_state(thread, state, signals_already_blocked)`. -/
def set_thread_state (env : World → World) (fuel : Nat) (thread : Nat) (state : Int)
    (signals_already_blocked : Bool) (w : World) : Res Unit :=
  let old := w.sigmask
  let w0 := if !signals_already_blocked then block_blockable_signals w else w
  match os_sem_wait env fuel thread SemId.state_sem w0 with
  | Res.ret _ w1 =>
    let w2 := store_thread w1 thread (set_thread_state_locked state (w1.mem thread))
    let w3 := os_sem_post thread SemId.state_sem w2
    Res.ret () (if !signals_already_blocked then thread_sigmask old w3 else w3)
  | Res.lose w1 => Res.lose w1
  | Res.blocked => Res.blocked

/-! ## `thread_wait_until_not` -/

/-- The statement `semaphores->state_not_running_waitcount++`. -/
def incr_not_running_waitcount (t : thread) : thread :=
  { t with extra := { t.extra with
      state_not_running_waitcount := t.extra.state_not_running_waitcount + 1 } }

/-- The statement `semaphores->state_not_stopped_waitcount++`. -/
def incr_not_stopped_waitcount (t : thread) : thread :=
  { t with extra := { t.extra with
      state_not_stopped_waitcount := t.extra.state_not_stopped_waitcount + 1 } }

/-- The body of `thread_wait_until_not` from the label `start:` on.  Each
pass takes `state_sem`, reads the state, and either returns it (after posting
`state_sem`) or registers as a waiter, posts `state_sem`, sleeps on the
matching semaphore and jumps back to `start`. -/
def thread_wait_until_not_loop (env : World → World) :
    Nat → Int → Nat → World → Res Int
  | 0, _, _, _ => Res.blocked
  | fuel + 1, undesired_state, thread, w =>
    match os_sem_wait env (fuel + 1) thread SemId.state_sem w with
    | Res.ret _ w1 =>
      let ending_state := get_thread_state thread w1
      if ending_state = undesired_state then
        if undesired_state = STATE_RUNNING then
          let w2 := store_thread w1 thread (incr_not_running_waitcount (w1.mem thread))
          let w3 := os_sem_post thread SemId.state_sem w2
          match os_sem_wait env (fuel + 1) thread SemId.state_not_running_sem w3 with
          | Res.ret _ w4 => thread_wait_until_not_loop env fuel undesired_state thread w4
          | Res.lose w4 => Res.lose w4
          | Res.blocked => Res.blocked
        else if undesired_state = STATE_STOPPED then
          let w2 := store_thread w1 thread (incr_not_stopped_waitcount (w1.mem thread))
          let w3 := os_sem_post thread SemId.state_sem w2
          match os_sem_wait env (fuel + 1) thread SemId.state_not_stopped_sem w3 with
          | Res.ret _ w4 => thread_wait_until_not_loop env fuel undesired_state thread w4
          | Res.lose w4 => Res.lose w4
          | Res.blocked => Res.blocked
        else Res.lose w1
      else
        Res.ret ending_state (os_sem_post thread SemId.state_sem w1)
    | Res.lose w1 => Res.lose w1
    | Res.blocked => Res.blocked

/-- The function `thread_wait_until_not(undesired_state, thread)`. -/
def thread_wait_until_not (env : World → World) (fuel : Nat) (undesired_state : Int)
    (thread : Nat) (w : World) : Res Int :=
  let old := w.sigmask
  match thread_wait_until_not_loop env fuel undesired_state thread (block_blockable_signals w) with
  | Res.ret ending_state w1 => Res.ret ending_state (thread_sigmask old w1)
  | Res.lose w1 => Res.lose w1
  | Res.blocked => Res.blocked

/-! ## The registry: `link_thread`, `unlink_thread`, `for_each_thread` -/

/-- The function `link_thread(th)`: push `th` at the head of `all_threads`. -/
def link_thread (th : Nat) (w : World) : World :=
  let w1 :=
    if w.all_threads ≠ 0 then
      store_thread w w.all_threads { (w.mem w.all_threads) with prev := th }
    else w
  let w2 := store_thread w1 th { (w1.mem th) with next := w1.all_threads }
  let w3 := store_thread w2 th { (w2.mem th) with prev := 0 }
  { w3 with all_threads := th }

/-- The function `unlink_thread(th)`: splice `th` out of the doubly linked list. -/
def unlink_thread (th : Nat) (w : World) : World :=
  let w1 :=
    if (w.mem th).prev ≠ 0 then
      store_thread w (w.mem th).prev { (w.mem (w.mem th).prev) with next := (w.mem th).next }
    else { w with all_threads := (w.mem th).next }
  if (w1.mem th).next ≠ 0 then
    store_thread w1 (w1.mem th).next { (w1.mem (w1.mem th).next) with prev := (w1.mem th).prev }
  else w1

/-- Modelled from the spec: the macro `for_each_thread(th)` of `thread.h` is not
part of the sources at hand; it is the traversal of the Registry from
`all_threads` along `next`, `for (th = all_threads; th; th = th->next)`, here
started at `th` and running `body` on each thread met.  The step budget bounds
the number of threads visited. -/
def for_each_thread (body : Nat → World → Res Unit) : Nat → Nat → World → Res Unit
  | 0, th, w => if th = 0 then Res.ret () w else Res.blocked
  | fuel + 1, th, w =>
    if th = 0 then Res.ret () w
    else
      match body th w with
      | Res.ret _ w1 => for_each_thread body fuel (w1.mem th).next w1
      | Res.lose w1 => Res.lose w1
      | Res.blocked => Res.blocked

/-- The threads a `for_each_thread` traversal started at `th` visits, in order
(`none` when the walk does not reach `NULL` within the budget). -/
def threads_from (mem : Nat → thread) : Nat → Nat → Option (List Nat)
  | 0, th => if th = 0 then some [] else none
  | fuel + 1, th =>
    if th = 0 then some []
    else (threads_from mem fuel (mem th).next).map (fun l => th :: l)

/-- The last element of `xs`, or `d` when `xs` is empty. -/
def last_or (d : Nat) : List Nat → Nat
  | [] => d
  | x :: xs => last_or x xs

/-- A doubly linked segment: starting at `p`, whose predecessor is `prev`, the
`next` links run through exactly the non-null nodes `ts` and then reach `q`,
and each node's `prev` is the node before it. -/
def dseg (mem : Nat → thread) : Nat → Nat → List Nat → Nat → Prop
  | _, p, [], q => p = q
  | prev, p, x :: xs, q =>
    p = x ∧ x ≠ 0 ∧ (mem x).prev = prev ∧ dseg mem x (mem x).next xs q

/-- Whether a list of nodes is a doubly linked segment can be checked. -/
instance dseg_decidable (mem : Nat → thread) :
    ∀ (prev p : Nat) (ts : List Nat) (q : Nat), Decidable (dseg mem prev p ts q)
  | _, p, [], q => inferInstanceAs (Decidable (p = q))
  | prev, p, x :: xs, q =>
    have := dseg_decidable mem x (mem x).next xs q
    inferInstanceAs
      (Decidable (p = x ∧ x ≠ 0 ∧ (mem x).prev = prev ∧ dseg mem x (mem x).next xs q))

/-- A well-formed registry: from `all_threads` the threads `ts` form a doubly
linked list that starts with `prev == 0` and ends in `NULL`. -/
def registry (w : World) (ts : List Nat) : Prop :=
  dseg w.mem 0 w.all_threads ts 0

/-- Whether `ts` is the registry of `w` can be checked. -/
instance registry_decidable (w : World) (ts : List Nat) : Decidable (registry w ts) :=
  dseg_decidable w.mem 0 w.all_threads ts 0

/-! ## Mutexes -/

/-- Call `thread_mutex_lock(&all_threads_lock)` from the thread `me`: a free
mutex is taken and 0 is returned; while it is held the caller sleeps and the
other threads run. -/
def lock_all_threads (env : World → World) : Nat → Nat → World → Res Int
  | 0, _, _ => Res.blocked
  | fuel + 1, me, w =>
    match w.all_threads_lock with
    | none => Res.ret 0 { w with all_threads_lock := some me }
    | some _ => lock_all_threads env fuel me (env w)

/-- Call `thread_mutex_unlock(&all_threads_lock)`: the mutex becomes free; returns 0. -/
def unlock_all_threads (w : World) : Int × World :=
  (0, { w with all_threads_lock := none })

/-- Call `thread_mutex_lock(&recyclebin_lock)`. -/
def lock_recyclebin (env : World → World) : Nat → World → Res Int
  | 0, _ => Res.blocked
  | fuel + 1, w =>
    if w.recyclebin_lock then lock_recyclebin env fuel (env w)
    else Res.ret 0 { w with recyclebin_lock := true }

/-- Call `thread_mutex_unlock(&recyclebin_lock)`. -/
def unlock_recyclebin (w : World) : World := { w with recyclebin_lock := false }

/-! ## The recycle bin and `alloc_thread_struct` -/

/-- The function `get_recyclebin_item()`: pop the head of `recyclebin_threads`
and return its `os_address`, or return 0 when the bin is empty. -/
def get_recyclebin_item (env : World → World) (fuel : Nat) (w : World) : Res Nat :=
  match lock_recyclebin env fuel w with
  | Res.ret rc w1 =>
    if rc ≠ 0 then Res.lose w1
    else
      let result := if w1.recyclebin_threads ≠ 0 then w1.recyclebin_threads else 0
      let w2 :=
        if w1.recyclebin_threads ≠ 0 then
          { w1 with recyclebin_threads := (w1.mem w1.recyclebin_threads).next }
        else w1
      let w3 := unlock_recyclebin w2
      Res.ret (if result ≠ 0 then (w3.mem result).os_address else 0) w3
  | Res.lose w1 => Res.lose w1
  | Res.blocked => Res.blocked

/-- The function `put_recyclebin_item(th)`: push `th` on `recyclebin_threads`. -/
def put_recyclebin_item (env : World → World) (fuel : Nat) (th : Nat) (w : World) : Res Unit :=
  match lock_recyclebin env fuel w with
  | Res.ret rc w1 =>
    if rc ≠ 0 then Res.lose w1
    else
      let w2 := store_thread w1 th { (w1.mem th) with next := w1.recyclebin_threads }
      let w3 := { w2 with recyclebin_threads := th }
      Res.ret () (unlock_recyclebin w3)
  | Res.lose w1 => Res.lose w1
  | Res.blocked => Res.blocked

/-- The build-time constants and macros used by `alloc_thread_struct` whose
definitions are not in `thread.c`, and the operating system's answer to
`os_validate(MOVABLE|IS_THREAD_STRUCT, NULL, size, 0, 0)` (0 on failure). -/
structure Config where
  GENCGC_IS_PRECISE : Bool
  thread_control_stack_size : Nat
  BINDING_STACK_SIZE : Nat
  ALIEN_STACK_SIZE : Nat
  THREAD_ALIGNMENT_BYTES : Nat
  THREAD_CSP_PAGE_SIZE : Nat
  THREAD_HEADER_SLOTS : Nat
  N_WORD_BYTES : Nat
  THREAD_STRUCT_SIZE : Nat
  os_vm_page_size : Nat
  NO_TLS_VALUE_MARKER_WIDETAG : Nat
  PTR_ALIGN_UP : Nat → Nat → Nat
  os_validate : Nat → Nat

/-- The call `memset(dst, c, n)` on raw memory. -/
def memset (bytes : Nat → Nat) (dst c n : Nat) : Nat → Nat :=
  fun a => if dst ≤ a ∧ a < dst + n then c else bytes a

/-- The part of `alloc_thread_struct` after `spaces` has been settled
(lines 890-1077), restricted to the fields of `struct thread` modelled here.
The thread structure, its TLS area and its extra data lie above the three
stacks; they are kept in `mem`, apart from the raw `bytes` of the stacks, so
the stores into them do not show in `bytes`. -/
def alloc_thread_struct_init (cfg : Config) (zeroize_stack : Bool) (spaces : Nat)
    (start_routine : Nat) (w : World) : Nat × World :=
  let aligned_spaces := cfg.PTR_ALIGN_UP spaces cfg.THREAD_ALIGNMENT_BYTES
  let csp_page := aligned_spaces + cfg.thread_control_stack_size
    + cfg.BINDING_STACK_SIZE + cfg.ALIEN_STACK_SIZE
  let th := csp_page + cfg.THREAD_CSP_PAGE_SIZE + cfg.THREAD_HEADER_SLOTS * cfg.N_WORD_BYTES
  let control_stack_start := aligned_spaces
  let binding_stack_start := control_stack_start + cfg.thread_control_stack_size
  let control_stack_end := binding_stack_start
  let bytes1 :=
    if zeroize_stack then
      if cfg.GENCGC_IS_PRECISE then
        memset w.bytes control_stack_start 0
          (cfg.thread_control_stack_size - 2 * cfg.os_vm_page_size)
      else memset w.bytes (control_stack_end - 16384) 0 16384
    else w.bytes
  let t : thread :=
    { next := 0, prev := 0,
      state := STATE_RUNNING,
      os_thread := 0,
      os_kernel_tid := 0,
      os_address := spaces,
      control_stack_start := control_stack_start,
      control_stack_end := control_stack_end,
      binding_stack_start := binding_stack_start,
      alien_stack_start := binding_stack_start + cfg.BINDING_STACK_SIZE,
      no_tls_value_marker := start_routine,
      extra :=
        { state_sem := 1, state_not_running_sem := 0, state_not_stopped_sem := 0,
          state_not_running_waitcount := 0, state_not_stopped_waitcount := 0 } }
  (th, { w with mem := Function.update w.mem th t, bytes := bytes1 })

/-- The function `alloc_thread_struct(spaces, start_routine)`; the result is
the new `struct thread *`, `NULL` when no memory could be mapped. -/
def alloc_thread_struct (cfg : Config) (spaces : Nat) (start_routine : Nat) (w : World) :
    Nat × World :=
  if spaces ≠ 0 then alloc_thread_struct_init cfg true spaces start_routine w
  else
    let spaces1 := cfg.os_validate cfg.THREAD_STRUCT_SIZE
    if spaces1 = 0 then (0, w)
    else alloc_thread_struct_init cfg false spaces1 start_routine w

/-- Lines 676-678 of `attach_os_thread`: take memory from the recycle bin, if
any, and build the thread structure in it. -/
def attach_os_thread_alloc (cfg : Config) (env : World → World) (fuel : Nat) (w : World) :
    Res Nat :=
  match get_recyclebin_item env fuel w with
  | Res.ret recycled_memory w1 =>
    let r := alloc_thread_struct cfg recycled_memory cfg.NO_TLS_VALUE_MARKER_WIDETAG w1
    Res.ret r.1 r.2
  | Res.lose w1 => Res.lose w1
  | Res.blocked => Res.blocked

/-! ## Stop-the-world -/

/-- The expression `(a.tv_sec - b.tv_sec)*1000000000L + (a.tv_nsec - b.tv_nsec)`. -/
def elapsed_ns (a b : timespec) : Int :=
  (a.tv_sec - b.tv_sec) * 1000000000 + (a.tv_nsec - b.tv_nsec)

/-- Body of the first loop of `gc_stop_the_world` (lines 1191-1206) for one
thread.  `pthread_kill` gives the return code of
`pthread_kill(os_thread, SIG_STOP_FOR_GC)`; a delivered signal is appended to
`signals`.  A failed `gc_assert` and a non-zero return code end in `lose`. -/
def gc_stop_signal_thread (env : World → World) (pthread_kill : Nat → Int) (fuel me th : Nat)
    (w : World) : Res Unit :=
  if th ≠ me then
    if (w.mem th).os_thread = 0 then Res.lose w
    else
      match os_sem_wait env fuel th SemId.state_sem w with
      | Res.ret _ w1 =>
        let state := get_thread_state th w1
        if state = STATE_RUNNING then
          let rc := pthread_kill (w1.mem th).os_thread
          if rc ≠ 0 then Res.lose w1
          else
            Res.ret () (os_sem_post th SemId.state_sem
              { w1 with signals := w1.signals ++ [(w1.mem th).os_thread] })
        else Res.ret () (os_sem_post th SemId.state_sem w1)
      | Res.lose w1 => Res.lose w1
      | Res.blocked => Res.blocked
  else Res.ret () w

/-- Body of the second loop of `gc_stop_the_world` (lines 1209-1212) for one thread. -/
def gc_stop_wait_thread (env : World → World) (fuel me th : Nat) (w : World) : Res Unit :=
  if th ≠ me then
    match thread_wait_until_not env fuel STATE_RUNNING th w with
    | Res.ret state w1 => if state ≠ STATE_RUNNING then Res.ret () w1 else Res.lose w1
    | Res.lose w1 => Res.lose w1
    | Res.blocked => Res.blocked
  else Res.ret () w

/-- The function `gc_stop_the_world()` called by the thread `me`
(`get_sb_vm_thread()`), in a build with `COLLECT_GC_STATS`. -/
def gc_stop_the_world (env : World → World) (pthread_kill : Nat → Int) (fuel me : Nat)
    (w : World) : Res Unit :=
  let stw_begin_time := w.clock
  match lock_all_threads env fuel me w with
  | Res.ret rc w1 =>
    if rc ≠ 0 then Res.lose w1
    else
      match for_each_thread (gc_stop_signal_thread env pthread_kill fuel me) fuel
          w1.all_threads w1 with
      | Res.ret _ w2 =>
        match for_each_thread (gc_stop_wait_thread env fuel me) fuel w2.all_threads w2 with
        | Res.ret _ w3 =>
          let stw_end_time := w3.clock
          Res.ret () { w3 with stats := { w3.stats with
            stw_elapsed := elapsed_ns stw_end_time stw_begin_time,
            gc_start_time := stw_end_time } }
        | Res.lose w3 => Res.lose w3
        | Res.blocked => Res.blocked
      | Res.lose w2 => Res.lose w2
      | Res.blocked => Res.blocked
  | Res.lose w1 => Res.lose w1
  | Res.blocked => Res.blocked

/-- The `COLLECT_GC_STATS` block at the head of `gc_start_the_world`
(lines 1226-1241); the message written to file descriptor 2 is not modelled. -/
def gc_start_stats (w : World) : World :=
  let gc_end_time := w.clock
  let st := w.stats
  let gc_elapsed := elapsed_ns gc_end_time st.gc_start_time
  if st.stw_elapsed < 0 ∨ gc_elapsed < 0 then w
  else
    { w with stats := { st with
        stw_sum_duration := st.stw_sum_duration + st.stw_elapsed,
        stw_min_duration :=
          if st.stw_elapsed < st.stw_min_duration then st.stw_elapsed else st.stw_min_duration,
        stw_max_duration :=
          if st.stw_elapsed > st.stw_max_duration then st.stw_elapsed else st.stw_max_duration,
        gc_sum_duration := st.gc_sum_duration + gc_elapsed,
        gc_min_duration :=
          if gc_elapsed < st.gc_min_duration then gc_elapsed else st.gc_min_duration,
        gc_max_duration :=
          if gc_elapsed > st.gc_max_duration then gc_elapsed else st.gc_max_duration,
        n_gcs_done := st.n_gcs_done + 1 } }

/-- Body of the loop of `gc_start_the_world` (lines 1249-1260) for one thread. -/
def gc_start_thread (env : World → World) (fuel me th : Nat) (w : World) : Res Unit :=
  if (w.mem th).os_thread = 0 then Res.lose w
  else if th ≠ me then
    let state := get_thread_state th w
    if state ≠ STATE_DEAD then
      if state ≠ STATE_STOPPED then Res.lose w
      else set_thread_state env fuel th STATE_RUNNING false w
    else Res.ret () w
  else Res.ret () w

/-- The function `gc_start_the_world()` called by the thread `me`. -/
def gc_start_the_world (env : World → World) (fuel me : Nat) (w : World) : Res Unit :=
  let w0 := gc_start_stats w
  match for_each_thread (gc_start_thread env fuel me) fuel w0.all_threads w0 with
  | Res.ret _ w1 =>
    let r := unlock_all_threads w1
    if r.1 ≠ 0 then Res.lose r.2 else Res.ret () r.2
  | Res.lose w1 => Res.lose w1
  | Res.blocked => Res.blocked

/-! ## What the other threads may do while the caller holds `all_threads_lock` -/

/-- The relation between two worlds across steps that leave the registry lock
and the registry head alone and, for the thread structures listed in `S` (the
registered threads), keep the `next` link and never move a thread out of a
state different from RUNNING into RUNNING.  Nothing is said of a structure
outside `S`: memory that `alloc_thread_struct` is initialising, or that
`put_recyclebin_item` is pushing on the recycle bin. -/
def Frame (S : List Nat) (w w1 : World) : Prop :=
  w1.all_threads_lock = w.all_threads_lock
    ∧ w1.all_threads = w.all_threads
    ∧ (∀ p ∈ S, (w1.mem p).next = (w.mem p).next)
    ∧ (∀ p ∈ S, (w.mem p).state ≠ STATE_RUNNING → (w1.mem p).state ≠ STATE_RUNNING)

/-- A `Frame` step that also sends no suspend signal. -/
def FrameS (S : List Nat) (w w1 : World) : Prop :=
  Frame S w w1 ∧ w1.signals = w.signals

/-- The assumption on the other threads made for a stop-the-world pause of
`me` over the registered threads `S`: whenever `me` holds `all_threads_lock`,
a step of the environment is a `FrameS S` step (nobody registers or
unregisters, nobody resumes a registered thread, nobody else sends
`SIG_STOP_FOR_GC`).  The other threads stay free to write thread structures
that are not registered, without the lock, as `alloc_thread_struct` and
`put_recyclebin_item` do. -/
def Rely (me : Nat) (S : List Nat) (env : World → World) : Prop :=
  ∀ w, w.all_threads_lock = some me → FrameS S w (env w)

/-- The threads of `ts` that the first loop of `gc_stop_the_world` signals:
those other than `me` whose state is RUNNING in `w`. -/
def stop_targets (me : Nat) (w : World) (ts : List Nat) : List Nat :=
  ts.filter (fun th => decide (th ≠ me ∧ (w.mem th).state = STATE_RUNNING))

/-- What the first loop of `gc_stop_the_world` computes on the threads `ts`
when no `state_sem` is contended: each `os_sem_wait`/`os_sem_post` pair
cancels out, and a failing `pthread_kill` aborts with `state_sem` still held. -/
def signal_list (pthread_kill : Nat → Int) (me : Nat) : List Nat → World → Res Unit
  | [], w => Res.ret () w
  | th :: ts, w =>
    if th ≠ me then
      if (w.mem th).os_thread = 0 then Res.lose w
      else if (w.mem th).state = STATE_RUNNING then
        if pthread_kill (w.mem th).os_thread ≠ 0 then
          Res.lose (store_thread w th (sem_take SemId.state_sem (w.mem th)))
        else
          signal_list pthread_kill me ts
            { w with signals := w.signals ++ [(w.mem th).os_thread] }
      else signal_list pthread_kill me ts w
    else signal_list pthread_kill me ts w

/-- The heap after `gc_start_the_world` has walked the threads `ts`: every
thread of `ts` other than `me` that was STOPPED has been through the critical
section of `set_thread_state(th, STATE_RUNNING, 0)`; nothing else changed. -/
def started_mem (me : Nat) (ts : List Nat) (mem : Nat → thread) : Nat → thread :=
  fun p =>
    if p ∈ ts ∧ p ≠ me ∧ (mem p).state = STATE_STOPPED then
      set_thread_state_locked STATE_RUNNING (mem p)
    else mem p

/-! ## Thread start and exit, pause statistics -/

/-- The function `init_new_thread(th, scribble, guardp)` of a build without
safepoints, run by the new thread itself; `arch_os_thread_init` gives the
return value of that call.  The protection of the guard pages is not modelled. -/
def init_new_thread (env : World → World) (arch_os_thread_init : Nat → Int) (fuel th : Nat)
    (w : World) : Res Unit :=
  if arch_os_thread_init th = 0 then Res.lose w
  else
    match lock_all_threads env fuel th w with
    | Res.ret lock_ret w1 =>
      if lock_ret ≠ 0 then Res.lose w1
      else Res.ret () (unlock_all_threads (link_thread th w1)).2
    | Res.lose w1 => Res.lose w1
    | Res.blocked => Res.blocked

/-- Lines 440-443 of `unregister_thread` (build without safepoints): block the
signals and record the state DEAD. -/
def unregister_thread_dead (env : World → World) (fuel th : Nat) (w : World) : Res Unit :=
  set_thread_state env fuel th STATE_DEAD true (block_blockable_signals w)

/-- Lines 449-459 of `unregister_thread`: take `all_threads_lock`, unlink the
thread, release the lock.  Closing the allocation regions is not modelled; the
second `gc_assert(lock_ret == 0)` tests the value the first one tested. -/
def unregister_thread_unlink (env : World → World) (fuel th : Nat) (w : World) : Res Unit :=
  match lock_all_threads env fuel th w with
  | Res.ret lock_ret w1 =>
    if lock_ret ≠ 0 then Res.lose w1
    else Res.ret () (unlock_all_threads (unlink_thread th w1)).2
  | Res.lose w1 => Res.lose w1
  | Res.blocked => Res.blocked

/-- The function `unregister_thread(th, scribble)` up to line 459 (build without
safepoints), run by the exiting thread; what follows destroys the semaphores
and clears the current thread. -/
def unregister_thread (env : World → World) (fuel th : Nat) (w : World) : Res Unit :=
  match unregister_thread_dead env fuel th w with
  | Res.ret _ w1 => unregister_thread_unlink env fuel th w1
  | Res.lose w1 => Res.lose w1
  | Res.blocked => Res.blocked

/-- The function `reset_gc_stats()`. -/
def reset_gc_stats (w : World) : World :=
  { w with stats := { w.stats with
      stw_min_duration := 9223372036854775807,
      stw_max_duration := 0,
      stw_sum_duration := 0,
      gc_min_duration := 9223372036854775807,
      gc_max_duration := 0,
      gc_sum_duration := 0,
      n_gcs_done := 0,
      show_gc_stats := 1 } }

/-- What a call of `gc_start_the_world` finds: the `stw_elapsed` and
`gc_start_time` left by the `gc_stop_the_world` before it, and the time its
`clock_gettime` reads. -/
structure pause_times where
  stw_elapsed : Int
  gc_start_time : timespec
  gc_end_time : timespec
deriving DecidableEq, Repr

/-- The world in which a call of `gc_start_the_world` starts, for given times. -/
def with_pause_times (p : pause_times) (w : World) : World :=
  { w with
    clock := p.gc_end_time,
    stats := { w.stats with stw_elapsed := p.stw_elapsed, gc_start_time := p.gc_start_time } }

/-- Whether both elapsed times of a pause are non-negative. -/
def pause_counted (p : pause_times) : Bool :=
  decide (0 ≤ p.stw_elapsed ∧ 0 ≤ elapsed_ns p.gc_end_time p.gc_start_time)

/-- The statistics after a sequence of pauses: for each one, the statistics
block of `gc_start_the_world` run on its times. -/
def run_pauses : List pause_times → World → World
  | [], w => w
  | p :: ps, w => run_pauses ps (gc_start_stats (with_pause_times p w))

/-- The statistics are as at program start or after `reset_gc_stats`. -/
def stats_fresh (st : gc_stats) : Prop :=
  st.stw_min_duration = 9223372036854775807 ∧ st.stw_max_duration = 0
    ∧ st.stw_sum_duration = 0
    ∧ st.gc_min_duration = 9223372036854775807 ∧ st.gc_max_duration = 0
    ∧ st.gc_sum_duration = 0 ∧ st.n_gcs_done = 0

/-- The invariant of the statistics: the count and the sums are not negative
and each sum lies between the count times the minimum and the count times the
maximum. -/
def stats_consistent (st : gc_stats) : Prop :=
  0 ≤ st.n_gcs_done
    ∧ st.n_gcs_done * st.stw_min_duration ≤ st.stw_sum_duration
    ∧ st.stw_sum_duration ≤ st.n_gcs_done * st.stw_max_duration
    ∧ st.n_gcs_done * st.gc_min_duration ≤ st.gc_sum_duration
    ∧ st.gc_sum_duration ≤ st.n_gcs_done * st.gc_max_duration
    ∧ 0 ≤ st.stw_sum_duration
    ∧ 0 ≤ st.gc_sum_duration

/-- The well-formedness of the registry in the words of C29: the walk from
`all_threads` along `next` reaches `NULL` after the threads `ts` (the list is
acyclic), `all_threads` is `NULL` or has `prev == 0`, and every registered
thread `n` with `n->next != NULL` has `n->next->prev == n`. -/
def registry_wf (w : World) (ts : List Nat) : Prop :=
  threads_from w.mem ts.length w.all_threads = some ts
    ∧ (w.all_threads = 0 ∨ (w.mem w.all_threads).prev = 0)
    ∧ ∀ n ∈ ts, (w.mem n).next ≠ 0 → (w.mem (w.mem n).next).prev = n

/-! ## The collector (`gc-private.h`): state, constants, collaborators

The embedding is of a production build, in which `gc_dcheck` expands to
nothing; the conditions it would check appear as hypotheses of the theorems.
Heap memory is a map from byte addresses to bytes; weak pointers are kept in a
typed heap of their own. -/

/-- A `struct alloc_region`: a bump-pointer allocation region. -/
structure alloc_region where
  free_pointer : Nat := 0
  end_addr : Nat := 0
  start_addr : Nat := 0
deriving DecidableEq, Repr

/-- The slots of `struct weak_pointer` used by the collector. -/
structure weak_pointer where
  value : Nat := 0
  next : Nat := 0
deriving DecidableEq, Repr

/-- The build-time constants of the collector and the functions of other
files that `gc-private.h` calls; none of them is defined in the sources at
hand, so they are parameters.  `forwarding_pointer_p`,
`forwarding_pointer_value` and `set_forwarding_pointer` read and write the
forwarding marker in heap memory at an object's old location;
`gc_alloc_new_region` is the refill of an exhausted region;
`mark_protected` tells which card marks `PAGE_WRITEPROTECTED_P` reads as
write-protected; `LONG_BITS` is the width of the C type `long` of the build
(64 on the LP64 platforms). -/
structure GcConfig where
  N_WORD_BYTES : Nat
  N_LOWTAG_BITS : Nat
  FDEFN_WIDETAG : Nat
  WP_CLEARED_FLAG : Nat
  GENCGC_CARD_BYTES : Nat
  LISP_FEATURE_SOFT_CARD_MARKS : Bool
  LISP_FEATURE_IMMOBILE_SPACE : Bool
  LISP_FEATURE_DARWIN_JIT : Bool
  is_lisp_pointer : Nat → Bool
  from_space_p : Nat → Bool
  immobile_space_p : Nat → Bool
  base_pointer : Nat → Nat
  forwarding_pointer_p : (Nat → Nat) → Nat → Bool
  forwarding_pointer_value : (Nat → Nat) → Nat → Nat
  set_forwarding_pointer : (Nat → Nat) → Nat → Nat → Nat → Nat
  gc_alloc_new_region : alloc_region → Int → Int → alloc_region
  find_page_index : Nat → Int
  page_address : Int → Nat
  page_to_card_index : Int → Nat
  addr_to_card_index : Nat → Nat
  mark_protected : Int → Bool
  LONG_BITS : Nat := 64

/-- The state of the collector.

* `mem`: heap memory, one byte per address;
* `gc_copied_nwords`: the `uword_t` counter of copied words;
* `gc_alloc_region`: the array `gc_alloc_region[3]`;
* `from_space`: the generation being collected;
* `weak_pointer_chain`, `wps`: the head of the chain and the weak pointers;
* `gc_card_mark`: the card table (`char` marks);
* `os_prot`: the protection the operating system has on each byte address;
* `page_flags`: for each page the flag byte that precedes `page_table[i].gen`. -/
structure Gc where
  mem : Nat → Nat := fun _ => 0
  gc_copied_nwords : Nat := 0
  gc_alloc_region : Nat → alloc_region := fun _ => {}
  from_space : Int := 0
  weak_pointer_chain : Nat := 0
  wps : Nat → weak_pointer := fun _ => {}
  gc_card_mark : Nat → Int := fun _ => 0
  os_prot : Nat → Nat := fun _ => 0
  page_flags : Int → Nat := fun _ => 0

/-- Outcome of a collector function: it returns a value in a new state, or it
calls `lose()` in the given state. -/
inductive GcRes (α : Type) where
  | ok : α → Gc → GcRes α
  | lose : Gc → GcRes α

/-- The value returned, if any. -/
def GcRes.value? {α : Type} : GcRes α → Option α
  | GcRes.ok a _ => some a
  | GcRes.lose _ => none

/-- The state in which the function returned or aborted. -/
def GcRes.state {α : Type} : GcRes α → Gc
  | GcRes.ok _ g => g
  | GcRes.lose g => g

/-- The number of bits of a machine word, `N_WORD_BITS`. -/
def N_WORD_BITS (cfg : GcConfig) : Nat := 8 * cfg.N_WORD_BYTES

/-- Conversion of an integer to the unsigned word type (`uword_t`, `size_t`). -/
def to_uword (cfg : GcConfig) (x : Int) : Nat := (x % ((2 ^ N_WORD_BITS cfg : Nat) : Int)).toNat

/-- Conversion of an unsigned word to the signed word type `sword_t`. -/
def to_sword (cfg : GcConfig) (x : Nat) : Int :=
  if x % 2 ^ N_WORD_BITS cfg < 2 ^ (N_WORD_BITS cfg - 1) then ((x % 2 ^ N_WORD_BITS cfg : Nat) : Int)
  else ((x % 2 ^ N_WORD_BITS cfg : Nat) : Int) - ((2 ^ N_WORD_BITS cfg : Nat) : Int)

/-- Modelled from the spec: the macro `lowtag_of` is not in the sources at hand;
a reference carries its tag in the low `N_LOWTAG_BITS` bits. -/
def lowtag_of (cfg : GcConfig) (obj : Nat) : Nat := obj % 2 ^ cfg.N_LOWTAG_BITS

/-- Modelled from the spec: `native_pointer` is not in the sources at hand; it
gives the address of the object, the reference with its tag bits cleared. -/
def native_pointer (cfg : GcConfig) (obj : Nat) : Nat := obj - obj % 2 ^ cfg.N_LOWTAG_BITS

/-- Modelled from the spec: `make_lispobj` is not in the sources at hand; it
builds a reference from an address and a tag, `address | lowtag`. -/
def make_lispobj (address lowtag : Nat) : Nat := address ||| lowtag

/-- The call `memcpy(dst, src, n)` on heap memory (the bytes are read before
any is written). -/
def memcpy (mem : Nat → Nat) (dst src n : Nat) : Nat → Nat :=
  fun a => if dst ≤ a ∧ a < dst + n then mem (src + (a - dst)) else mem a

/-- The word stored at byte address `a`, little-endian. -/
def read_word (cfg : GcConfig) (mem : Nat → Nat) (a : Nat) : Nat :=
  ((List.range cfg.N_WORD_BYTES).map (fun j => mem (a + j) * 256 ^ j)).sum

/-! ## The object relocator -/

/-- Modelled from the spec: `gc_alloc_with_region` (the allocator proper) is not
in the sources at hand.  It "allocates `word_count` words from a per-thread
bump-pointer region"; "when a thread's bump region is exhausted, it is refilled
from a shared free-page pool", here `cfg.gc_alloc_new_region`.  The result is
the address of the new storage and the region after the allocation. -/
def gc_alloc_with_region (cfg : GcConfig) (region : alloc_region) (nbytes : Int)
    (page_type_flag : Int) : Nat × alloc_region :=
  let r :=
    if (region.free_pointer : Int) + nbytes ≤ region.end_addr then region
    else cfg.gc_alloc_new_region region nbytes page_type_flag
  (r.free_pointer, { r with free_pointer := ((r.free_pointer : Int) + nbytes).toNat })

/-- The function `gc_general_alloc(nbytes, page_type_flag)` of a gencgc build. -/
def gc_general_alloc (cfg : GcConfig) (nbytes : Int) (page_type_flag : Int) (g : Gc) :
    GcRes Nat :=
  if 1 ≤ page_type_flag ∧ page_type_flag ≤ 3 then
    let r := gc_alloc_with_region cfg (g.gc_alloc_region (page_type_flag - 1).toNat)
      nbytes page_type_flag
    GcRes.ok r.1
      { g with
        gc_alloc_region := Function.update g.gc_alloc_region (page_type_flag - 1).toNat r.2 }
  else GcRes.lose g

/-- The function `gc_general_copy_object(object, nwords, page_type_flag)`;
`nwords` is a `size_t`, the product `nwords*N_WORD_BYTES` is taken in `size_t`
and passed on as a `sword_t`. -/
def gc_general_copy_object (cfg : GcConfig) (object nwords : Nat) (page_type_flag : Int)
    (g : Gc) : GcRes Nat :=
  let nbytes := (nwords * cfg.N_WORD_BYTES) % 2 ^ N_WORD_BITS cfg
  match gc_general_alloc cfg (to_sword cfg nbytes) page_type_flag g with
  | GcRes.ok new g1 =>
    let g2 := { g1 with
      gc_copied_nwords := (g1.gc_copied_nwords + nwords) % 2 ^ N_WORD_BITS cfg }
    let g3 := { g2 with mem := memcpy g2.mem new (native_pointer cfg object) nbytes }
    GcRes.ok (make_lispobj new (lowtag_of cfg object)) g3
  | GcRes.lose g1 => GcRes.lose g1

/-- The width of the C type `int`. -/
def INT_BITS : Nat := 32

/-- The value that an arithmetic result `x` has in a signed C type of `bits`
bits: `x` itself when it is in range, and the two's-complement wrap otherwise
(where C leaves signed overflow undefined). -/
def to_signed (bits : Nat) (x : Int) : Int :=
  if x % ((2 ^ bits : Nat) : Int) < ((2 ^ (bits - 1) : Nat) : Int) then
    x % ((2 ^ bits : Nat) : Int)
  else x % ((2 ^ bits : Nat) : Int) - ((2 ^ bits : Nat) : Int)

/-- The function `gc_copy_object_resizing(object, nwords, page_type_flag,
old_nwords)`.  `nwords` is a `long` and `old_nwords` an `int`:
`nwords*N_WORD_BYTES` is a product in `long`, passed on as a `sword_t`;
`old_nwords*N_WORD_BYTES` is a product in `int`, converted to `size_t` for
`memcpy`; `gc_copied_nwords += old_nwords` is an addition in `uword_t`. -/
def gc_copy_object_resizing (cfg : GcConfig) (object : Nat) (nwords : Int)
    (page_type_flag : Int) (old_nwords : Int) (g : Gc) : GcRes Nat :=
  match gc_general_alloc cfg (to_signed cfg.LONG_BITS (nwords * cfg.N_WORD_BYTES))
      page_type_flag g with
  | GcRes.ok new g1 =>
    let g2 := { g1 with
      gc_copied_nwords := to_uword cfg ((g1.gc_copied_nwords : Int) + old_nwords) }
    let g3 := { g2 with
      mem := memcpy g2.mem new (native_pointer cfg object)
        (to_uword cfg (to_signed INT_BITS (old_nwords * cfg.N_WORD_BYTES))) }
    GcRes.ok (make_lispobj new (lowtag_of cfg object)) g3
  | GcRes.lose g1 => GcRes.lose g1

/-- Modelled from the spec: the Relocator's `copy` as its callers (the transport
functions, not in the sources at hand) run it: "establishing the forwarding
marker at the old location is how any later reference to the same object ...
detects already moved and redirects instead of duplicating".  A marker found
at the old location is followed; otherwise the object is copied with
`gc_general_copy_object` and the marker is set. -/
def forward_or_copy (cfg : GcConfig) (object nwords : Nat) (page_type_flag : Int) (g : Gc) :
    GcRes Nat :=
  let native := native_pointer cfg object
  if cfg.forwarding_pointer_p g.mem native then
    GcRes.ok (cfg.forwarding_pointer_value g.mem native) g
  else
    match gc_general_copy_object cfg object nwords page_type_flag g with
    | GcRes.ok copy g1 =>
      GcRes.ok copy { g1 with mem := cfg.set_forwarding_pointer g1.mem native copy }
    | GcRes.lose g1 => GcRes.lose g1

/-! ## Weak pointers -/

/-- The constant `WEAK_POINTER_CHAIN_END`, `(void*)(intptr_t)-1`. -/
def WEAK_POINTER_CHAIN_END (cfg : GcConfig) : Nat := 2 ^ N_WORD_BITS cfg - 1

/-- Modelled from the spec: `widetag_of` is not in the sources at hand; the
widetag is the low byte `ww` of the header word (comment at lines 150-154),
the byte at the object's address on a little-endian machine. -/
def widetag_of (mem : Nat → Nat) (obj : Nat) : Nat := mem obj

/-- The function `immobile_obj_gen_bits(obj)` (little-endian): the generation
byte is byte 1 of an FDEFN header and byte 3 of any other header. -/
def immobile_obj_gen_bits (cfg : GcConfig) (mem : Nat → Nat) (obj : Nat) : Nat :=
  let gen := if widetag_of mem obj = cfg.FDEFN_WIDETAG then mem (obj + 1) else mem (obj + 3)
  gen &&& 0x1F

/-- The function `weak_pointer_breakable_p(wp)`. -/
def weak_pointer_breakable_p (cfg : GcConfig) (wp : Nat) (g : Gc) : Bool :=
  let pointee := (g.wps wp).value
  cfg.is_lisp_pointer pointee
    && (cfg.from_space_p pointee
      || (cfg.LISP_FEATURE_IMMOBILE_SPACE
        && (cfg.immobile_space_p pointee
          && decide ((immobile_obj_gen_bits cfg g.mem (cfg.base_pointer pointee) : Int)
              = g.from_space))))

/-- The function `add_to_weak_pointer_chain(wp)`. -/
def add_to_weak_pointer_chain (wp : Nat) (g : Gc) : Gc :=
  let g1 := { g with
    wps := Function.update g.wps wp { (g.wps wp) with next := g.weak_pointer_chain } }
  { g1 with weak_pointer_chain := wp }

/-- Modelled from the spec: `enqueue(wp)` "pushes `wp` to the front of the
process-wide chain only if not already linked (checked via its `next` field)";
in the runtime the test is made by the caller of
`add_to_weak_pointer_chain` (comment at lines 232-233). -/
def enqueue_weak_pointer (wp : Nat) (g : Gc) : Gc :=
  if (g.wps wp).next = 0 then add_to_weak_pointer_chain wp g else g

/-- The weak pointers met when walking the chain from `p` along `next` until
`WEAK_POINTER_CHAIN_END` (`none` when the end is not reached within the
budget). -/
def chain_from (cfg : GcConfig) (wps : Nat → weak_pointer) : Nat → Nat → Option (List Nat)
  | 0, p => if p = WEAK_POINTER_CHAIN_END cfg then some [] else none
  | fuel + 1, p =>
    if p = WEAK_POINTER_CHAIN_END cfg then some []
    else (chain_from cfg wps fuel (wps p).next).map (fun l => p :: l)

/-- The macro `TEST_WEAK_CELL(cell, pointee, broken)`: the result is the new
content of `cell`. -/
def TEST_WEAK_CELL (cfg : GcConfig) (g : Gc) (cell pointee broken : Nat) : Nat :=
  let native := native_pointer cfg pointee
  if cfg.from_space_p pointee then
    if cfg.forwarding_pointer_p g.mem native then cfg.forwarding_pointer_value g.mem native
    else broken
  else if cfg.immobile_space_p pointee then
    if (immobile_obj_gen_bits cfg g.mem (cfg.base_pointer pointee) : Int) = g.from_space then
      broken
    else cell
  else cell

/-! ## The card table and the write barrier -/

/-- Modelled from the spec: the protection bits of `os.h` are not in the sources
at hand; a page can be read (1), written (2), executed (4). -/
def OS_VM_PROT_READ : Nat := 1

/-- Modelled from the spec: the permission to write (see `OS_VM_PROT_READ`). -/
def OS_VM_PROT_WRITE : Nat := 2

/-- Modelled from the spec: the permission to execute (see `OS_VM_PROT_READ`). -/
def OS_VM_PROT_EXECUTE : Nat := 4

/-- The macro `OS_VM_PROT_JIT_READ`. -/
def OS_VM_PROT_JIT_READ (cfg : GcConfig) : Nat :=
  if cfg.LISP_FEATURE_DARWIN_JIT then OS_VM_PROT_READ
  else OS_VM_PROT_READ ||| OS_VM_PROT_EXECUTE

/-- The macro `OS_VM_PROT_JIT_ALL` (`OS_VM_PROT_ALL` is read, write and execute). -/
def OS_VM_PROT_JIT_ALL (cfg : GcConfig) : Nat :=
  if cfg.LISP_FEATURE_DARWIN_JIT then OS_VM_PROT_READ ||| OS_VM_PROT_WRITE
  else OS_VM_PROT_READ ||| OS_VM_PROT_WRITE ||| OS_VM_PROT_EXECUTE

/-- The call `os_protect(addr, len, prot)`. -/
def os_protect (addr len prot : Nat) (g : Gc) : Gc :=
  { g with os_prot := fun a => if addr ≤ a ∧ a < addr + len then prot else g.os_prot a }

/-- Modelled from the spec: `PAGE_WRITEPROTECTED_P` is not in the sources at
hand; the two configurations share "one card-table query/mark interface", the
page's protected mark being its card mark (the only mark `protect_page` stores,
in both configurations, is `gc_card_mark[...] = 1`), read through
`cfg.mark_protected`. -/
def PAGE_WRITEPROTECTED_P (cfg : GcConfig) (page_index : Int) (g : Gc) : Bool :=
  cfg.mark_protected (g.gc_card_mark (cfg.page_to_card_index page_index))

/-- Modelled from the spec: `SET_PAGE_PROTECTED` is not in the sources at hand;
it stores the page's protected mark, which is its card mark. -/
def SET_PAGE_PROTECTED (cfg : GcConfig) (page_index : Int) (val : Int) (g : Gc) : Gc :=
  { g with
    gc_card_mark := Function.update g.gc_card_mark (cfg.page_to_card_index page_index) val }

/-- The function `unprotect_page_index(page_index)`. -/
def unprotect_page_index (cfg : GcConfig) (page_index : Int) (g : Gc) : Gc :=
  if cfg.LISP_FEATURE_SOFT_CARD_MARKS then
    let card := cfg.page_to_card_index page_index
    if g.gc_card_mark card = 1 then
      { g with gc_card_mark := Function.update g.gc_card_mark card 0 }
    else g
  else
    let g1 := os_protect (cfg.page_address page_index) cfg.GENCGC_CARD_BYTES
      (OS_VM_PROT_JIT_ALL cfg) g
    let g2 := { g1 with
      page_flags := Function.update g1.page_flags page_index
          (g1.page_flags page_index ||| cfg.WP_CLEARED_FLAG) }
    SET_PAGE_PROTECTED cfg page_index 0 g2

/-- The function `protect_page(page_addr, page_index)`. -/
def protect_page (cfg : GcConfig) (page_addr : Nat) (_page_index : Int) (g : Gc) : Gc :=
  let g1 :=
    if cfg.LISP_FEATURE_SOFT_CARD_MARKS then g
    else os_protect page_addr cfg.GENCGC_CARD_BYTES (OS_VM_PROT_JIT_READ cfg) g
  { g1 with
    gc_card_mark := Function.update g1.gc_card_mark (cfg.addr_to_card_index page_addr) 1 }

/-- The function `ensure_ptr_word_writable(addr)`; a failed `gc_assert` is `lose`. -/
def ensure_ptr_word_writable (cfg : GcConfig) (addr : Nat) (g : Gc) : GcRes Unit :=
  let index := cfg.find_page_index addr
  if index < 0 then GcRes.lose g
  else if PAGE_WRITEPROTECTED_P cfg index g then GcRes.ok () (unprotect_page_index cfg index g)
  else GcRes.ok () g

/-- The macro `NON_FAULTING_STORE(operation, addr)` of a gencgc build. -/
def NON_FAULTING_STORE (cfg : GcConfig) (operation : Gc → Gc) (addr : Nat) (g : Gc) : Gc :=
  if cfg.LISP_FEATURE_SOFT_CARD_MARKS then operation g
  else
    let page_index := cfg.find_page_index addr
    if page_index < 0 ∨ PAGE_WRITEPROTECTED_P cfg page_index g = false then operation g
    else
      protect_page cfg (cfg.page_address page_index) page_index
        (operation (unprotect_page_index cfg page_index g))

/-! ## Immobile-space object headers, layout bitmaps, sequences of page calls -/

/-- The constant `IMMOBILE_OBJ_VISITED_FLAG`. -/
def IMMOBILE_OBJ_VISITED_FLAG : Nat := 0x10

/-- The constant `OBJ_WRITTEN_FLAG`. -/
def OBJ_WRITTEN_FLAG : Nat := 0x40

/-- The macro `immobile_obj_generation(x)`. -/
def immobile_obj_generation (cfg : GcConfig) (mem : Nat → Nat) (obj : Nat) : Nat :=
  immobile_obj_gen_bits cfg mem obj &&& 0xf

/-- The function `set_visited(obj)`; a byte of memory holds the bit pattern of
the `generation_index_t` stored in it. -/
def set_visited (cfg : GcConfig) (obj : Nat) (mem : Nat → Nat) : Nat → Nat :=
  let byte := if widetag_of mem obj = cfg.FDEFN_WIDETAG then 1 else 3
  Function.update mem (obj + byte) (mem (obj + byte) ||| IMMOBILE_OBJ_VISITED_FLAG)

/-- The function `assign_generation(obj, gen)`; `gen` is the bit pattern of the
generation passed. -/
def assign_generation (cfg : GcConfig) (obj gen : Nat) (mem : Nat → Nat) : Nat → Nat :=
  let byte := if widetag_of mem obj = cfg.FDEFN_WIDETAG then 1 else 3
  Function.update mem (obj + byte) ((mem (obj + byte) &&& 0xE0) ||| gen)

/-- A `struct bitmap`: `bits` gives the `sword_t` at each index of the array,
`nwords` is an `unsigned int`. -/
structure bitmap where
  bits : Nat → Int
  nwords : Nat

/-- The function `bitmap_logbitp(index, bitmap)`.  `index` and `nwords` are
`unsigned int` (32 bits), so `nwords-1` wraps when `nwords` is 0; `>>` on a
`sword_t` is the arithmetic shift, and `& 1` of a two's complement integer is
its remainder modulo 2. -/
def bitmap_logbitp (cfg : GcConfig) (index : Nat) (bm : bitmap) : Bool :=
  let word_index := (index % 2 ^ 32) / N_WORD_BITS cfg
  let bit_index := (index % 2 ^ 32) % N_WORD_BITS cfg
  if word_index ≥ bm.nwords then decide (bm.bits ((bm.nwords + 2 ^ 32 - 1) % 2 ^ 32) < 0)
  else decide ((bm.bits word_index >>> bit_index) % 2 ≠ 0)

/-- The integer a bitmap of `n + 1` words starting at word `start` denotes: the
words below the last one are taken unsigned, the last one signed. -/
def bitmap_value (cfg : GcConfig) (bits : Nat → Int) : Nat → Nat → Int
  | 0, start => bits start
  | n + 1, start =>
    bits start % ((2 ^ N_WORD_BITS cfg : Nat) : Int)
      + ((2 ^ N_WORD_BITS cfg : Nat) : Int) * bitmap_value cfg bits n (start + 1)

/-- A call of `unprotect_page_index(page_index)` or of
`protect_page(page_addr, page_index)`. -/
inductive page_call where
  | unprotect : Int → page_call
  | protect : Nat → Int → page_call

/-- The effect of one call. -/
def run_page_call (cfg : GcConfig) : page_call → Gc → Gc
  | page_call.unprotect p, g => unprotect_page_index cfg p g
  | page_call.protect a p, g => protect_page cfg a p g

/-- The effect of a sequence of calls, first to last. -/
def run_page_calls (cfg : GcConfig) : List page_call → Gc → Gc
  | [], g => g
  | c :: cs, g => run_page_calls cfg cs (run_page_call cfg c g)

/-! ## Concrete inputs used to exercise the theorems -/

/-- A thread in state RUNNING with two not-running waiters and one not-stopped waiter. -/
def sample_thread : thread :=
  { state := STATE_RUNNING, os_thread := 7,
    extra := { state_not_running_waitcount := 2, state_not_stopped_waitcount := 1 } }

/-- A world whose only populated thread structure is `sample_thread`, at address 5. -/
def sample_world : World :=
  { all_threads := 5, mem := fun p => if p = 5 then sample_thread else {} }

/-- What a thread running `sig_stop_for_gc_handler` does to the thread at `th`
when it gets to run: it records STOPPED through `set_thread_state`. -/
def stop_handler (th : Nat) (w : World) : World :=
  Res.world w (set_thread_state id 1 th STATE_STOPPED true w)

/-- Three threads in the registry, `3 → 2 → 1`: thread 1 is the caller, thread
2 is RUNNING and thread 3 is DEAD. -/
def stw_world : World :=
  { all_threads := 3,
    mem := fun p =>
      if p = 3 then { next := 2, prev := 0, state := STATE_DEAD, os_thread := 33 }
      else if p = 2 then { next := 1, prev := 3, state := STATE_RUNNING, os_thread := 22 }
      else if p = 1 then { next := 0, prev := 2, state := STATE_RUNNING, os_thread := 11 }
      else {} }

/-- The other threads of `stw_world`: thread 2 stops once it has been signalled. -/
def stw_env (w : World) : World :=
  if 22 ∈ w.signals then stop_handler 2 w else w

/-- A `pthread_kill` that always succeeds. -/
def kill_ok (_ : Nat) : Int := 0

/-- A `pthread_kill` that fails with `ESRCH` (3) for the OS thread 22. -/
def kill_esrch (o : Nat) : Int := if o = 22 then 3 else 0

/-- The world `stw_world` during a pause held by thread 1: thread 2 is STOPPED
with one thread waiting for it to leave that state, thread 3 is DEAD. -/
def paused_world : World :=
  { all_threads := 3,
    all_threads_lock := some 1,
    mem := fun p =>
      if p = 3 then { next := 2, prev := 0, state := STATE_DEAD, os_thread := 33 }
      else if p = 2 then
        { next := 1, prev := 3, state := STATE_STOPPED, os_thread := 22,
          extra := { state_not_stopped_waitcount := 1 } }
      else if p = 1 then { next := 0, prev := 2, state := STATE_RUNNING, os_thread := 11 }
      else {} }

/-- A recycle bin holding the exited thread 6 (memory at 6000); thread 7
(memory at 7000) has just exited as well. -/
def bin_world : World :=
  { recyclebin_threads := 6,
    mem := fun p =>
      if p = 6 then { next := 0, state := STATE_DEAD, os_address := 6000 }
      else if p = 7 then { next := 0, state := STATE_DEAD, os_address := 7000 }
      else {} }

/-- A small configuration: 64 KiB control stacks, 4 KiB pages, conservative
collector; `os_validate` maps fresh memory at address 1048576. -/
def sample_config : Config :=
  { GENCGC_IS_PRECISE := false,
    thread_control_stack_size := 65536,
    BINDING_STACK_SIZE := 4096,
    ALIEN_STACK_SIZE := 4096,
    THREAD_ALIGNMENT_BYTES := 4096,
    THREAD_CSP_PAGE_SIZE := 0,
    THREAD_HEADER_SLOTS := 0,
    N_WORD_BYTES := 8,
    THREAD_STRUCT_SIZE := 131072,
    os_vm_page_size := 4096,
    NO_TLS_VALUE_MARKER_WIDETAG := 255,
    PTR_ALIGN_UP := fun p a => (p + (a - 1)) / a * a,
    os_validate := fun _ => 1048576 }

/-- The other threads of `stw_world` during a busy pause, none of them holding
`all_threads_lock`: a thread that is attaching builds its thread structure
with `alloc_thread_struct` in the recycled memory at 4096 (the structure lies
at 77824 and is RUNNING), the exited thread 7 is pushed on the recycle bin
with `put_recyclebin_item`, and thread 2 stops once it has been signalled. -/
def busy_env (w : World) : World :=
  let w1 := (alloc_thread_struct sample_config 4096 255 w).2
  stw_env (Res.world w1 (put_recyclebin_item id 1 7 w1))

/-- The configuration `sample_config` for a precise collector. -/
def precise_config : Config := { sample_config with GENCGC_IS_PRECISE := true }

/-- A world whose raw memory is filled with the byte 170. -/
def dirty_world : World := { bytes := fun _ => 170 }

/-- A pause held by thread 1 in which thread 3 never stopped: the registry is
`4 → 3 → 2 → 1`, threads 4 and 2 are STOPPED, thread 3 is RUNNING. -/
def bad_pause_world : World :=
  { all_threads := 4,
    all_threads_lock := some 1,
    mem := fun p =>
      if p = 4 then { next := 3, prev := 0, state := STATE_STOPPED, os_thread := 44 }
      else if p = 3 then { next := 2, prev := 4, state := STATE_RUNNING, os_thread := 33 }
      else if p = 2 then { next := 1, prev := 3, state := STATE_STOPPED, os_thread := 22 }
      else if p = 1 then { next := 0, prev := 2, state := STATE_RUNNING, os_thread := 11 }
      else {} }

/-- The world `stw_world` with a fresh thread structure at 4, RUNNING as
`alloc_thread_struct` leaves it and not yet linked. -/
def new_thread_world : World :=
  { stw_world with
    mem := fun p =>
      if p = 4 then { state := STATE_RUNNING, os_thread := 44 } else stw_world.mem p }

/-- An `arch_os_thread_init` that succeeds. -/
def arch_init_ok (_ : Nat) : Int := 1

/-- Three pauses: 5 ns to stop and 100 ns of collection, then a clock that went
backwards (not counted), then 7 ns and 60 ns. -/
def sample_pauses : List pause_times :=
  [ { stw_elapsed := 5, gc_start_time := { tv_sec := 1, tv_nsec := 0 },
      gc_end_time := { tv_sec := 1, tv_nsec := 100 } },
    { stw_elapsed := 9, gc_start_time := { tv_sec := 3, tv_nsec := 0 },
      gc_end_time := { tv_sec := 2, tv_nsec := 0 } },
    { stw_elapsed := 7, gc_start_time := { tv_sec := 4, tv_nsec := 999999990 },
      gc_end_time := { tv_sec := 5, tv_nsec := 50 } } ]

/-! ## Concrete inputs for the collector -/

/-- A forwarding marker as on x86-64: the first byte of the old location is 1. -/
def sample_forwarding_pointer_p (mem : Nat → Nat) (a : Nat) : Bool := decide (mem a = 1)

/-- The forwarding value is the word after the marker. -/
def sample_forwarding_pointer_value (mem : Nat → Nat) (a : Nat) : Nat :=
  ((List.range 8).map (fun j => mem (a + 8 + j) * 256 ^ j)).sum

/-- Setting the marker stores 1 in the first byte and the new reference in the
second word. -/
def sample_set_forwarding_pointer (mem : Nat → Nat) (a v : Nat) : Nat → Nat :=
  fun x =>
    if x = a then 1
    else if a + 8 ≤ x ∧ x < a + 16 then (v / 256 ^ (x - (a + 8))) % 256
    else mem x

/-- A 64-bit build with hardware page protection: from-space is
`[0x1000, 0x2000)`, immobile space is `[0x8000, 0x9000)`, pages and cards are
32768 bytes, the card table has 16 entries. -/
def sample_gc_config : GcConfig where
  N_WORD_BYTES := 8
  N_LOWTAG_BITS := 4
  FDEFN_WIDETAG := 0x5D
  WP_CLEARED_FLAG := 0x40
  GENCGC_CARD_BYTES := 32768
  LISP_FEATURE_SOFT_CARD_MARKS := false
  LISP_FEATURE_IMMOBILE_SPACE := true
  LISP_FEATURE_DARWIN_JIT := false
  is_lisp_pointer := fun x => decide (x % 4 = 3)
  from_space_p := fun x => decide (0x1000 ≤ x ∧ x < 0x2000)
  immobile_space_p := fun x => decide (0x8000 ≤ x ∧ x < 0x9000)
  base_pointer := fun x => x - x % 16
  forwarding_pointer_p := sample_forwarding_pointer_p
  forwarding_pointer_value := sample_forwarding_pointer_value
  set_forwarding_pointer := sample_set_forwarding_pointer
  gc_alloc_new_region := fun _ _ _ =>
    { start_addr := 0x4000, free_pointer := 0x4000, end_addr := 0x5000 }
  find_page_index := fun a => if a < 0x100000 then ((a / 32768 : Nat) : Int) else -1
  page_address := fun i => i.toNat * 32768
  page_to_card_index := fun i => i.toNat % 16
  addr_to_card_index := fun a => (a / 32768) % 16
  mark_protected := fun m => decide (m = 1)

/-- The same build with soft card marks. -/
def sample_soft_config : GcConfig :=
  { sample_gc_config with LISP_FEATURE_SOFT_CARD_MARKS := true }

/-- A collector state: a two-word object at `0x1000` in from-space, an object of
generation 1 at `0x8000` in immobile space, allocation regions with room at
`0x2000`, an empty weak pointer chain, a weak pointer at `0x6000` to the object
at `0x1000`, card 3 clean and card 5 carrying the mark 2. -/
def sample_gc : Gc where
  mem := fun a =>
    if 0x1000 ≤ a ∧ a < 0x1010 then (a - 0x1000) * 7 + 3
    else if a = 0x8000 then 0x2D
    else if a = 0x8003 then 0x21
    else 0
  gc_copied_nwords := 10
  gc_alloc_region := fun _ => { start_addr := 0x2000, free_pointer := 0x2000, end_addr := 0x3000 }
  from_space := 1
  weak_pointer_chain := 2 ^ 64 - 1
  wps := fun a => if a = 0x6000 then { value := 0x100F, next := 0 } else {}
  gc_card_mark := fun c => if c = 3 then 1 else if c = 5 then 2 else 0
  os_prot := fun a => if 3 * 32768 ≤ a ∧ a < 4 * 32768 then 5 else 7
  page_flags := fun _ => 0

/-- The state `sample_gc` once the object at `0x1000` has been copied to `0x2000`
and its forwarding marker set. -/
def forwarded_gc : Gc :=
  { sample_gc with
    mem := sample_set_forwarding_pointer (memcpy sample_gc.mem 0x2000 0x1000 16) 0x1000 0x200F }

/-- A store of one byte into page 3, as the `operation` of `NON_FAULTING_STORE`. -/
def sample_store (g : Gc) : Gc :=
  { g with mem := Function.update g.mem 98312 7 }

/-- A bitmap of two words on a 64-bit build: bit 1 and bit 64 are set in the low
words, the last word is negative (`-2`, all bits but bit 0). -/
def sample_bitmap : bitmap where
  bits := fun i => if i = 0 then 2 else if i = 1 then -2 else 5
  nwords := 2

/-! ## Lemmas on outcomes, semaphores and stores -/

theorem Res.lost_match (r : Res Unit) (g : World → World) (h : r.lost = false) :
    Res.lost (match r with
      | Res.ret _ w3 => Res.ret () (g w3)
      | Res.lose w3 => Res.lose w3
      | Res.blocked => Res.blocked) = false := by
  cases r with
  | ret u w3 => rfl
  | lose w3 => simp [Res.lost] at h
  | blocked => rfl

theorem Res.eq_ret_of_value {α : Type} (r : Res α) (a : α) (w : World)
    (h : r.value? = some a) : r = Res.ret a (r.world w) := by
  cases r with
  | ret b w1 => simp [Res.value?] at h; simp [Res.world, h]
  | lose w1 => simp [Res.value?] at h
  | blocked => simp [Res.value?] at h


theorem World.ext_fields (w v : World) (h1 : w.all_threads = v.all_threads)
    (h2 : w.mem = v.mem) (h3 : w.all_threads_lock = v.all_threads_lock)
    (h4 : w.recyclebin_threads = v.recyclebin_threads)
    (h5 : w.recyclebin_lock = v.recyclebin_lock) (h6 : w.signals = v.signals)
    (h7 : w.sigmask = v.sigmask) (h8 : w.bytes = v.bytes) (h9 : w.clock = v.clock)
    (h10 : w.stats = v.stats) :
    w = v := by
  cases w; cases v; simp_all

theorem sem_store_value (e : extra_thread_data) (s : SemId) :
    sem_store e s (sem_value e s) = e := by
  cases s <;> rfl

theorem sem_store_store (e : extra_thread_data) (s : SemId) (a b : Nat) :
    sem_store (sem_store e s a) s b = sem_store e s b := by
  cases s <;> rfl

theorem sem_value_store (e : extra_thread_data) (s : SemId) (a : Nat) :
    sem_value (sem_store e s a) s = a := by
  cases s <;> rfl

theorem post_times_eq (s : SemId) (n : Nat) (t : thread) :
    post_times s n t = { t with extra := sem_store t.extra s (sem_value t.extra s + n) } := by
  induction n generalizing t with
  | zero => simp [post_times, sem_store_value]
  | succ n ih =>
    rw [post_times, ih]
    simp [sem_post, sem_store_store, sem_value_store]
    congr 1
    omega

theorem os_sem_wait_free (env : World → World) (fuel th : Nat) (s : SemId) (w : World)
    (h : 0 < sem_value (w.mem th).extra s) :
    os_sem_wait env (fuel + 1) th s w
      = Res.ret () (store_thread w th (sem_take s (w.mem th))) := by
  simp [os_sem_wait, h]

theorem store_thread_mem_same (w : World) (th : Nat) (t : thread) :
    (store_thread w th t).mem th = t := by
  simp [store_thread]

theorem store_thread_store (w : World) (th : Nat) (t u : thread) :
    store_thread (store_thread w th t) th u = store_thread w th u := by
  simp [store_thread]

theorem store_thread_self (w : World) (th : Nat) : store_thread w th (w.mem th) = w := by
  simp [store_thread]

theorem set_thread_state_locked_state_sem (s : Int) (t : thread) :
    (set_thread_state_locked s t).extra.state_sem = t.extra.state_sem := by
  unfold set_thread_state_locked
  split
  · simp only [post_times_eq]
    split <;> split <;> simp [sem_store, sem_value]
  · rfl

theorem set_thread_state_locked_take_post (s : Int) (t : thread)
    (h : 0 < t.extra.state_sem) :
    sem_post SemId.state_sem (set_thread_state_locked s (sem_take SemId.state_sem t))
      = set_thread_state_locked s t := by
  have hpos : t.extra.state_sem - 1 + 1 = t.extra.state_sem := by omega
  unfold set_thread_state_locked
  simp only [post_times_eq, sem_take, sem_post, sem_store, sem_value]
  split
  · split <;> split <;> simp [sem_store, sem_value, hpos]
  · simp only [hpos]

/-- With `state_sem` free, `set_thread_state` returns at once: it has run the
critical section on the target thread and changed nothing else. -/
theorem set_thread_state_free (env : World → World) (fuel th : Nat) (s : Int) (sab : Bool)
    (w : World) (h : 0 < (w.mem th).extra.state_sem) :
    set_thread_state env (fuel + 1) th s sab w
      = Res.ret () (store_thread w th (set_thread_state_locked s (w.mem th))) := by
  cases sab
  · simp only [set_thread_state, Bool.not_false, if_true]
    rw [os_sem_wait_free env fuel th SemId.state_sem _
      (by simpa [block_blockable_signals, sem_value] using h)]
    simp only [os_sem_post, store_thread_mem_same, store_thread_store]
    have hm : (block_blockable_signals w).mem th = w.mem th := rfl
    rw [hm, set_thread_state_locked_take_post s _ h]
    apply congrArg
    apply World.ext_fields <;> simp [thread_sigmask, store_thread, block_blockable_signals]
  · simp only [set_thread_state, Bool.not_true, Bool.false_eq_true, if_false]
    rw [os_sem_wait_free env fuel th SemId.state_sem _ (by simpa [sem_value] using h)]
    simp only [os_sem_post, store_thread_mem_same, store_thread_store]
    rw [set_thread_state_locked_take_post s _ h]

theorem set_thread_state_locked_same (s : Int) (t : thread) (h : t.state = s) :
    set_thread_state_locked s t = t := by
  simp [set_thread_state_locked, h]

theorem set_thread_state_locked_state (s : Int) (t : thread) :
    (set_thread_state_locked s t).state = s := by
  unfold set_thread_state_locked
  split
  · rfl
  · rename_i h
    exact not_not.mp h

theorem set_thread_state_locked_wakes_not_running (s : Int) (t : thread) (h : t.state ≠ s)
    (hs : s = STATE_STOPPED ∨ s = STATE_DEAD) :
    (set_thread_state_locked s t).extra.state_not_running_sem
        = t.extra.state_not_running_sem + t.extra.state_not_running_waitcount.toNat
      ∧ (set_thread_state_locked s t).extra.state_not_running_waitcount = 0 := by
  unfold set_thread_state_locked
  simp only [post_times_eq, h, hs, ne_eq, not_false_eq_true, if_true]
  split <;> simp [sem_store, sem_value]

theorem set_thread_state_locked_wakes_not_stopped (s : Int) (t : thread) (h : t.state ≠ s)
    (hs : s = STATE_RUNNING ∨ s = STATE_DEAD) :
    (set_thread_state_locked s t).extra.state_not_stopped_sem
        = t.extra.state_not_stopped_sem + t.extra.state_not_stopped_waitcount.toNat
      ∧ (set_thread_state_locked s t).extra.state_not_stopped_waitcount = 0 := by
  unfold set_thread_state_locked
  simp only [post_times_eq, h, hs, ne_eq, not_false_eq_true, if_true]
  split <;> simp [sem_store, sem_value]

theorem set_thread_state_locked_keeps_not_stopped (s : Int) (t : thread)
    (hs : ¬ (s = STATE_RUNNING ∨ s = STATE_DEAD)) :
    (set_thread_state_locked s t).extra.state_not_stopped_sem = t.extra.state_not_stopped_sem
      ∧ (set_thread_state_locked s t).extra.state_not_stopped_waitcount
          = t.extra.state_not_stopped_waitcount := by
  unfold set_thread_state_locked
  simp only [post_times_eq, hs, if_false]
  split <;> [skip; exact ⟨rfl, rfl⟩]
  split <;> simp [sem_store, sem_value]

theorem set_thread_state_locked_keeps_not_running (s : Int) (t : thread)
    (hs : ¬ (s = STATE_STOPPED ∨ s = STATE_DEAD)) :
    (set_thread_state_locked s t).extra.state_not_running_sem = t.extra.state_not_running_sem
      ∧ (set_thread_state_locked s t).extra.state_not_running_waitcount
          = t.extra.state_not_running_waitcount := by
  unfold set_thread_state_locked
  simp only [post_times_eq, hs, if_false]
  split <;> [skip; exact ⟨rfl, rfl⟩]
  split <;> simp [sem_store, sem_value]

/-! ## The thread state machine: `set_thread_state` -/

/-- C1: `set_thread_state` is a no-op when the state is unchanged.  The critical
section (lines 136-152) returns the thread record as it found it whenever the
state already equals the requested one, and, with `state_sem` free, the whole
call returns in the world it started from: the thread's state, both wait
counts and all three semaphores are as before, so neither
`state_not_running_sem` nor `state_not_stopped_sem` was posted. -/
theorem C1_set_thread_state_same_state_noop (env : World → World) (fuel th : Nat) (s : Int)
    (sab : Bool) (w : World) (hstate : (w.mem th).state = s)
    (hsem : 0 < (w.mem th).extra.state_sem) :
    set_thread_state_locked s (w.mem th) = w.mem th
      ∧ set_thread_state env (fuel + 1) th s sab w = Res.ret () w := by
  refine ⟨set_thread_state_locked_same s _ hstate, ?_⟩
  rw [set_thread_state_free env fuel th s sab w hsem, set_thread_state_locked_same s _ hstate,
    store_thread_self]

theorem C1_witness :
    (sample_world.mem 5).state = STATE_RUNNING
      ∧ 0 < (sample_world.mem 5).extra.state_sem
      ∧ set_thread_state_locked STATE_RUNNING (sample_world.mem 5) = sample_world.mem 5
      ∧ set_thread_state id 1 5 STATE_RUNNING false sample_world = Res.ret () sample_world :=
  ⟨by decide, by decide,
    C1_set_thread_state_same_state_noop id 0 5 STATE_RUNNING false sample_world
      (by decide) (by decide)⟩

theorem os_sem_post_state (th : Nat) (s : SemId) (w : World) (p : Nat) :
    ((os_sem_post th s w).mem p).state = (w.mem p).state := by
  unfold os_sem_post store_thread
  by_cases hp : p = th
  · subst hp; simp [sem_post]
  · simp [Function.update_noteq hp]

/-- Whenever `set_thread_state` returns, contended or not, the thread's state
is the requested one. -/
theorem set_thread_state_ret_state (env : World → World) (fuel th : Nat) (s : Int)
    (sab : Bool) (w w1 : World) (h : set_thread_state env fuel th s sab w = Res.ret () w1) :
    (w1.mem th).state = s := by
  unfold set_thread_state at h
  simp only at h
  split at h
  · rename_i u wr hwait
    simp only [Res.ret.injEq, true_and] at h
    have key : ((os_sem_post th SemId.state_sem
        (store_thread wr th (set_thread_state_locked s (wr.mem th)))).mem th).state = s := by
      rw [os_sem_post_state, store_thread_mem_same, set_thread_state_locked_state]
    rw [← h]
    split
    · exact key
    · exact key
  · simp at h
  · simp at h

/-- C2: when the thread's state differs from the requested state `s` (and
`state_sem` is free, so the call does not block), `set_thread_state` returns
with the thread's state equal to `s` (as it is whenever the call returns, also
after waiting for a contended `state_sem`); a transition to STOPPED or DEAD posts
`state_not_running_sem` once per registered waiter (its value grows by
`state_not_running_waitcount`) and resets that count to 0; a transition to
RUNNING or DEAD does the same for `state_not_stopped_sem` and
`state_not_stopped_waitcount`; a transition to STOPPED leaves the not-stopped
semaphore and count alone, and a transition to RUNNING leaves the not-running
semaphore and count alone. -/
theorem C2_set_thread_state_transition (env : World → World) (fuel th : Nat) (s : Int)
    (sab : Bool) (w : World) (hne : (w.mem th).state ≠ s)
    (hsem : 0 < (w.mem th).extra.state_sem) :
    (∃ w1, set_thread_state env (fuel + 1) th s sab w = Res.ret () w1
      ∧ (w1.mem th).state = s
      ∧ (s = STATE_STOPPED ∨ s = STATE_DEAD →
          (w1.mem th).extra.state_not_running_sem
              = (w.mem th).extra.state_not_running_sem
                + (w.mem th).extra.state_not_running_waitcount.toNat
            ∧ (w1.mem th).extra.state_not_running_waitcount = 0)
      ∧ (s = STATE_RUNNING ∨ s = STATE_DEAD →
          (w1.mem th).extra.state_not_stopped_sem
              = (w.mem th).extra.state_not_stopped_sem
                + (w.mem th).extra.state_not_stopped_waitcount.toNat
            ∧ (w1.mem th).extra.state_not_stopped_waitcount = 0)
      ∧ (s = STATE_STOPPED →
          (w1.mem th).extra.state_not_stopped_sem = (w.mem th).extra.state_not_stopped_sem
            ∧ (w1.mem th).extra.state_not_stopped_waitcount
                = (w.mem th).extra.state_not_stopped_waitcount)
      ∧ (s = STATE_RUNNING →
          (w1.mem th).extra.state_not_running_sem = (w.mem th).extra.state_not_running_sem
            ∧ (w1.mem th).extra.state_not_running_waitcount
                = (w.mem th).extra.state_not_running_waitcount))
      ∧ ∀ (k : Nat) (e : World → World) (v v1 : World),
          set_thread_state e k th s sab v = Res.ret () v1 → (v1.mem th).state = s := by
  refine ⟨⟨_, set_thread_state_free env fuel th s sab w hsem, ?_⟩,
    fun k e v v1 h => set_thread_state_ret_state e k th s sab v v1 h⟩
  rw [store_thread_mem_same]
  refine ⟨set_thread_state_locked_state s _, ?_, ?_, ?_, ?_⟩
  · exact set_thread_state_locked_wakes_not_running s _ hne
  · exact set_thread_state_locked_wakes_not_stopped s _ hne
  · intro hs
    apply set_thread_state_locked_keeps_not_stopped
    subst hs
    decide
  · intro hs
    apply set_thread_state_locked_keeps_not_running
    subst hs
    decide

theorem C2_witness :
    (sample_world.mem 5).state ≠ STATE_DEAD
      ∧ 0 < (sample_world.mem 5).extra.state_sem
      ∧ ∃ w1, set_thread_state id 1 5 STATE_DEAD false sample_world = Res.ret () w1
          ∧ (w1.mem 5).state = STATE_DEAD
          ∧ (w1.mem 5).extra.state_not_running_sem = 2
          ∧ (w1.mem 5).extra.state_not_running_waitcount = 0
          ∧ (w1.mem 5).extra.state_not_stopped_sem = 1
          ∧ (w1.mem 5).extra.state_not_stopped_waitcount = 0 := by
  refine ⟨by decide, by decide, ?_⟩
  obtain ⟨⟨w1, h, hs, h1, h2, _, _⟩, _⟩ :=
    C2_set_thread_state_transition id 0 5 STATE_DEAD false sample_world (by decide) (by decide)
  exact ⟨w1, h, hs, (h1 (Or.inr rfl)).1, (h1 (Or.inr rfl)).2, (h2 (Or.inr rfl)).1,
    (h2 (Or.inr rfl)).2⟩

/-! ## The thread state machine: `thread_wait_until_not` -/

theorem thread_wait_until_not_loop_ret (env : World → World) :
    ∀ (fuel : Nat) (u : Int) (th : Nat) (w : World) (s : Int) (w1 : World),
      thread_wait_until_not_loop env fuel u th w = Res.ret s w1 →
      s ≠ u ∧ ∃ k wp wr, os_sem_wait env k th SemId.state_sem wp = Res.ret () wr
        ∧ s = get_thread_state th wr ∧ w1 = os_sem_post th SemId.state_sem wr := by
  intro fuel
  induction fuel with
  | zero => intro u th w s w1 h; simp [thread_wait_until_not_loop] at h
  | succ fuel ih =>
    intro u th w s w1 h
    rw [thread_wait_until_not_loop] at h
    split at h
    · rename_i x wr hwait
      simp only at h
      split at h
      · split at h
        · split at h
          · exact ih _ _ _ _ _ h
          · simp at h
          · simp at h
        · split at h
          · split at h
            · exact ih _ _ _ _ _ h
            · simp at h
            · simp at h
          · simp at h
      · rename_i hne
        simp only [Res.ret.injEq] at h
        obtain ⟨h1, h2⟩ := h
        subst h1
        exact ⟨hne, fuel + 1, w, wr, hwait, rfl, h2.symm⟩
    · simp at h
    · simp at h

theorem thread_wait_until_not_loop_running (env : World → World) (fuel : Nat) (th : Nat)
    (w w1 : World)
    (hwait : os_sem_wait env (fuel + 1) th SemId.state_sem w = Res.ret () w1)
    (hobs : get_thread_state th w1 = STATE_RUNNING) :
    thread_wait_until_not_loop env (fuel + 1) STATE_RUNNING th w
      = match os_sem_wait env (fuel + 1) th SemId.state_not_running_sem
          (os_sem_post th SemId.state_sem
            (store_thread w1 th (incr_not_running_waitcount (w1.mem th)))) with
        | Res.ret _ w4 => thread_wait_until_not_loop env fuel STATE_RUNNING th w4
        | Res.lose w4 => Res.lose w4
        | Res.blocked => Res.blocked := by
  rw [thread_wait_until_not_loop, hwait]
  simp only [hobs, if_true]

theorem thread_wait_until_not_loop_stopped (env : World → World) (fuel : Nat) (th : Nat)
    (w w1 : World)
    (hwait : os_sem_wait env (fuel + 1) th SemId.state_sem w = Res.ret () w1)
    (hobs : get_thread_state th w1 = STATE_STOPPED) :
    thread_wait_until_not_loop env (fuel + 1) STATE_STOPPED th w
      = match os_sem_wait env (fuel + 1) th SemId.state_not_stopped_sem
          (os_sem_post th SemId.state_sem
            (store_thread w1 th (incr_not_stopped_waitcount (w1.mem th)))) with
        | Res.ret _ w4 => thread_wait_until_not_loop env fuel STATE_STOPPED th w4
        | Res.lose w4 => Res.lose w4
        | Res.blocked => Res.blocked := by
  rw [thread_wait_until_not_loop, hwait]
  have hne : ¬ (STATE_STOPPED = STATE_RUNNING) := by decide
  simp only [hobs, if_true, hne, if_false]

/-- The world in which a waiter for "not RUNNING" goes to sleep: the count of
such waiters and the value of `state_sem` have both gone up by one. -/
theorem not_running_waiter_world (w1 : World) (th : Nat) :
    os_sem_post th SemId.state_sem
        (store_thread w1 th (incr_not_running_waitcount (w1.mem th)))
      = store_thread w1 th
          { (w1.mem th) with
            extra := { (w1.mem th).extra with
              state_sem := (w1.mem th).extra.state_sem + 1,
              state_not_running_waitcount :=
                (w1.mem th).extra.state_not_running_waitcount + 1 } } := by
  simp [os_sem_post, store_thread, sem_post, sem_store, sem_value, incr_not_running_waitcount]

/-- The world in which a waiter for "not STOPPED" goes to sleep. -/
theorem not_stopped_waiter_world (w1 : World) (th : Nat) :
    os_sem_post th SemId.state_sem
        (store_thread w1 th (incr_not_stopped_waitcount (w1.mem th)))
      = store_thread w1 th
          { (w1.mem th) with
            extra := { (w1.mem th).extra with
              state_sem := (w1.mem th).extra.state_sem + 1,
              state_not_stopped_waitcount :=
                (w1.mem th).extra.state_not_stopped_waitcount + 1 } } := by
  simp [os_sem_post, store_thread, sem_post, sem_store, sem_value, incr_not_stopped_waitcount]

/-- C3: whenever `thread_wait_until_not(undesired_state, thread)` returns, the
value returned differs from `undesired_state` and is the thread's state as
read right after a successful `os_sem_wait(state_sem)` (the last pass), the
only later effects being the post of `state_sem` and the restoring of the
signal mask, so it is also the state found in the world returned.  A pass that
reads a state other than `undesired_state` returns it at once.  A pass that
reads `undesired_state` does not return: for RUNNING it goes to sleep on
`state_not_running_sem` in the world where the thread's
`state_not_running_waitcount` (an `int`, taken below `INT_MAX`) is one more
than it was read under `state_sem` (and `state_sem` has been posted, nothing
else having changed), and the outcome is that of starting over after the
sleep; for STOPPED likewise with `state_not_stopped_waitcount` and
`state_not_stopped_sem`. -/
theorem C3_thread_wait_until_not_result (env : World → World) (th : Nat) :
    (∀ (fuel : Nat) (u : Int) (w : World) (s : Int) (w1 : World),
        thread_wait_until_not env fuel u th w = Res.ret s w1 →
        s ≠ u ∧ (w1.mem th).state = s
          ∧ ∃ k wp wr, os_sem_wait env k th SemId.state_sem wp = Res.ret () wr
              ∧ s = get_thread_state th wr
              ∧ w1 = thread_sigmask w.sigmask (os_sem_post th SemId.state_sem wr))
      ∧ (∀ (fuel : Nat) (w w1 : World),
          os_sem_wait env (fuel + 1) th SemId.state_sem w = Res.ret () w1 →
          get_thread_state th w1 = STATE_RUNNING →
          (w1.mem th).extra.state_not_running_waitcount < 2 ^ (INT_BITS - 1) - 1 →
          thread_wait_until_not_loop env (fuel + 1) STATE_RUNNING th w
            = match os_sem_wait env (fuel + 1) th SemId.state_not_running_sem
                (store_thread w1 th
                  { (w1.mem th) with
                    extra := { (w1.mem th).extra with
                      state_sem := (w1.mem th).extra.state_sem + 1,
                      state_not_running_waitcount :=
                        (w1.mem th).extra.state_not_running_waitcount + 1 } }) with
              | Res.ret _ w4 => thread_wait_until_not_loop env fuel STATE_RUNNING th w4
              | Res.lose w4 => Res.lose w4
              | Res.blocked => Res.blocked)
      ∧ (∀ (fuel : Nat) (w w1 : World),
          os_sem_wait env (fuel + 1) th SemId.state_sem w = Res.ret () w1 →
          get_thread_state th w1 = STATE_STOPPED →
          (w1.mem th).extra.state_not_stopped_waitcount < 2 ^ (INT_BITS - 1) - 1 →
          thread_wait_until_not_loop env (fuel + 1) STATE_STOPPED th w
            = match os_sem_wait env (fuel + 1) th SemId.state_not_stopped_sem
                (store_thread w1 th
                  { (w1.mem th) with
                    extra := { (w1.mem th).extra with
                      state_sem := (w1.mem th).extra.state_sem + 1,
                      state_not_stopped_waitcount :=
                        (w1.mem th).extra.state_not_stopped_waitcount + 1 } }) with
              | Res.ret _ w4 => thread_wait_until_not_loop env fuel STATE_STOPPED th w4
              | Res.lose w4 => Res.lose w4
              | Res.blocked => Res.blocked)
      ∧ (∀ (fuel : Nat) (u : Int) (w w1 : World),
          os_sem_wait env (fuel + 1) th SemId.state_sem w = Res.ret () w1 →
          get_thread_state th w1 ≠ u →
          thread_wait_until_not_loop env (fuel + 1) u th w
            = Res.ret (get_thread_state th w1) (os_sem_post th SemId.state_sem w1)) := by
  refine ⟨?_, ?_, ?_, ?_⟩
  · intro fuel u w s w1 h
    unfold thread_wait_until_not at h
    simp only at h
    split at h
    · rename_i e w2 hloop
      simp only [Res.ret.injEq] at h
      obtain ⟨h1, h2⟩ := h
      subst h1
      obtain ⟨hne, k, wp, wr, hk, hs, hw⟩ :=
        thread_wait_until_not_loop_ret env fuel u th _ _ _ hloop
      refine ⟨hne, ?_, k, wp, wr, hk, hs, ?_⟩
      · rw [← h2, hw, hs]
        show ((os_sem_post th SemId.state_sem wr).mem th).state = _
        rw [os_sem_post_state]
        rfl
      · rw [← h2, hw]
    · simp at h
    · simp at h
  · intro fuel w w1 hwait hobs _
    rw [← not_running_waiter_world]
    exact thread_wait_until_not_loop_running env fuel th w w1 hwait hobs
  · intro fuel w w1 hwait hobs _
    rw [← not_stopped_waiter_world]
    exact thread_wait_until_not_loop_stopped env fuel th w w1 hwait hobs
  · intro fuel u w w1 hwait hobs
    rw [thread_wait_until_not_loop, hwait]
    simp only [hobs, if_false]

theorem C3_witness :
    (thread_wait_until_not (stop_handler 5) 2 STATE_RUNNING 5 sample_world).value?
        = some STATE_STOPPED
      ∧ STATE_STOPPED ≠ STATE_RUNNING
      ∧ ((Res.world sample_world
          (thread_wait_until_not (stop_handler 5) 2 STATE_RUNNING 5 sample_world)).mem 5).state
          = STATE_STOPPED
      ∧ ((Res.world sample_world
          (thread_wait_until_not (stop_handler 5) 2 STATE_RUNNING 5 sample_world)).mem
            5).extra.state_not_running_sem = 2
      ∧ thread_wait_until_not_loop (stop_handler 5) 2 STATE_RUNNING 5 sample_world
          = match os_sem_wait (stop_handler 5) 2 5 SemId.state_not_running_sem
              (store_thread sample_world 5
                { sample_thread with
                  extra := { state_sem := 1, state_not_running_waitcount := 3,
                             state_not_stopped_waitcount := 1 } }) with
            | Res.ret _ w4 => thread_wait_until_not_loop (stop_handler 5) 1 STATE_RUNNING 5 w4
            | Res.lose w4 => Res.lose w4
            | Res.blocked => Res.blocked := by
  have h := Res.eq_ret_of_value
    (thread_wait_until_not (stop_handler 5) 2 STATE_RUNNING 5 sample_world) STATE_STOPPED
    sample_world (by decide)
  have h3 := (C3_thread_wait_until_not_result (stop_handler 5) 5).1 2 STATE_RUNNING
    sample_world STATE_STOPPED _ h
  have hw : os_sem_wait (stop_handler 5) 2 5 SemId.state_sem sample_world
      = Res.ret () (store_thread sample_world 5 (sem_take SemId.state_sem sample_thread)) := by
    simp [os_sem_wait, sem_value, sample_world, sample_thread]
  have h2 := (C3_thread_wait_until_not_result (stop_handler 5) 5).2.1 1 sample_world _ hw
    (by decide) (by decide)
  have hW : store_thread (store_thread sample_world 5 (sem_take SemId.state_sem sample_thread)) 5
      { ((store_thread sample_world 5 (sem_take SemId.state_sem sample_thread)).mem 5) with
        extra := { ((store_thread sample_world 5
            (sem_take SemId.state_sem sample_thread)).mem 5).extra with
          state_sem := ((store_thread sample_world 5
            (sem_take SemId.state_sem sample_thread)).mem 5).extra.state_sem + 1,
          state_not_running_waitcount := ((store_thread sample_world 5
            (sem_take SemId.state_sem sample_thread)).mem 5).extra.state_not_running_waitcount
              + 1 } }
      = store_thread sample_world 5
          { sample_thread with
            extra := { state_sem := 1, state_not_running_waitcount := 3,
                       state_not_stopped_waitcount := 1 } } := by
    simp [store_thread, sem_take, sem_store, sem_value, sample_thread]
  rw [hW] at h2
  exact ⟨by decide, h3.1, h3.2.1, by decide, h2⟩

/-! ## Frame lemmas -/

theorem Frame.step_refl (S : List Nat) (w : World) : Frame S w w :=
  ⟨rfl, rfl, fun _ _ => rfl, fun _ _ h => h⟩

theorem Frame.step_trans {S : List Nat} {a b c : World} (h1 : Frame S a b)
    (h2 : Frame S b c) : Frame S a c :=
  ⟨h2.1.trans h1.1, h2.2.1.trans h1.2.1, fun p hp => (h2.2.2.1 p hp).trans (h1.2.2.1 p hp),
    fun p hp h => h2.2.2.2 p hp (h1.2.2.2 p hp h)⟩

theorem FrameS.quiet_refl (S : List Nat) (w : World) : FrameS S w w :=
  ⟨Frame.step_refl S w, rfl⟩

theorem FrameS.quiet_trans {S : List Nat} {a b c : World} (h1 : FrameS S a b)
    (h2 : FrameS S b c) : FrameS S a c :=
  ⟨h1.1.step_trans h2.1, h2.2.trans h1.2⟩

/-- A step that keeps the lock, the registry head, the signals sent and the
thread structures listed in `S` is a `FrameS S` step, whatever it writes
elsewhere. -/
theorem frameS_of_mem_eq (S : List Nat) (w w1 : World)
    (hl : w1.all_threads_lock = w.all_threads_lock) (ha : w1.all_threads = w.all_threads)
    (hs : w1.signals = w.signals) (hm : ∀ p ∈ S, w1.mem p = w.mem p) : FrameS S w w1 :=
  ⟨⟨hl, ha, fun p hp => by rw [hm p hp], fun p hp h => by rw [hm p hp]; exact h⟩, hs⟩

theorem store_thread_frameS (S : List Nat) (w : World) (th : Nat) (t : thread)
    (hnext : t.next = (w.mem th).next)
    (hstate : (w.mem th).state ≠ STATE_RUNNING → t.state ≠ STATE_RUNNING) :
    FrameS S w (store_thread w th t) := by
  refine ⟨⟨rfl, rfl, ?_, ?_⟩, rfl⟩
  · intro p _
    by_cases hp : p = th
    · subst hp; simp [store_thread, hnext]
    · simp [store_thread, Function.update_noteq hp]
  · intro p _ h
    by_cases hp : p = th
    · subst hp; simpa [store_thread] using hstate h
    · simpa [store_thread, Function.update_noteq hp] using h

theorem os_sem_post_frameS (S : List Nat) (th : Nat) (s : SemId) (w : World) :
    FrameS S w (os_sem_post th s w) :=
  store_thread_frameS S w th _ rfl (fun h => h)

theorem sigmask_frameS (S : List Nat) (w : World) (b : Bool) :
    FrameS S w { w with sigmask := b } :=
  ⟨⟨rfl, rfl, fun _ _ => rfl, fun _ _ h => h⟩, rfl⟩

theorem os_sem_wait_frameS (me : Nat) (S : List Nat) (env : World → World) (hE : Rely me S env) :
    ∀ (fuel th : Nat) (s : SemId) (w w1 : World), w.all_threads_lock = some me →
      os_sem_wait env fuel th s w = Res.ret () w1 → FrameS S w w1 := by
  intro fuel
  induction fuel with
  | zero => intro th s w w1 _ h; simp [os_sem_wait] at h
  | succ fuel ih =>
    intro th s w w1 hl h
    rw [os_sem_wait] at h
    split at h
    · simp only [Res.ret.injEq, true_and] at h
      rw [← h]
      exact store_thread_frameS S w th _ rfl (fun h => h)
    · have hf := hE w hl
      exact hf.quiet_trans (ih th s (env w) w1 (hf.1.1.trans hl) h)

theorem thread_wait_until_not_loop_frameS (me : Nat) (S : List Nat) (env : World → World) (hE : Rely me S env) :
    ∀ (fuel : Nat) (u : Int) (th : Nat) (w : World) (s : Int) (w1 : World),
      w.all_threads_lock = some me →
      thread_wait_until_not_loop env fuel u th w = Res.ret s w1 → FrameS S w w1 := by
  intro fuel
  induction fuel with
  | zero => intro u th w s w1 _ h; simp [thread_wait_until_not_loop] at h
  | succ fuel ih =>
    intro u th w s w1 hl h
    rw [thread_wait_until_not_loop] at h
    split at h
    · rename_i x wr hwait
      have f1 := os_sem_wait_frameS me S env hE _ _ _ _ _ hl hwait
      simp only at h
      split at h
      · split at h
        · split at h
          · rename_i y w4 hwait2
            have f2 : FrameS S wr (store_thread wr th (incr_not_running_waitcount (wr.mem th))) :=
              store_thread_frameS S wr th _ rfl (fun h => h)
            have f3 := f1.quiet_trans (f2.quiet_trans (os_sem_post_frameS S th SemId.state_sem _))
            have f4 := os_sem_wait_frameS me S env hE _ _ _ _ _ (f3.1.1.trans hl) hwait2
            have f5 := f3.quiet_trans f4
            exact f5.quiet_trans (ih _ _ _ _ _ (f5.1.1.trans hl) h)
          · simp at h
          · simp at h
        · split at h
          · split at h
            · rename_i y w4 hwait2
              have f2 : FrameS S wr (store_thread wr th (incr_not_stopped_waitcount (wr.mem th))) :=
                store_thread_frameS S wr th _ rfl (fun h => h)
              have f3 := f1.quiet_trans (f2.quiet_trans (os_sem_post_frameS S th SemId.state_sem _))
              have f4 := os_sem_wait_frameS me S env hE _ _ _ _ _ (f3.1.1.trans hl) hwait2
              have f5 := f3.quiet_trans f4
              exact f5.quiet_trans (ih _ _ _ _ _ (f5.1.1.trans hl) h)
            · simp at h
            · simp at h
          · simp at h
      · simp only [Res.ret.injEq] at h
        rw [← h.2]
        exact f1.quiet_trans (os_sem_post_frameS S th SemId.state_sem _)
    · simp at h
    · simp at h

theorem thread_wait_until_not_frameS (me : Nat) (S : List Nat) (env : World → World) (hE : Rely me S env)
    (fuel : Nat) (u : Int) (th : Nat) (w : World) (s : Int) (w1 : World)
    (hl : w.all_threads_lock = some me)
    (h : thread_wait_until_not env fuel u th w = Res.ret s w1) :
    FrameS S w w1 ∧ s ≠ u ∧ (w1.mem th).state = s := by
  unfold thread_wait_until_not at h
  simp only at h
  split at h
  · rename_i e w2 hloop
    simp only [Res.ret.injEq] at h
    obtain ⟨h1, h2⟩ := h
    subst h1
    have f1 : FrameS S w (block_blockable_signals w) := sigmask_frameS S w true
    have f2 := thread_wait_until_not_loop_frameS me S env hE _ _ _ _ _ _
      (f1.1.1.trans hl) hloop
    obtain ⟨hne, k, wp, wr, _, hs, hw⟩ := thread_wait_until_not_loop_ret env fuel u th _ _ _ hloop
    refine ⟨?_, hne, ?_⟩
    · rw [← h2]
      exact f1.quiet_trans (f2.quiet_trans (sigmask_frameS S w2 _))
    · rw [← h2, hw, hs]
      show ((os_sem_post th SemId.state_sem wr).mem th).state = _
      rw [os_sem_post_state]
      rfl
  · simp at h
  · simp at h

/-! ## Traversals of the registry -/

theorem threads_from_congr (m1 m2 : Nat → thread) (h : ∀ p, (m1 p).next = (m2 p).next) :
    ∀ (fuel th : Nat), threads_from m1 fuel th = threads_from m2 fuel th := by
  intro fuel
  induction fuel with
  | zero => intro th; rfl
  | succ fuel ih =>
    intro th
    simp only [threads_from, h th, ih]

theorem threads_from_cons (m : Nat → thread) (n th : Nat) (ts : List Nat) (hth : th ≠ 0)
    (h : threads_from m n th = some ts) :
    ∃ k rest, n = k + 1 ∧ ts = th :: rest ∧ threads_from m k (m th).next = some rest := by
  cases n with
  | zero => simp [threads_from, hth] at h
  | succ k =>
    simp only [threads_from, hth, if_false, Option.map_eq_some'] at h
    obtain ⟨rest, h1, h2⟩ := h
    exact ⟨k, rest, rfl, h2.symm, h1⟩

theorem threads_from_null (m : Nat → thread) (n : Nat) : threads_from m n 0 = some [] := by
  cases n <;> simp [threads_from]

theorem threads_from_unique (m : Nat → thread) :
    ∀ (n k th : Nat) (ts us : List Nat), threads_from m n th = some ts →
      threads_from m k th = some us → ts = us := by
  intro n
  induction n with
  | zero =>
    intro k th ts us h1 h2
    by_cases hth : th = 0
    · subst hth
      rw [threads_from_null] at h1 h2
      simp only [Option.some.injEq] at h1 h2
      rw [← h1, ← h2]
    · simp [threads_from, hth] at h1
  | succ n ih =>
    intro k th ts us h1 h2
    by_cases hth : th = 0
    · subst hth
      rw [threads_from_null] at h1 h2
      simp only [Option.some.injEq] at h1 h2
      rw [← h1, ← h2]
    · obtain ⟨a, r1, ha, hts, hr1⟩ := threads_from_cons m _ th ts hth h1
      obtain ⟨b, r2, hb, hus, hr2⟩ := threads_from_cons m _ th us hth h2
      have ha2 : a = n := by omega
      subst ha2
      rw [hts, hus, ih b _ r1 r2 hr1 hr2]

theorem threads_from_congr_on (m1 m2 : Nat → thread) :
    ∀ (n p : Nat) (ts : List Nat), threads_from m1 n p = some ts →
      (∀ x ∈ ts, (m2 x).next = (m1 x).next) → threads_from m2 n p = some ts := by
  intro n
  induction n with
  | zero =>
    intro p ts h _
    by_cases hp : p = 0
    · subst hp; rw [threads_from_null] at h ⊢; exact h
    · simp [threads_from, hp] at h
  | succ n ih =>
    intro p ts h hm
    by_cases hp : p = 0
    · subst hp; rw [threads_from_null] at h ⊢; exact h
    · obtain ⟨k, rest, hk, hcons, hrest⟩ := threads_from_cons m1 _ p ts hp h
      have hk2 : k = n := by omega
      subst hk2
      subst hcons
      simp only [threads_from, hp, if_false]
      rw [hm p (List.mem_cons_self _ _),
        ih _ rest hrest (fun x hx => hm x (List.mem_cons_of_mem _ hx))]
      rfl

/-- A loop over the registry whose body makes `R` steps (with `R` reflexive,
transitive, keeping the `next` links of the threads listed in `S` and the
invariant `I`) makes an `R` step as a whole, and a postcondition `Q th`
established by the body for the thread it ran on and kept by `R` steps for the
threads of `S` holds at the end for every thread visited, when those are
threads of `S`. -/
theorem for_each_thread_inv (body : Nat → World → Res Unit) (S : List Nat)
    (R : World → World → Prop) (I : World → Prop) (Q : Nat → World → Prop)
    (hrefl : ∀ w, R w w) (htrans : ∀ a b c, R a b → R b c → R a c)
    (hnext : ∀ w w1, R w w1 → ∀ p ∈ S, (w1.mem p).next = (w.mem p).next)
    (hI : ∀ w w1, I w → R w w1 → I w1)
    (hQ : ∀ th ∈ S, ∀ w w1, R w w1 → Q th w → Q th w1)
    (hbody : ∀ th w w1, I w → body th w = Res.ret () w1 → R w w1 ∧ Q th w1) :
    ∀ (fuel th : Nat) (w w1 : World), I w → for_each_thread body fuel th w = Res.ret () w1 →
      R w w1 ∧ ∀ n ts, threads_from w.mem n th = some ts → (∀ x ∈ ts, x ∈ S) →
        ∀ x ∈ ts, Q x w1 := by
  intro fuel
  induction fuel with
  | zero =>
    intro th w w1 _ h
    by_cases hth : th = 0
    · subst hth
      simp only [for_each_thread, if_true, Res.ret.injEq, true_and] at h
      subst h
      refine ⟨hrefl w, ?_⟩
      intro n ts hts _ x hx
      rw [threads_from_null] at hts
      simp only [Option.some.injEq] at hts
      subst hts
      simp at hx
    · simp [for_each_thread, hth] at h
  | succ fuel ih =>
    intro th w w1 hw h
    by_cases hth : th = 0
    · subst hth
      simp only [for_each_thread, if_true, Res.ret.injEq, true_and] at h
      subst h
      refine ⟨hrefl w, ?_⟩
      intro n ts hts _ x hx
      rw [threads_from_null] at hts
      simp only [Option.some.injEq] at hts
      subst hts
      simp at hx
    · simp only [for_each_thread, hth, if_false] at h
      split at h
      · rename_i u w2 hb
        obtain ⟨r1, q1⟩ := hbody th w w2 hw hb
        obtain ⟨r2, q2⟩ := ih _ w2 w1 (hI w w2 hw r1) h
        refine ⟨htrans _ _ _ r1 r2, ?_⟩
        intro n ts hts hS x hx
        obtain ⟨k, rest, _, hcons, hrest⟩ := threads_from_cons w.mem n th ts hth hts
        subst hcons
        have hthS : th ∈ S := hS th (List.mem_cons_self _ _)
        have hrS : ∀ y ∈ rest, y ∈ S := fun y hy => hS y (List.mem_cons_of_mem _ hy)
        rcases List.mem_cons.mp hx with hx1 | hx2
        · rw [hx1]
          exact hQ th hthS w2 w1 r2 q1
        · have hrest2 := threads_from_congr_on w.mem w2.mem k _ rest hrest
            (fun y hy => hnext w w2 r1 y (hrS y hy))
          rw [← hnext w w2 r1 th hthS] at hrest2
          exact q2 k rest hrest2 hrS x hx2
      · simp at h
      · simp at h

/-! ## `gc_stop_the_world`: postcondition -/

theorem lock_all_threads_ret (env : World → World) :
    ∀ (fuel me : Nat) (w : World) (rc : Int) (w1 : World),
      lock_all_threads env fuel me w = Res.ret rc w1 →
      rc = 0 ∧ w1.all_threads_lock = some me := by
  intro fuel
  induction fuel with
  | zero => intro me w rc w1 h; simp [lock_all_threads] at h
  | succ fuel ih =>
    intro me w rc w1 h
    rw [lock_all_threads] at h
    split at h
    · simp only [Res.ret.injEq] at h
      rw [← h.1, ← h.2]
      exact ⟨rfl, rfl⟩
    · exact ih _ _ _ _ h

theorem gc_stop_signal_thread_frame (me : Nat) (S : List Nat) (env : World → World)
    (hE : Rely me S env)
    (pk : Nat → Int) (fuel th : Nat) (w w1 : World) (hl : w.all_threads_lock = some me)
    (h : gc_stop_signal_thread env pk fuel me th w = Res.ret () w1) : Frame S w w1 := by
  unfold gc_stop_signal_thread at h
  split at h
  · split at h
    · simp at h
    · split at h
      · rename_i x wr hwait
        have f1 := (os_sem_wait_frameS me S env hE _ _ _ _ _ hl hwait).1
        simp only at h
        split at h
        · split at h
          · simp at h
          · simp only [Res.ret.injEq, true_and] at h
            rw [← h]
            have f2 : Frame S wr { wr with signals := wr.signals ++ [(wr.mem th).os_thread] } :=
              ⟨rfl, rfl, fun _ _ => rfl, fun _ _ h => h⟩
            exact f1.step_trans (f2.step_trans (os_sem_post_frameS S th SemId.state_sem _).1)
        · simp only [Res.ret.injEq, true_and] at h
          rw [← h]
          exact f1.step_trans (os_sem_post_frameS S th SemId.state_sem _).1
      · simp at h
      · simp at h
  · simp only [Res.ret.injEq, true_and] at h
    rw [← h]
    exact Frame.step_refl S w

theorem gc_stop_wait_thread_frameS (me : Nat) (S : List Nat) (env : World → World)
    (hE : Rely me S env)
    (fuel th : Nat) (w w1 : World) (hl : w.all_threads_lock = some me)
    (h : gc_stop_wait_thread env fuel me th w = Res.ret () w1) :
    FrameS S w w1 ∧ (th ≠ me → (w1.mem th).state ≠ STATE_RUNNING) := by
  unfold gc_stop_wait_thread at h
  split at h
  · split at h
    · rename_i st w2 hwait
      obtain ⟨f, hne, hst⟩ := thread_wait_until_not_frameS me S env hE _ _ _ _ _ _ hl hwait
      rw [if_pos hne] at h
      simp only [Res.ret.injEq, true_and] at h
      subst h
      exact ⟨f, fun _ => by rw [hst]; exact hne⟩
    · simp at h
    · simp at h
  · rename_i hme
    simp only [Res.ret.injEq, true_and] at h
    subst h
    exact ⟨FrameS.quiet_refl S w, fun hne => absurd hne hme⟩

/-- The two loops of `gc_stop_the_world`, run by `me` holding the lock against
an environment that keeps to `Rely me S`: the lock and the registry head are
as before, the `next` links of the threads of `S` are as before, the second
loop sends no signal, and every thread of a registry made of threads of `S`
that the second loop visited, other than `me`, is in a state different from
RUNNING. -/
theorem gc_stop_loops_frame (me : Nat) (S : List Nat) (env : World → World)
    (hE : Rely me S env) (pk : Nat → Int) (fuel : Nat) (wl w2 w3 : World)
    (hl : wl.all_threads_lock = some me)
    (hsig : for_each_thread (gc_stop_signal_thread env pk fuel me) fuel wl.all_threads wl
      = Res.ret () w2)
    (hwait : for_each_thread (gc_stop_wait_thread env fuel me) fuel w2.all_threads w2
      = Res.ret () w3) :
    Frame S wl w2 ∧ FrameS S w2 w3
      ∧ ∀ n ts, threads_from w2.mem n w2.all_threads = some ts → (∀ x ∈ ts, x ∈ S) →
          ∀ th ∈ ts, th ≠ me → (w3.mem th).state ≠ STATE_RUNNING := by
  have f2 := (for_each_thread_inv (gc_stop_signal_thread env pk fuel me) S (Frame S)
    (fun v => v.all_threads_lock = some me) (fun _ _ => True)
    (Frame.step_refl S) (fun _ _ _ => Frame.step_trans) (fun _ _ r => r.2.2.1)
    (fun _ _ hi r => r.1.trans hi) (fun _ _ _ _ _ _ => trivial)
    (fun th v v1 hi hb => ⟨gc_stop_signal_thread_frame me S env hE pk fuel th v v1 hi hb, trivial⟩)
    fuel wl.all_threads wl w2 hl hsig).1
  have hl2 : w2.all_threads_lock = some me := f2.1.trans hl
  obtain ⟨f3, q3⟩ := for_each_thread_inv (gc_stop_wait_thread env fuel me) S (FrameS S)
    (fun v => v.all_threads_lock = some me)
    (fun th v => th ≠ me → (v.mem th).state ≠ STATE_RUNNING)
    (FrameS.quiet_refl S) (fun _ _ _ => FrameS.quiet_trans) (fun _ _ r => r.1.2.2.1)
    (fun _ _ hi r => r.1.1.trans hi) (fun th hth _ _ r q hne => r.1.2.2.2 th hth (q hne))
    (fun th v v1 hi hb => gc_stop_wait_thread_frameS me S env hE fuel th v v1 hi hb)
    fuel w2.all_threads w2 w3 hl2 hwait
  exact ⟨f2, f3, q3⟩

theorem stop_handler_frameS (S : List Nat) (th : Nat) (w : World) :
    FrameS S w (stop_handler th w) := by
  unfold stop_handler
  by_cases hsem : 0 < (w.mem th).extra.state_sem
  · rw [set_thread_state_free id 0 th STATE_STOPPED true w hsem]
    simp only [Res.world]
    apply store_thread_frameS
    · unfold set_thread_state_locked
      simp only [post_times_eq]
      split <;> [skip; rfl]
      split <;> split <;> rfl
    · intro _
      rw [set_thread_state_locked_state]
      decide
  · have hz : sem_value ((w.mem th).extra) SemId.state_sem = 0 := by
      simp only [sem_value]; omega
    simp [set_thread_state, os_sem_wait, hz, Res.world]
    exact FrameS.quiet_refl S w

theorem stw_env_rely (me : Nat) (S : List Nat) : Rely me S stw_env := by
  intro w _
  unfold stw_env
  split
  · exact stop_handler_frameS S 2 w
  · exact FrameS.quiet_refl S w

/-- Building a thread structure with `alloc_thread_struct` in memory that is
not a registered thread is a `FrameS` step: it needs no lock. -/
theorem alloc_thread_struct_frameS (S : List Nat) (cfg : Config) (spaces sr : Nat) (w : World)
    (h : (alloc_thread_struct cfg spaces sr w).1 ∉ S) :
    FrameS S w (alloc_thread_struct cfg spaces sr w).2 := by
  have hinit : ∀ z sp, (alloc_thread_struct_init cfg z sp sr w).1 ∉ S →
      FrameS S w (alloc_thread_struct_init cfg z sp sr w).2 := by
    intro z sp hz
    simp only [alloc_thread_struct_init] at hz ⊢
    refine frameS_of_mem_eq S w _ ?_ ?_ ?_ ?_ <;> try rfl
    intro p hp
    apply Function.update_noteq
    rintro rfl
    exact hz hp
  unfold alloc_thread_struct at h ⊢
  split
  · rename_i hs
    rw [if_pos hs] at h
    exact hinit _ _ h
  · rename_i hs
    rw [if_neg hs] at h
    simp only at h ⊢
    split
    · exact FrameS.quiet_refl S w
    · rename_i hv
      rw [if_neg hv] at h
      exact hinit _ _ h

/-- Pushing a thread structure that is not registered on the recycle bin with
`put_recyclebin_item` is a `FrameS` step: it takes `recyclebin_lock` only. -/
theorem put_recyclebin_item_frameS (S : List Nat) (fuel th : Nat) (w : World) (hth : th ∉ S) :
    FrameS S w (Res.world w (put_recyclebin_item id fuel th w)) := by
  have hlock : ∀ f, lock_recyclebin id f w = Res.blocked
      ∨ lock_recyclebin id f w = Res.ret 0 { w with recyclebin_lock := true } := by
    intro f
    induction f with
    | zero => left; rfl
    | succ f ih =>
      by_cases hb : w.recyclebin_lock = true
      · simpa [lock_recyclebin, hb] using ih
      · right; simp [lock_recyclebin, hb]
  unfold put_recyclebin_item
  rcases hlock fuel with h | h
  · rw [h]
    exact FrameS.quiet_refl S w
  · rw [h]
    simp only [ne_eq, not_true_eq_false, if_false, Res.world]
    refine frameS_of_mem_eq S w _ ?_ ?_ ?_ ?_ <;> try rfl
    intro p hp
    apply Function.update_noteq
    rintro rfl
    exact hth hp

theorem busy_env_rely (me : Nat) : Rely me [3, 2, 1] busy_env := by
  intro w hl
  unfold busy_env
  simp only
  have e : (alloc_thread_struct sample_config 4096 255 w).1 = 77824 := rfl
  have f1 : FrameS [3, 2, 1] w (alloc_thread_struct sample_config 4096 255 w).2 :=
    alloc_thread_struct_frameS _ _ _ _ _ (by rw [e]; decide)
  have f2 := put_recyclebin_item_frameS [3, 2, 1] 1 7
    (alloc_thread_struct sample_config 4096 255 w).2 (by decide)
  exact f1.quiet_trans (f2.quiet_trans (stw_env_rely me _ _ (f2.1.1.trans (f1.1.1.trans hl))))

/-- C5: when `gc_stop_the_world` returns, `all_threads_lock` is held by the
caller, and every thread of the registry at the return (the list `ts` read
from `all_threads` along `next`) other than the caller has a state different
from RUNNING.  The other threads are assumed to keep to `Rely me ts` while the
caller holds the lock: they may write thread structures that are not
registered (attaching or exiting threads), but they do not touch the lock or
the links of the registered threads, and do not resume a registered thread. -/
theorem C5_gc_stop_the_world_postcondition (env : World → World) (pk : Nat → Int)
    (fuel me : Nat) (w w1 : World) (n : Nat) (ts : List Nat)
    (h : gc_stop_the_world env pk fuel me w = Res.ret () w1)
    (hts : threads_from w1.mem n w1.all_threads = some ts)
    (hE : Rely me ts env) :
    w1.all_threads_lock = some me
      ∧ ∀ th ∈ ts, th ≠ me → (w1.mem th).state ≠ STATE_RUNNING := by
  unfold gc_stop_the_world at h
  simp only at h
  split at h <;> [skip; simp at h; simp at h]
  rename_i rc wl hlock
  obtain ⟨hrc, hl⟩ := lock_all_threads_ret env _ _ _ _ _ hlock
  simp only [hrc, ne_eq, not_true_eq_false, if_false] at h
  split at h <;> [skip; simp at h; simp at h]
  rename_i u1 w2 hsig
  split at h <;> [skip; simp at h; simp at h]
  rename_i u2 w3 hwait
  simp only [Res.ret.injEq, true_and] at h
  obtain ⟨f2, f3, q3⟩ := gc_stop_loops_frame me ts env hE pk fuel wl w2 w3 hl hsig hwait
  subst h
  refine ⟨f3.1.1.trans (f2.1.trans hl), ?_⟩
  intro th hth hne
  have hts3 : threads_from w3.mem n w3.all_threads = some ts := hts
  have hts2 : threads_from w2.mem n w2.all_threads = some ts := by
    rw [← f3.1.2.1]
    exact threads_from_congr_on w3.mem w2.mem n _ ts hts3
      (fun x hx => (f3.1.2.2.1 x hx).symm)
  exact q3 n ts hts2 (fun _ hx => hx) th hth hne

theorem C5_witness :
    (gc_stop_the_world busy_env kill_ok 4 1 stw_world).value? = some ()
      ∧ ((Res.world stw_world
          (gc_stop_the_world busy_env kill_ok 4 1 stw_world)).mem 77824).state = STATE_RUNNING
      ∧ (Res.world stw_world
          (gc_stop_the_world busy_env kill_ok 4 1 stw_world)).recyclebin_threads = 7
      ∧ (Res.world stw_world
          (gc_stop_the_world busy_env kill_ok 4 1 stw_world)).all_threads_lock = some 1
      ∧ ∀ th ∈ [3, 2, 1], th ≠ 1 →
          ((Res.world stw_world
            (gc_stop_the_world busy_env kill_ok 4 1 stw_world)).mem th).state
              ≠ STATE_RUNNING :=
  ⟨by decide, by decide, by decide,
    C5_gc_stop_the_world_postcondition busy_env kill_ok 4 1 stw_world _ 4 [3, 2, 1]
      (Res.eq_ret_of_value (gc_stop_the_world busy_env kill_ok 4 1 stw_world) ()
        stw_world (by decide))
      (by decide) (busy_env_rely 1)⟩

/-! ## `gc_stop_the_world`: the signalling loop -/

theorem sem_post_take (s : SemId) (t : thread) (h : 0 < sem_value t.extra s) :
    sem_post s (sem_take s t) = t := by
  have hpos : sem_value t.extra s - 1 + 1 = sem_value t.extra s := by omega
  cases s <;> simp only [sem_value] at h hpos <;>
    simp only [sem_post, sem_take, sem_store, sem_value, hpos]

theorem os_sem_post_take (w : World) (th : Nat) (s : SemId) (sig : List Nat)
    (h : 0 < sem_value (w.mem th).extra s) :
    os_sem_post th s { (store_thread w th (sem_take s (w.mem th))) with signals := sig }
      = { w with signals := sig } := by
  unfold os_sem_post
  apply World.ext_fields <;> simp [store_thread, sem_post_take s _ h]

theorem gc_stop_signal_thread_free (env : World → World) (pk : Nat → Int) (k me th : Nat)
    (w : World) (hsem : th ≠ me → 0 < (w.mem th).extra.state_sem) :
    gc_stop_signal_thread env pk (k + 1) me th w = signal_list pk me [th] w := by
  unfold gc_stop_signal_thread
  simp only [signal_list]
  by_cases hme : th = me
  · simp [hme]
  · have h1 : 0 < sem_value (w.mem th).extra SemId.state_sem := hsem hme
    have hst : ((store_thread w th (sem_take SemId.state_sem (w.mem th))).mem th).state
        = (w.mem th).state := by
      rw [store_thread_mem_same]; rfl
    have hos : ((store_thread w th (sem_take SemId.state_sem (w.mem th))).mem th).os_thread
        = (w.mem th).os_thread := by
      rw [store_thread_mem_same]; rfl
    simp only [ne_eq, hme, not_false_eq_true, if_true]
    by_cases hot : (w.mem th).os_thread = 0
    · simp [hot]
    · simp only [hot, if_false]
      rw [os_sem_wait_free env k th SemId.state_sem w h1]
      simp only [get_thread_state, hst, hos]
      by_cases hrun : (w.mem th).state = STATE_RUNNING
      · simp only [hrun, if_true]
        by_cases hpk : pk (w.mem th).os_thread = 0
        · simp only [hpk, not_true_eq_false, if_false]
          rw [os_sem_post_take w th SemId.state_sem _ h1]
          rfl
        · simp only [hpk, not_false_eq_true, if_true]
      · simp only [hrun, if_false]
        have := os_sem_post_take w th SemId.state_sem w.signals h1
        exact congrArg (Res.ret ()) this

theorem signal_list_cons (pk : Nat → Int) (me th : Nat) (ts : List Nat) (w : World) :
    signal_list pk me (th :: ts) w
      = match signal_list pk me [th] w with
        | Res.ret _ w1 => signal_list pk me ts w1
        | Res.lose w1 => Res.lose w1
        | Res.blocked => Res.blocked := by
  simp only [signal_list]
  split <;> [skip; rfl]
  split <;> [rfl; skip]
  split <;> [skip; rfl]
  split <;> rfl

theorem signal_list_mem (pk : Nat → Int) (me th : Nat) (w w1 : World)
    (h : signal_list pk me [th] w = Res.ret () w1) : w1.mem = w.mem := by
  simp only [signal_list] at h
  split at h
  · split at h
    · simp at h
    · split at h
      · split at h
        · simp at h
        · simp only [Res.ret.injEq, true_and] at h; rw [← h]
      · simp only [Res.ret.injEq, true_and] at h; rw [← h]
  · simp only [Res.ret.injEq, true_and] at h; rw [← h]

/-- With no `state_sem` contended, the first loop of `gc_stop_the_world` is
`signal_list` on the threads of the registry. -/
theorem for_each_signal_eq (env : World → World) (pk : Nat → Int) (k me : Nat) :
    ∀ (fuel th : Nat) (w : World) (ts : List Nat), threads_from w.mem fuel th = some ts →
      (∀ x ∈ ts, x ≠ me → 0 < (w.mem x).extra.state_sem) →
      for_each_thread (gc_stop_signal_thread env pk (k + 1) me) fuel th w
        = signal_list pk me ts w := by
  intro fuel
  induction fuel with
  | zero =>
    intro th w ts hts _
    by_cases hth : th = 0
    · subst hth
      rw [threads_from_null] at hts
      simp only [Option.some.injEq] at hts
      subst hts
      simp [for_each_thread, signal_list]
    · simp [threads_from, hth] at hts
  | succ fuel ih =>
    intro th w ts hts hsem
    by_cases hth : th = 0
    · subst hth
      rw [threads_from_null] at hts
      simp only [Option.some.injEq] at hts
      subst hts
      simp [for_each_thread, signal_list]
    · obtain ⟨n, rest, hn, hcons, hrest⟩ := threads_from_cons w.mem _ th ts hth hts
      have hn2 : n = fuel := by omega
      subst hn2
      subst hcons
      rw [signal_list_cons]
      simp only [for_each_thread, hth, if_false]
      rw [gc_stop_signal_thread_free env pk k me th w
        (fun hme => hsem th (List.mem_cons_self _ _) hme)]
      cases hb : signal_list pk me [th] w with
      | ret u w1 =>
        have hm := signal_list_mem pk me th w w1 hb
        simp only
        apply ih
        · rw [hm]; exact hrest
        · intro x hx hxme
          rw [hm]
          exact hsem x (List.mem_cons_of_mem _ hx) hxme
      | lose w1 => rfl
      | blocked => rfl

theorem stop_targets_cons_pos (me th : Nat) (w : World) (ts : List Nat) (hme : th ≠ me)
    (hrun : (w.mem th).state = STATE_RUNNING) :
    stop_targets me w (th :: ts) = th :: stop_targets me w ts := by
  simp [stop_targets, List.filter_cons, hme, hrun]

theorem stop_targets_cons_neg (me th : Nat) (w : World) (ts : List Nat)
    (h : ¬ (th ≠ me ∧ (w.mem th).state = STATE_RUNNING)) :
    stop_targets me w (th :: ts) = stop_targets me w ts := by
  simp only [stop_targets, List.filter_cons, h, decide_False, Bool.false_eq_true, if_false]

theorem signal_list_step_pos (pk : Nat → Int) (me th : Nat) (ts : List Nat) (w : World)
    (hme : th ≠ me) (hos : (w.mem th).os_thread ≠ 0)
    (hrun : (w.mem th).state = STATE_RUNNING) (hpk : pk (w.mem th).os_thread = 0) :
    signal_list pk me (th :: ts) w
      = signal_list pk me ts { w with signals := w.signals ++ [(w.mem th).os_thread] } := by
  simp [signal_list, hme, hos, hrun, hpk]

theorem signal_list_step_fail (pk : Nat → Int) (me th : Nat) (ts : List Nat) (w : World)
    (hme : th ≠ me) (hos : (w.mem th).os_thread ≠ 0)
    (hrun : (w.mem th).state = STATE_RUNNING) (hpk : pk (w.mem th).os_thread ≠ 0) :
    signal_list pk me (th :: ts) w
      = Res.lose (store_thread w th (sem_take SemId.state_sem (w.mem th))) := by
  simp [signal_list, hme, hos, hrun, hpk]

theorem signal_list_step_skip (pk : Nat → Int) (me th : Nat) (ts : List Nat) (w : World)
    (h : ¬ (th ≠ me ∧ (w.mem th).state = STATE_RUNNING))
    (hos : th ≠ me → (w.mem th).os_thread ≠ 0) :
    signal_list pk me (th :: ts) w = signal_list pk me ts w := by
  by_cases hme : th = me
  · simp [signal_list, hme]
  · have hrun : ¬ (w.mem th).state = STATE_RUNNING := fun hr => h ⟨hme, hr⟩
    simp [signal_list, hme, hos hme, hrun]

/-- A returning run of the signalling loop has signalled exactly the targets. -/
theorem signal_list_ret (pk : Nat → Int) (me : Nat) :
    ∀ (ts : List Nat) (w w2 : World), signal_list pk me ts w = Res.ret () w2 →
      w2 = { w with signals :=
              w.signals ++ (stop_targets me w ts).map (fun x => (w.mem x).os_thread) } := by
  intro ts
  induction ts with
  | nil =>
    intro w w2 h
    simp only [signal_list, Res.ret.injEq, true_and] at h
    subst h
    simp [stop_targets]
  | cons th ts ih =>
    intro w w2 h
    by_cases hme : th = me
    · have hn : ¬ (th ≠ me ∧ (w.mem th).state = STATE_RUNNING) := fun hc => hc.1 hme
      rw [signal_list_step_skip pk me th ts w hn (fun hc => absurd hme hc)] at h
      rw [stop_targets_cons_neg me th w ts hn]
      exact ih w w2 h
    · by_cases hos : (w.mem th).os_thread = 0
      · simp [signal_list, hme, hos] at h
      · by_cases hrun : (w.mem th).state = STATE_RUNNING
        · by_cases hpk : pk (w.mem th).os_thread = 0
          · rw [signal_list_step_pos pk me th ts w hme hos hrun hpk] at h
            rw [stop_targets_cons_pos me th w ts hme hrun]
            have h2 := ih _ w2 h
            rw [h2]
            apply World.ext_fields <;> simp [stop_targets]
          · rw [signal_list_step_fail pk me th ts w hme hos hrun hpk] at h
            simp at h
        · have hn : ¬ (th ≠ me ∧ (w.mem th).state = STATE_RUNNING) := fun hc => hrun hc.2
          rw [signal_list_step_skip pk me th ts w hn (fun _ => hos)] at h
          rw [stop_targets_cons_neg me th w ts hn]
          exact ih w w2 h

/-- When every delivery succeeds (and each other thread has an OS thread), the
signalling loop returns. -/
theorem signal_list_ok (pk : Nat → Int) (me : Nat) :
    ∀ (ts : List Nat) (w : World), (∀ x ∈ ts, x ≠ me → (w.mem x).os_thread ≠ 0) →
      (∀ x ∈ stop_targets me w ts, pk (w.mem x).os_thread = 0) →
      signal_list pk me ts w
        = Res.ret ()
            { w with signals :=
                w.signals ++ (stop_targets me w ts).map (fun x => (w.mem x).os_thread) } := by
  intro ts
  induction ts with
  | nil =>
    intro w _ _
    simp [signal_list, stop_targets]
  | cons th ts ih =>
    intro w hos hpk
    have hos2 : ∀ x ∈ ts, x ≠ me → (w.mem x).os_thread ≠ 0 :=
      fun x hx => hos x (List.mem_cons_of_mem _ hx)
    by_cases hc : th ≠ me ∧ (w.mem th).state = STATE_RUNNING
    · rw [stop_targets_cons_pos me th w ts hc.1 hc.2] at hpk ⊢
      rw [signal_list_step_pos pk me th ts w hc.1 (hos th (List.mem_cons_self _ _) hc.1) hc.2
        (hpk th (List.mem_cons_self _ _))]
      have h2 := ih { w with signals := w.signals ++ [(w.mem th).os_thread] } hos2
        (fun x hx => hpk x (List.mem_cons_of_mem _ hx))
      rw [h2]
      apply congrArg
      apply World.ext_fields <;> simp [stop_targets]
    · rw [stop_targets_cons_neg me th w ts hc] at hpk ⊢
      rw [signal_list_step_skip pk me th ts w hc (hos th (List.mem_cons_self _ _))]
      exact ih w hos2 hpk

/-- The signalling loop aborts at the first target whose delivery fails, having
signalled exactly the targets before it and still holding its `state_sem`. -/
theorem signal_list_fail (pk : Nat → Int) (me th : Nat) (post : List Nat) :
    ∀ (pre : List Nat) (w : World), (∀ x ∈ pre, x ≠ me → (w.mem x).os_thread ≠ 0) →
      (∀ x ∈ stop_targets me w pre, pk (w.mem x).os_thread = 0) →
      th ≠ me → (w.mem th).os_thread ≠ 0 → (w.mem th).state = STATE_RUNNING →
      pk (w.mem th).os_thread ≠ 0 →
      signal_list pk me (pre ++ th :: post) w
        = Res.lose (store_thread
            { w with signals :=
                w.signals ++ (stop_targets me w pre).map (fun x => (w.mem x).os_thread) }
            th (sem_take SemId.state_sem (w.mem th))) := by
  intro pre
  induction pre with
  | nil =>
    intro w _ _ hme hos hrun hpk
    rw [List.nil_append, signal_list_step_fail pk me th post w hme hos hrun hpk]
    apply congrArg
    apply World.ext_fields <;> simp [stop_targets, store_thread]
  | cons a pre ih =>
    intro w hos hpk hme hot hrun hfail
    have hos2 : ∀ x ∈ pre, x ≠ me → (w.mem x).os_thread ≠ 0 :=
      fun x hx => hos x (List.mem_cons_of_mem _ hx)
    rw [List.cons_append]
    by_cases hc : a ≠ me ∧ (w.mem a).state = STATE_RUNNING
    · rw [stop_targets_cons_pos me a w pre hc.1 hc.2] at hpk ⊢
      rw [signal_list_step_pos pk me a _ w hc.1 (hos a (List.mem_cons_self _ _) hc.1) hc.2
        (hpk a (List.mem_cons_self _ _))]
      have h2 := ih { w with signals := w.signals ++ [(w.mem a).os_thread] } hos2
        (fun x hx => hpk x (List.mem_cons_of_mem _ hx)) hme hot hrun hfail
      rw [h2]
      apply congrArg
      apply World.ext_fields <;> simp [stop_targets, store_thread]
    · rw [stop_targets_cons_neg me a w pre hc] at hpk ⊢
      rw [signal_list_step_skip pk me a _ w hc (hos a (List.mem_cons_self _ _))]
      exact ih w hos2 hpk hme hot hrun hfail

/-! ## `gc_stop_the_world`: who is signalled, and what a failed delivery does -/

theorem os_sem_wait_not_lost (env : World → World) :
    ∀ (fuel th : Nat) (s : SemId) (w : World), (os_sem_wait env fuel th s w).lost = false := by
  intro fuel
  induction fuel with
  | zero => intro th s w; rfl
  | succ fuel ih =>
    intro th s w
    rw [os_sem_wait]
    split
    · rfl
    · exact ih _ _ _

theorem thread_wait_until_not_loop_not_lost (env : World → World) :
    ∀ (fuel th : Nat) (w : World),
      (thread_wait_until_not_loop env fuel STATE_RUNNING th w).lost = false := by
  intro fuel
  induction fuel with
  | zero => intro th w; rfl
  | succ fuel ih =>
    intro th w
    rw [thread_wait_until_not_loop]
    have h1 := os_sem_wait_not_lost env (fuel + 1) th SemId.state_sem w
    cases hw : os_sem_wait env (fuel + 1) th SemId.state_sem w with
    | ret u w1 =>
      simp only
      split
      · simp only [if_true]
        have h2 := os_sem_wait_not_lost env (fuel + 1) th SemId.state_not_running_sem
          (os_sem_post th SemId.state_sem
            (store_thread w1 th (incr_not_running_waitcount (w1.mem th))))
        cases hw2 : os_sem_wait env (fuel + 1) th SemId.state_not_running_sem
          (os_sem_post th SemId.state_sem
            (store_thread w1 th (incr_not_running_waitcount (w1.mem th)))) with
        | ret u2 w4 => exact ih _ _
        | lose w4 => rw [hw2] at h2; simp [Res.lost] at h2
        | blocked => rfl
      · rfl
    | lose w1 => rw [hw] at h1; simp [Res.lost] at h1
    | blocked => rfl

theorem gc_stop_wait_thread_not_lost (env : World → World) (fuel me th : Nat) (w : World) :
    (gc_stop_wait_thread env fuel me th w).lost = false := by
  unfold gc_stop_wait_thread
  split <;> [skip; rfl]
  cases hw : thread_wait_until_not env fuel STATE_RUNNING th w with
  | ret st w1 =>
    have hne : st ≠ STATE_RUNNING := by
      unfold thread_wait_until_not at hw
      simp only at hw
      split at hw
      · rename_i e w2 hloop
        simp only [Res.ret.injEq] at hw
        rw [← hw.1]
        exact (thread_wait_until_not_loop_ret env fuel _ th _ _ _ hloop).1
      · simp at hw
      · simp at hw
    simp only [if_pos hne]
    rfl
  | lose w1 =>
    exfalso
    unfold thread_wait_until_not at hw
    simp only at hw
    have h1 := thread_wait_until_not_loop_not_lost env fuel th (block_blockable_signals w)
    split at hw
    · simp at hw
    · rename_i w2 hloop
      rw [hloop] at h1
      simp [Res.lost] at h1
    · simp at hw
  | blocked => rfl

theorem for_each_thread_not_lost (body : Nat → World → Res Unit)
    (hbody : ∀ th w, (body th w).lost = false) :
    ∀ (fuel th : Nat) (w : World), (for_each_thread body fuel th w).lost = false := by
  intro fuel
  induction fuel with
  | zero =>
    intro th w
    simp only [for_each_thread]
    split <;> rfl
  | succ fuel ih =>
    intro th w
    simp only [for_each_thread]
    split <;> [rfl; skip]
    have hb := hbody th w
    cases hw : body th w with
    | ret u w1 => exact ih _ _
    | lose w1 => rw [hw] at hb; simp [Res.lost] at hb
    | blocked => rfl

/-- With the lock free, `gc_stop_the_world` takes it at once and runs its two loops. -/
theorem gc_stop_the_world_free (env : World → World) (pk : Nat → Int) (f me : Nat) (w : World)
    (hlock : w.all_threads_lock = none) :
    gc_stop_the_world env pk (f + 1) me w
      = match for_each_thread (gc_stop_signal_thread env pk (f + 1) me) (f + 1) w.all_threads
          { w with all_threads_lock := some me } with
        | Res.ret _ w2 =>
          match for_each_thread (gc_stop_wait_thread env (f + 1) me) (f + 1)
              w2.all_threads w2 with
          | Res.ret _ w3 =>
            Res.ret () { w3 with stats := { w3.stats with
              stw_elapsed := elapsed_ns w3.clock w.clock, gc_start_time := w3.clock } }
          | Res.lose w3 => Res.lose w3
          | Res.blocked => Res.blocked
        | Res.lose w2 => Res.lose w2
        | Res.blocked => Res.blocked := by
  simp [gc_stop_the_world, lock_all_threads, hlock]

theorem threads_from_zero_nil (m : Nat → thread) (th : Nat) (ts : List Nat)
    (h : threads_from m 0 th = some ts) : ts = [] := by
  by_cases hth : th = 0
  · simp [threads_from, hth] at h; exact h
  · simp [threads_from, hth] at h

theorem targets_count (me : Nat) (w : World) (ts : List Nat)
    (hnd : (ts.map (fun x => (w.mem x).os_thread)).Nodup) (th : Nat) (hth : th ∈ ts) :
    (th ≠ me ∧ (w.mem th).state = STATE_RUNNING →
        ((stop_targets me w ts).map (fun x => (w.mem x).os_thread)).count
          (w.mem th).os_thread = 1)
      ∧ (th = me ∨ (w.mem th).state ≠ STATE_RUNNING →
        ((stop_targets me w ts).map (fun x => (w.mem x).os_thread)).count
          (w.mem th).os_thread = 0) := by
  have hsub : List.Sublist ((stop_targets me w ts).map (fun x => (w.mem x).os_thread))
      (ts.map (fun x => (w.mem x).os_thread)) :=
    List.Sublist.map _ (List.filter_sublist ts)
  constructor
  · intro hp
    apply List.count_eq_one_of_mem (List.Nodup.sublist hsub hnd)
    apply List.mem_map_of_mem
    simp only [stop_targets, List.mem_filter, decide_eq_true_eq]
    exact ⟨hth, hp⟩
  · intro hp
    apply List.count_eq_zero_of_not_mem
    intro hmem
    obtain ⟨x, hx, hox⟩ := List.mem_map.mp hmem
    simp only [stop_targets, List.mem_filter, decide_eq_true_eq] at hx
    have hxth : x = th := List.inj_on_of_nodup_map hnd hx.1 hth hox
    subst hxth
    rcases hp with h1 | h2
    · exact hx.2.1 h1
    · exact h2 hx.2.2

/-- C4: `gc_stop_the_world` delivers `SIG_STOP_FOR_GC` to exactly the registered
threads other than the caller whose state is RUNNING.  Starting with the lock
free and no `state_sem` contended (so that the state observed for each thread
is its state at the call), whatever the other threads do and whether or not
the call ever returns:
(1) when the deliveries succeed, the signalling loop returns, having appended
to `signals` the `os_thread` of each such thread, in registry order, and
nothing else, and the outcome of the call is that of the waiting loop run from
that world;
(2) whenever the signalling loop returns, it has sent exactly these signals;
(3) when the call returns, the other threads having kept to `Rely`, these are
all the signals sent;
(4) when the registered threads have distinct OS threads, each other RUNNING
thread is sent exactly one signal and the caller and every thread in another
state (STOPPED, DEAD) none. -/
theorem C4_gc_stop_the_world_signals_running_others (env : World → World) (pk : Nat → Int)
    (fuel me : Nat) (w : World) (ts : List Nat) (hfuel : 0 < fuel)
    (hlock : w.all_threads_lock = none)
    (hts : threads_from w.mem fuel w.all_threads = some ts)
    (hsem : ∀ th ∈ ts, th ≠ me → 0 < (w.mem th).extra.state_sem) :
    ((∀ th ∈ ts, th ≠ me → (w.mem th).os_thread ≠ 0) →
        (∀ th ∈ stop_targets me w ts, pk (w.mem th).os_thread = 0) →
        for_each_thread (gc_stop_signal_thread env pk fuel me) fuel w.all_threads
            { w with all_threads_lock := some me }
          = Res.ret ()
              { w with
                all_threads_lock := some me,
                signals :=
                  w.signals ++ (stop_targets me w ts).map (fun th => (w.mem th).os_thread) }
          ∧ gc_stop_the_world env pk fuel me w
            = match for_each_thread (gc_stop_wait_thread env fuel me) fuel w.all_threads
                { w with
                  all_threads_lock := some me,
                  signals :=
                    w.signals
                      ++ (stop_targets me w ts).map (fun th => (w.mem th).os_thread) } with
              | Res.ret _ w3 =>
                Res.ret () { w3 with stats := { w3.stats with
                  stw_elapsed := elapsed_ns w3.clock w.clock, gc_start_time := w3.clock } }
              | Res.lose w3 => Res.lose w3
              | Res.blocked => Res.blocked)
      ∧ (∀ w2, for_each_thread (gc_stop_signal_thread env pk fuel me) fuel w.all_threads
            { w with all_threads_lock := some me } = Res.ret () w2 →
          w2 = { w with
                all_threads_lock := some me,
                signals :=
                  w.signals ++ (stop_targets me w ts).map (fun th => (w.mem th).os_thread) })
      ∧ (∀ w1, Rely me ts env → gc_stop_the_world env pk fuel me w = Res.ret () w1 →
          w1.signals
            = w.signals ++ (stop_targets me w ts).map (fun th => (w.mem th).os_thread))
      ∧ ((ts.map (fun th => (w.mem th).os_thread)).Nodup → ∀ th ∈ ts,
          (th ≠ me ∧ (w.mem th).state = STATE_RUNNING →
              ((stop_targets me w ts).map (fun x => (w.mem x).os_thread)).count
                (w.mem th).os_thread = 1)
            ∧ (th = me ∨ (w.mem th).state ≠ STATE_RUNNING →
              ((stop_targets me w ts).map (fun x => (w.mem x).os_thread)).count
                (w.mem th).os_thread = 0)) := by
  obtain ⟨f, rfl⟩ : ∃ f, fuel = f + 1 := ⟨fuel - 1, by omega⟩
  have hsig := for_each_signal_eq env pk f me (f + 1) w.all_threads
    { w with all_threads_lock := some me } ts hts hsem
  refine ⟨?_, ?_, ?_, fun hnd th hth => targets_count me w ts hnd th hth⟩
  · intro hos hpk
    have hok := signal_list_ok pk me ts { w with all_threads_lock := some me } hos hpk
    have hloop : for_each_thread (gc_stop_signal_thread env pk (f + 1) me) (f + 1) w.all_threads
        { w with all_threads_lock := some me }
          = Res.ret ()
              { w with
                all_threads_lock := some me,
                signals :=
                  w.signals
                    ++ (stop_targets me w ts).map (fun th => (w.mem th).os_thread) } := by
      rw [hsig, hok]
      rfl
    refine ⟨hloop, ?_⟩
    rw [gc_stop_the_world_free env pk f me w hlock, hloop]
  · intro w2 h2
    rw [hsig] at h2
    rw [signal_list_ret pk me ts _ w2 h2]
    rfl
  · intro w1 hE h
    rw [gc_stop_the_world_free env pk f me w hlock, hsig] at h
    split at h <;> [skip; simp at h; simp at h]
    rename_i u2 w2 hs2
    have hw2 := signal_list_ret pk me ts _ w2 hs2
    split at h <;> [skip; simp at h; simp at h]
    rename_i u3 w3 hwait
    simp only [Res.ret.injEq, true_and] at h
    have hl2 : w2.all_threads_lock = some me := by rw [hw2]
    obtain ⟨f3, _⟩ := for_each_thread_inv (gc_stop_wait_thread env (f + 1) me) ts (FrameS ts)
      (fun v => v.all_threads_lock = some me) (fun _ _ => True)
      (FrameS.quiet_refl ts) (fun _ _ _ => FrameS.quiet_trans) (fun _ _ r => r.1.2.2.1)
      (fun _ _ hi r => r.1.1.trans hi) (fun _ _ _ _ _ _ => trivial)
      (fun th v v1 hi hb => ⟨(gc_stop_wait_thread_frameS me ts env hE (f + 1) th v v1 hi hb).1,
        trivial⟩)
      (f + 1) w2.all_threads w2 w3 hl2 hwait
    rw [← h]
    show w3.signals = _
    rw [f3.2, hw2]
    rfl

theorem C4_witness :
    (gc_stop_the_world id kill_ok 4 1 stw_world).value? = none
      ∧ for_each_thread (gc_stop_signal_thread id kill_ok 4 1) 4 stw_world.all_threads
            { stw_world with all_threads_lock := some 1 }
          = Res.ret () { stw_world with all_threads_lock := some 1, signals := [22] }
      ∧ (gc_stop_the_world busy_env kill_ok 4 1 stw_world).value? = some ()
      ∧ (Res.world stw_world (gc_stop_the_world busy_env kill_ok 4 1 stw_world)).signals = [22]
      ∧ List.count 22 [22] = 1 ∧ List.count 33 [22] = 0 ∧ List.count 11 [22] = 0 := by
  have hid := C4_gc_stop_the_world_signals_running_others id kill_ok 4 1 stw_world
    [3, 2, 1] (by decide) (by decide) (by decide) (by decide)
  have h4 := C4_gc_stop_the_world_signals_running_others busy_env kill_ok 4 1 stw_world
    [3, 2, 1] (by decide) (by decide) (by decide) (by decide)
  have h := Res.eq_ret_of_value (gc_stop_the_world busy_env kill_ok 4 1 stw_world) ()
    stw_world (by decide)
  have hnd : ([3, 2, 1].map (fun th => (stw_world.mem th).os_thread)).Nodup := by decide
  exact ⟨by decide, (hid.1 (by decide) (by decide)).1,
    by decide, (h4.2.2.1 _ (busy_env_rely 1) h).trans (by decide),
    (h4.2.2.2 hnd 2 (by decide)).1 (by decide), (h4.2.2.2 hnd 3 (by decide)).2 (by decide),
    (h4.2.2.2 hnd 1 (by decide)).2 (by decide)⟩

/-- C6: in `gc_stop_the_world`, a failed delivery of the suspend signal to a
thread observed RUNNING is fatal.  With the lock free and no `state_sem`
contended: if the registry reads `pre ++ th :: post`, the deliveries to the
targets in `pre` succeed and `pthread_kill` returns a non-zero code (ESRCH
included) for the other RUNNING thread `th`, the call ends in `lose()` right
there, in the world where only the targets of `pre` were signalled and
`th`'s `state_sem` is still held: no thread of `post` is signalled, nothing is
retried and the call does not return.  If every delivery to a target returns
0, the signalling loop returns and the call as a whole never ends in `lose()`,
whatever the other threads do. -/
theorem C6_gc_stop_the_world_failed_delivery_is_fatal (env : World → World) (pk : Nat → Int)
    (fuel me : Nat) (w : World) (ts : List Nat)
    (hlock : w.all_threads_lock = none)
    (hts : threads_from w.mem fuel w.all_threads = some ts)
    (hsem : ∀ th ∈ ts, th ≠ me → 0 < (w.mem th).extra.state_sem)
    (hos : ∀ th ∈ ts, th ≠ me → (w.mem th).os_thread ≠ 0) :
    (∀ pre th post, ts = pre ++ th :: post →
        (∀ x ∈ stop_targets me w pre, pk (w.mem x).os_thread = 0) →
        th ≠ me → (w.mem th).state = STATE_RUNNING → pk (w.mem th).os_thread ≠ 0 →
        gc_stop_the_world env pk fuel me w
          = Res.lose (store_thread
              { w with
                all_threads_lock := some me,
                signals :=
                  w.signals ++ (stop_targets me w pre).map (fun x => (w.mem x).os_thread) }
              th (sem_take SemId.state_sem (w.mem th))))
      ∧ ((∀ x ∈ stop_targets me w ts, pk (w.mem x).os_thread = 0) →
          (∃ w2, for_each_thread (gc_stop_signal_thread env pk fuel me) fuel w.all_threads
              { w with all_threads_lock := some me } = Res.ret () w2)
            ∧ (gc_stop_the_world env pk fuel me w).lost = false) := by
  constructor
  · intro pre th post hsplit hpre hme hrun hfail
    cases fuel with
    | zero =>
      have := threads_from_zero_nil _ _ _ hts
      rw [this] at hsplit
      simp at hsplit
    | succ f =>
      rw [gc_stop_the_world_free env pk f me w hlock]
      rw [for_each_signal_eq env pk f me (f + 1) w.all_threads
        { w with all_threads_lock := some me } ts hts hsem]
      have hthmem : th ∈ ts := by rw [hsplit]; simp
      have hpremem : ∀ x ∈ pre, x ∈ ts := by
        intro x hx; rw [hsplit]; exact List.mem_append_left _ hx
      rw [hsplit, signal_list_fail pk me th post pre { w with all_threads_lock := some me }
        (fun x hx hxme => hos x (hpremem x hx) hxme) hpre hme (hos th hthmem hme) hrun hfail]
      rfl
  · intro hok
    cases fuel with
    | zero =>
      have hnil := threads_from_zero_nil _ _ _ hts
      have h0 : w.all_threads = 0 := by
        by_contra hne
        simp [threads_from, hne] at hts
      refine ⟨⟨{ w with all_threads_lock := some me }, ?_⟩, ?_⟩
      · simp only [for_each_thread]
        rw [if_pos h0]
      · simp [gc_stop_the_world, lock_all_threads, Res.lost]
    | succ f =>
      have hsig := for_each_signal_eq env pk f me (f + 1) w.all_threads
        { w with all_threads_lock := some me } ts hts hsem
      have hret := signal_list_ok pk me ts { w with all_threads_lock := some me } hos hok
      refine ⟨⟨_, hsig.trans hret⟩, ?_⟩
      rw [gc_stop_the_world_free env pk f me w hlock, hsig, hret]
      exact Res.lost_match _ _ (for_each_thread_not_lost (gc_stop_wait_thread env (f + 1) me)
        (fun th v => gc_stop_wait_thread_not_lost env (f + 1) me th v) _ _ _)

theorem C6_witness :
    (gc_stop_the_world stw_env kill_esrch 4 1 stw_world).lost = true
      ∧ (Res.world stw_world (gc_stop_the_world stw_env kill_esrch 4 1 stw_world)).signals = []
      ∧ (gc_stop_the_world stw_env kill_ok 4 1 stw_world).lost = false := by
  have h6 := C6_gc_stop_the_world_failed_delivery_is_fatal stw_env kill_esrch 4 1 stw_world
    [3, 2, 1] (by decide) (by decide) (by decide) (by decide)
  have h6ok := C6_gc_stop_the_world_failed_delivery_is_fatal stw_env kill_ok 4 1 stw_world
    [3, 2, 1] (by decide) (by decide) (by decide) (by decide)
  have hl := h6.1 [3] 2 [1] rfl (by decide) (by decide) (by decide) (by decide)
  refine ⟨?_, ?_, (h6ok.2 (by decide)).2⟩
  · rw [hl]; rfl
  · rw [hl]; rfl

/-! ## `gc_start_the_world` -/

theorem threads_from_suffix (m : Nat → thread) :
    ∀ (n p : Nat) (ts : List Nat), threads_from m n p = some ts →
      ∀ x ∈ ts, ∃ k us, threads_from m k x = some us ∧ us.length ≤ ts.length := by
  intro n
  induction n with
  | zero =>
    intro p ts h x hx
    rw [threads_from_zero_nil m p ts h] at hx
    simp at hx
  | succ n ih =>
    intro p ts h x hx
    by_cases hp : p = 0
    · subst hp
      rw [threads_from_null] at h
      simp only [Option.some.injEq] at h
      subst h
      simp at hx
    · obtain ⟨k, rest, hk, hcons, hrest⟩ := threads_from_cons m _ p ts hp h
      have hk2 : k = n := by omega
      subst hk2
      subst hcons
      rcases List.mem_cons.mp hx with hx1 | hx2
      · subst hx1
        exact ⟨k + 1, _, h, le_refl _⟩
      · obtain ⟨j, us, hj, hlen⟩ := ih _ rest hrest x hx2
        exact ⟨j, us, hj, by simp only [List.length_cons]; omega⟩

theorem threads_from_nodup (m : Nat → thread) :
    ∀ (n p : Nat) (ts : List Nat), threads_from m n p = some ts → ts.Nodup := by
  intro n
  induction n with
  | zero =>
    intro p ts h
    rw [threads_from_zero_nil m p ts h]
    exact List.nodup_nil
  | succ n ih =>
    intro p ts h
    by_cases hp : p = 0
    · subst hp
      rw [threads_from_null] at h
      simp only [Option.some.injEq] at h
      subst h
      exact List.nodup_nil
    · obtain ⟨k, rest, hk, hcons, hrest⟩ := threads_from_cons m _ p ts hp h
      have hk2 : k = n := by omega
      subst hk2
      subst hcons
      refine List.nodup_cons.mpr ⟨?_, ih _ rest hrest⟩
      intro hmem
      obtain ⟨j, us, hj, hlen⟩ := threads_from_suffix m k _ rest hrest p hmem
      have := threads_from_unique m _ _ p _ _ h hj
      rw [← this] at hlen
      simp only [List.length_cons] at hlen
      omega

theorem set_thread_state_locked_next (s : Int) (t : thread) :
    (set_thread_state_locked s t).next = t.next := by
  unfold set_thread_state_locked
  simp only [post_times_eq]
  split <;> [skip; rfl]
  split <;> split <;> rfl

theorem started_mem_nil (me : Nat) (m : Nat → thread) : started_mem me [] m = m := by
  funext p
  simp [started_mem]

theorem gc_start_thread_free (env : World → World) (k me th : Nat) (w : World)
    (hos : (w.mem th).os_thread ≠ 0)
    (hst : th ≠ me → (w.mem th).state = STATE_STOPPED ∨ (w.mem th).state = STATE_DEAD)
    (hsem : th ≠ me → 0 < (w.mem th).extra.state_sem) :
    gc_start_thread env (k + 1) me th w
      = Res.ret () (if th ≠ me ∧ (w.mem th).state = STATE_STOPPED then
          store_thread w th (set_thread_state_locked STATE_RUNNING (w.mem th)) else w) := by
  unfold gc_start_thread
  simp only [hos, if_false, get_thread_state]
  by_cases hme : th = me
  · simp [hme]
  · simp only [ne_eq, hme, not_false_eq_true, if_true, true_and]
    rcases hst hme with h1 | h1
    · have hd : ¬ (STATE_STOPPED = STATE_DEAD) := by decide
      simp only [h1, hd, not_false_eq_true, if_true, not_true_eq_false, if_false]
      exact set_thread_state_free env k th STATE_RUNNING false w (hsem hme)
    · have hd : ¬ (STATE_DEAD = STATE_STOPPED) := by decide
      simp only [h1, hd, not_true_eq_false, if_false]

/-- In the conditions of a pause (every other thread STOPPED or DEAD with its
`state_sem` free, every thread with an OS thread), the loop of
`gc_start_the_world` returns and leaves the heap `started_mem`. -/
theorem for_each_start_eq (env : World → World) (k me : Nat) :
    ∀ (fuel th : Nat) (w : World) (ts : List Nat), threads_from w.mem fuel th = some ts →
      (∀ x ∈ ts, (w.mem x).os_thread ≠ 0) →
      (∀ x ∈ ts, x ≠ me →
        (w.mem x).state = STATE_STOPPED ∨ (w.mem x).state = STATE_DEAD) →
      (∀ x ∈ ts, x ≠ me → 0 < (w.mem x).extra.state_sem) →
      for_each_thread (gc_start_thread env (k + 1) me) fuel th w
        = Res.ret () { w with mem := started_mem me ts w.mem } := by
  intro fuel
  induction fuel with
  | zero =>
    intro th w ts hts _ _ _
    have hnil := threads_from_zero_nil _ _ _ hts
    subst hnil
    have h0 : th = 0 := by
      by_contra hne
      simp [threads_from, hne] at hts
    simp only [for_each_thread, h0, if_true, started_mem_nil]
  | succ fuel ih =>
    intro th w ts hts hos hst hsem
    by_cases hth : th = 0
    · subst hth
      rw [threads_from_null] at hts
      simp only [Option.some.injEq] at hts
      subst hts
      simp only [for_each_thread, if_true, started_mem_nil]
    · have hnd := threads_from_nodup _ _ _ _ hts
      obtain ⟨n, rest, hn, hcons, hrest⟩ := threads_from_cons w.mem _ th ts hth hts
      have hn2 : n = fuel := by omega
      subst hn2
      subst hcons
      have hthrest : th ∉ rest := (List.nodup_cons.mp hnd).1
      simp only [for_each_thread, hth, if_false]
      rw [gc_start_thread_free env k me th w (hos th (List.mem_cons_self _ _))
        (hst th (List.mem_cons_self _ _)) (hsem th (List.mem_cons_self _ _))]
      simp only
      have hother : ∀ x, x ≠ th →
          ((if th ≠ me ∧ (w.mem th).state = STATE_STOPPED then
            store_thread w th (set_thread_state_locked STATE_RUNNING (w.mem th))
            else w).mem x) = w.mem x := by
        intro x hx
        split
        · simp [store_thread, Function.update_noteq hx]
        · rfl
      have hnextall : ∀ x,
          ((if th ≠ me ∧ (w.mem th).state = STATE_STOPPED then
            store_thread w th (set_thread_state_locked STATE_RUNNING (w.mem th))
            else w).mem x).next = (w.mem x).next := by
        intro x
        by_cases hx : x = th
        · subst hx
          split
          · rw [store_thread_mem_same, set_thread_state_locked_next]
          · rfl
        · rw [hother x hx]
      have hne : ∀ x ∈ rest, x ≠ th := fun x hx hxe => hthrest (hxe ▸ hx)
      rw [ih _ _ rest]
      · apply congrArg
        refine World.ext_fields _ _ ?h1 ?h2 ?h3 ?h4 ?h5 ?h6 ?h7 ?h8 ?h9 ?h10
        case h2 =>
          funext p
          simp only [started_mem]
          by_cases hp : p = th
          · subst hp
            simp only [hthrest, false_and, if_false, List.mem_cons, true_or, true_and]
            split
            · rw [store_thread_mem_same]
            · rfl
          · rw [hother p hp]
            simp only [List.mem_cons, hp, false_or]
        all_goals split <;> rfl
      · rw [threads_from_congr _ w.mem hnextall, hnextall th]
        exact hrest
      · intro x hx
        rw [hother x (hne x hx)]
        exact hos x (List.mem_cons_of_mem _ hx)
      · intro x hx hxme
        rw [hother x (hne x hx)]
        exact hst x (List.mem_cons_of_mem _ hx) hxme
      · intro x hx hxme
        rw [hother x (hne x hx)]
        exact hsem x (List.mem_cons_of_mem _ hx) hxme

theorem gc_start_stats_mem (w : World) : (gc_start_stats w).mem = w.mem := by
  unfold gc_start_stats
  simp only
  split <;> rfl

theorem gc_start_stats_all_threads (w : World) :
    (gc_start_stats w).all_threads = w.all_threads := by
  unfold gc_start_stats
  simp only
  split <;> rfl

theorem started_mem_next (me : Nat) (ts : List Nat) (m : Nat → thread) (p : Nat) :
    (started_mem me ts m p).next = (m p).next := by
  unfold started_mem
  split
  · exact set_thread_state_locked_next _ _
  · rfl

/-- C7: in a registry where every thread other than the caller is STOPPED or
DEAD (each with an OS thread and a free `state_sem`, as during a pause),
`gc_start_the_world` returns; it has released `all_threads_lock`, moved every
other STOPPED thread to RUNNING, left every DEAD thread as it was, left the
caller's own thread structure (its state included) as it was, touched no
thread outside the registry, and the registry holds the same threads in the
same order. -/
theorem C7_gc_start_the_world_resumes_stopped (env : World → World) (fuel me : Nat)
    (w : World) (ts : List Nat)
    (hts : threads_from w.mem fuel w.all_threads = some ts)
    (hos : ∀ th ∈ ts, (w.mem th).os_thread ≠ 0)
    (hst : ∀ th ∈ ts, th ≠ me →
      (w.mem th).state = STATE_STOPPED ∨ (w.mem th).state = STATE_DEAD)
    (hsem : ∀ th ∈ ts, th ≠ me → 0 < (w.mem th).extra.state_sem) :
    ∃ w1, gc_start_the_world env fuel me w = Res.ret () w1
      ∧ w1.all_threads_lock = none
      ∧ w1.all_threads = w.all_threads
      ∧ threads_from w1.mem fuel w1.all_threads = some ts
      ∧ (∀ th ∈ ts, th ≠ me → (w.mem th).state = STATE_STOPPED →
          (w1.mem th).state = STATE_RUNNING)
      ∧ (∀ th ∈ ts, th ≠ me → (w.mem th).state = STATE_DEAD → w1.mem th = w.mem th)
      ∧ w1.mem me = w.mem me
      ∧ (∀ p, p ∉ ts → w1.mem p = w.mem p) := by
  have hloop : for_each_thread (gc_start_thread env fuel me) fuel (gc_start_stats w).all_threads
      (gc_start_stats w)
      = Res.ret () { (gc_start_stats w) with mem := started_mem me ts w.mem } := by
    cases fuel with
    | zero =>
      have hnil := threads_from_zero_nil _ _ _ hts
      subst hnil
      have h0 : w.all_threads = 0 := by
        by_contra hne
        simp [threads_from, hne] at hts
      simp only [for_each_thread, gc_start_stats_all_threads, h0, if_true, started_mem_nil]
      apply congrArg
      apply World.ext_fields <;> simp [gc_start_stats_mem, gc_start_stats_all_threads, h0]
    | succ k =>
      have h := for_each_start_eq env k me (k + 1) (gc_start_stats w).all_threads
        (gc_start_stats w) ts
        (by rw [gc_start_stats_mem, gc_start_stats_all_threads]; exact hts)
        (by rw [gc_start_stats_mem]; exact hos)
        (by rw [gc_start_stats_mem]; exact hst)
        (by rw [gc_start_stats_mem]; exact hsem)
      rw [h, gc_start_stats_mem]
  refine ⟨{ (gc_start_stats w) with
      mem := started_mem me ts w.mem, all_threads_lock := none }, ?_, rfl,
    gc_start_stats_all_threads w, ?_, ?_, ?_, ?_, ?_⟩
  · unfold gc_start_the_world
    simp only [hloop, unlock_all_threads]
    simp
  · show threads_from (started_mem me ts w.mem) fuel (gc_start_stats w).all_threads = some ts
    rw [threads_from_congr _ w.mem (started_mem_next me ts w.mem), gc_start_stats_all_threads]
    exact hts
  · intro th hth hme hs
    show (started_mem me ts w.mem th).state = STATE_RUNNING
    simp only [started_mem, hth, hme, hs, ne_eq, not_false_eq_true, and_self, if_true]
    exact set_thread_state_locked_state _ _
  · intro th hth hme hs
    show started_mem me ts w.mem th = w.mem th
    have hd : ¬ (STATE_DEAD = STATE_STOPPED) := by decide
    simp only [started_mem, hs, hd, and_false, if_false]
  · show started_mem me ts w.mem me = w.mem me
    simp [started_mem]
  · intro p hp
    show started_mem me ts w.mem p = w.mem p
    simp [started_mem, hp]

theorem C7_witness :
    threads_from paused_world.mem 4 paused_world.all_threads = some [3, 2, 1]
      ∧ ∃ w1, gc_start_the_world id 4 1 paused_world = Res.ret () w1
          ∧ w1.all_threads_lock = none
          ∧ threads_from w1.mem 4 w1.all_threads = some [3, 2, 1]
          ∧ (w1.mem 2).state = STATE_RUNNING
          ∧ (w1.mem 3).state = STATE_DEAD
          ∧ (w1.mem 1).state = STATE_RUNNING := by
  refine ⟨by decide, ?_⟩
  obtain ⟨w1, h, hl, _, hreg, hrun, hdead, hme, _⟩ :=
    C7_gc_start_the_world_resumes_stopped id 4 1 paused_world [3, 2, 1]
      (by decide) (by decide) (by decide) (by decide)
  refine ⟨w1, h, hl, hreg, hrun 2 (by decide) (by decide) (by decide), ?_, ?_⟩
  · rw [hdead 3 (by decide) (by decide) (by decide)]; decide
  · rw [hme]; decide

/-! ## The registry as a doubly linked list -/

theorem last_or_concat (d l : Nat) (xs : List Nat) : last_or d (xs ++ [l]) = l := by
  induction xs generalizing d with
  | nil => rfl
  | cons x xs ih => exact ih x

theorem dseg_append (mem : Nat → thread) (b : List Nat) (q : Nat) :
    ∀ (a : List Nat) (prev p : Nat),
      dseg mem prev p (a ++ b) q
        ↔ ∃ mid, dseg mem prev p a mid ∧ dseg mem (last_or prev a) mid b q := by
  intro a
  induction a with
  | nil =>
    intro prev p
    simp only [List.nil_append, dseg, last_or]
    constructor
    · intro h; exact ⟨p, rfl, h⟩
    · rintro ⟨mid, h1, h2⟩; rw [h1]; exact h2
  | cons x a ih =>
    intro prev p
    show (p = x ∧ x ≠ 0 ∧ (mem x).prev = prev ∧ dseg mem x (mem x).next (a ++ b) q)
      ↔ ∃ mid, (p = x ∧ x ≠ 0 ∧ (mem x).prev = prev ∧ dseg mem x (mem x).next a mid)
          ∧ dseg mem (last_or x a) mid b q
    rw [ih]
    constructor
    · rintro ⟨h1, h2, h3, mid, h4, h5⟩; exact ⟨mid, ⟨h1, h2, h3, h4⟩, h5⟩
    · rintro ⟨mid, ⟨h1, h2, h3, h4⟩, h5⟩; exact ⟨h1, h2, h3, mid, h4, h5⟩

theorem dseg_congr (m1 m2 : Nat → thread) (q : Nat) :
    ∀ (ts : List Nat) (prev p : Nat),
      (∀ x ∈ ts, (m2 x).next = (m1 x).next ∧ (m2 x).prev = (m1 x).prev) →
      dseg m1 prev p ts q → dseg m2 prev p ts q := by
  intro ts
  induction ts with
  | nil => intro prev p _ h; exact h
  | cons x xs ih =>
    intro prev p hm h
    obtain ⟨h1, h2, h3, h4⟩ := h
    have hx := hm x (List.mem_cons_self _ _)
    refine ⟨h1, h2, hx.2.trans h3, ?_⟩
    rw [hx.1]
    exact ih _ _ (fun y hy => hm y (List.mem_cons_of_mem _ hy)) h4

theorem dseg_nonzero (mem : Nat → thread) (q : Nat) :
    ∀ (ts : List Nat) (prev p : Nat), dseg mem prev p ts q → ∀ x ∈ ts, x ≠ 0 := by
  intro ts
  induction ts with
  | nil => intro prev p _ x hx; simp at hx
  | cons y ys ih =>
    intro prev p h x hx
    obtain ⟨_, h2, _, h4⟩ := h
    rcases List.mem_cons.mp hx with hx1 | hx2
    · rw [hx1]; exact h2
    · exact ih _ _ h4 x hx2

theorem dseg_threads_from (mem : Nat → thread) :
    ∀ (ts : List Nat) (prev p n : Nat), dseg mem prev p ts 0 → ts.length ≤ n →
      threads_from mem n p = some ts := by
  intro ts
  induction ts with
  | nil =>
    intro prev p n h _
    simp only [dseg] at h
    rw [h, threads_from_null]
  | cons x xs ih =>
    intro prev p n h hn
    obtain ⟨h1, h2, _, h4⟩ := h
    subst h1
    cases n with
    | zero => simp at hn
    | succ n =>
      simp only [threads_from, h2, if_false]
      rw [ih _ _ n h4 (by simpa using hn)]
      rfl

theorem dseg_set_prev (m : Nat → thread) (T N P : Nat) (post : List Nat) (hnd : post.Nodup)
    (h : dseg m T N post 0) :
    dseg (if N ≠ 0 then Function.update m N { (m N) with prev := P } else m) P N post 0 := by
  cases post with
  | nil => exact h
  | cons n rest =>
    obtain ⟨h1, h2, _, h4⟩ := h
    subst h1
    rw [if_pos h2]
    refine ⟨rfl, h2, by simp, ?_⟩
    have hn : N ∉ rest := (List.nodup_cons.mp hnd).1
    have hnext : (Function.update m N { (m N) with prev := P } N).next = (m N).next := by simp
    rw [hnext]
    apply dseg_congr m _ 0 rest N (m N).next _ h4
    intro x hx
    have hxN : x ≠ N := fun hxe => hn (hxe ▸ hx)
    simp [Function.update_noteq hxN]

theorem dseg_set_next (m : Nat → thread) (head T N : Nat) (pre : List Nat) (hnd : pre.Nodup)
    (hnz : ∀ x ∈ pre, x ≠ 0) (h : dseg m 0 head pre T) :
    dseg (if last_or 0 pre ≠ 0 then
        Function.update m (last_or 0 pre) { (m (last_or 0 pre)) with next := N } else m)
      0 (if last_or 0 pre ≠ 0 then head else N) pre N := by
  rcases List.eq_nil_or_concat pre with hpre | ⟨init, l, hpre⟩
  · subst hpre
    simp [last_or, dseg]
  · rw [List.concat_eq_append] at hpre
    subst hpre
    have hl : l ≠ 0 := hnz l (by simp)
    rw [last_or_concat, if_pos hl, if_pos hl]
    obtain ⟨mid, hA, hB⟩ := (dseg_append m [l] T init 0 head).mp h
    obtain ⟨h1, _, h3, _⟩ := hB
    subst h1
    have hlinit : mid ∉ init := by
      intro hmem
      have := List.nodup_append.mp hnd
      exact this.2.2 hmem (List.mem_singleton_self mid) 
    refine (dseg_append _ [mid] N init 0 head).mpr ⟨mid, ?_, ?_⟩
    · apply dseg_congr m _ mid init 0 head _ hA
      intro x hx
      have hxl : x ≠ mid := fun hxe => hlinit (hxe ▸ hx)
      simp [Function.update_noteq hxl]
    · refine ⟨rfl, hl, ?_, ?_⟩
      · simpa using h3
      · simp [dseg]

theorem unlink_thread_all_threads (T : Nat) (w : World) :
    (unlink_thread T w).all_threads
      = if (w.mem T).prev ≠ 0 then w.all_threads else (w.mem T).next := by
  unfold unlink_thread
  simp only
  split <;> split <;> rfl

theorem unlink_thread_mem (T : Nat) (w : World) (hT : (w.mem T).prev ≠ T) :
    (unlink_thread T w).mem
      = (if (w.mem T).next ≠ 0 then
          Function.update
            (if (w.mem T).prev ≠ 0 then
              Function.update w.mem (w.mem T).prev
                { (w.mem (w.mem T).prev) with next := (w.mem T).next }
             else w.mem)
            (w.mem T).next
            { ((if (w.mem T).prev ≠ 0 then
                  Function.update w.mem (w.mem T).prev
                    { (w.mem (w.mem T).prev) with next := (w.mem T).next }
                else w.mem) (w.mem T).next) with prev := (w.mem T).prev }
         else
          (if (w.mem T).prev ≠ 0 then
              Function.update w.mem (w.mem T).prev
                { (w.mem (w.mem T).prev) with next := (w.mem T).next }
             else w.mem)) := by
  unfold unlink_thread
  simp only
  by_cases hp : (w.mem T).prev = 0
  · simp only [hp, ne_eq, not_true_eq_false, if_false]
    split <;> rfl
  · have hTp : T ≠ (w.mem T).prev := fun h => hT h.symm
    simp only [ne_eq, hp, not_false_eq_true, if_true, store_thread,
      Function.update_noteq hTp]
    split <;> rfl

/-- Unlinking a registered thread leaves a well-formed registry holding the
other threads in their previous order. -/
theorem unlink_thread_registry (w : World) (T : Nat) (pre post : List Nat)
    (h : registry w (pre ++ T :: post)) : registry (unlink_thread T w) (pre ++ post) := by
  unfold registry at h ⊢
  have hnd : (pre ++ T :: post).Nodup :=
    threads_from_nodup _ _ _ _ (dseg_threads_from _ _ _ _ _ h (le_refl _))
  have hnz := dseg_nonzero _ _ _ _ _ h
  obtain ⟨hndpre, hndTpost, hdisj⟩ := List.nodup_append.mp hnd
  have hndpost : post.Nodup := (List.nodup_cons.mp hndTpost).2
  have hTpost : T ∉ post := (List.nodup_cons.mp hndTpost).1
  have hTpre : T ∉ pre := fun hm => hdisj hm (List.mem_cons_self _ _) 
  obtain ⟨mid, hA, hB⟩ := (dseg_append w.mem (T :: post) 0 pre 0 w.all_threads).mp h
  obtain ⟨h1, hT0, hprev, hpost⟩ := hB
  subst h1
  have hnzpre : ∀ x ∈ pre, x ≠ 0 := fun x hx => hnz x (List.mem_append_left _ hx)
  -- the predecessor is the last thread of `pre`, or `NULL`
  have hPmem : last_or 0 pre ≠ 0 → last_or 0 pre ∈ pre := by
    intro _
    rcases List.eq_nil_or_concat pre with hpre | ⟨init, l, hpre⟩
    · subst hpre; simp [last_or] at *
    · rw [List.concat_eq_append] at hpre
      subst hpre
      rw [last_or_concat]; simp
  have hPT : (w.mem mid).prev ≠ mid := by
    rw [hprev]
    intro hc
    by_cases hz : last_or 0 pre = 0
    · exact hT0 (hc ▸ hz)
    · exact hTpre (hc ▸ hPmem hz)
  -- the successor is the first thread of `post`, or `NULL`
  have hNpre : (w.mem mid).next ∉ pre := by
    intro hm
    cases post with
    | nil => exact hnzpre _ hm hpost
    | cons n rest => exact hdisj hm (List.mem_cons_of_mem _ (hpost.1 ▸ List.mem_cons_self _ _))
  have hPpost : last_or 0 pre ≠ 0 → last_or 0 pre ∉ post := by
    intro hz hm
    exact hdisj (hPmem hz) (List.mem_cons_of_mem _ hm) 
  rw [unlink_thread_all_threads, unlink_thread_mem mid w hPT, hprev]
  have step1 := dseg_set_next w.mem w.all_threads mid (w.mem mid).next pre hndpre hnzpre hA
  have step2 : dseg (if last_or 0 pre ≠ 0 then
        Function.update w.mem (last_or 0 pre)
          { (w.mem (last_or 0 pre)) with next := (w.mem mid).next } else w.mem)
      mid (w.mem mid).next post 0 := by
    apply dseg_congr w.mem _ 0 post mid _ _ hpost
    intro x hx
    split
    · rename_i hz
      have hxP : x ≠ last_or 0 pre := fun hxe => hPpost hz (hxe ▸ hx)
      simp [Function.update_noteq hxP]
    · exact ⟨rfl, rfl⟩
  have step3 := dseg_set_prev _ mid (w.mem mid).next (last_or 0 pre) post hndpost step2
  refine (dseg_append _ post 0 pre 0 _).mpr ⟨(w.mem mid).next, ?_, ?_⟩
  · split
    · rename_i hN
      apply dseg_congr _ _ _ pre 0 _ _ step1
      intro x hx
      have hxN : x ≠ (w.mem mid).next := fun hxe => hNpre (hxe ▸ hx)
      simp [Function.update_noteq hxN]
    · exact step1
  · exact step3

theorem link_thread_all_threads (T : Nat) (w : World) : (link_thread T w).all_threads = T := rfl

theorem link_thread_mem_self (T : Nat) (w : World) :
    ((link_thread T w).mem T).next = w.all_threads ∧ ((link_thread T w).mem T).prev = 0 := by
  unfold link_thread
  simp only [store_thread, Function.update_same]
  constructor
  · split <;> rfl
  · trivial

theorem link_thread_mem_other (T x : Nat) (w : World) (hx : x ≠ T) :
    ((link_thread T w).mem x).next = (w.mem x).next
      ∧ ((link_thread T w).mem x).prev
          = if w.all_threads ≠ 0 ∧ x = w.all_threads then T else (w.mem x).prev := by
  unfold link_thread
  simp only [store_thread, Function.update_noteq hx]
  by_cases hh : w.all_threads = 0
  · simp [hh]
  · simp only [ne_eq, hh, not_false_eq_true, if_true, true_and]
    by_cases hxh : x = w.all_threads
    · subst hxh; simp
    · simp [Function.update_noteq hxh, hxh]

/-- Linking a new thread puts it at the head of a well-formed registry. -/
theorem link_thread_registry (w : World) (T : Nat) (ts : List Nat) (h : registry w ts)
    (hT0 : T ≠ 0) (hT : T ∉ ts) : registry (link_thread T w) (T :: ts) := by
  unfold registry at h ⊢
  have hnd : ts.Nodup :=
    threads_from_nodup _ _ _ _ (dseg_threads_from _ _ _ _ _ h (le_refl _))
  refine ⟨rfl, hT0, (link_thread_mem_self T w).2, ?_⟩
  rw [(link_thread_mem_self T w).1]
  cases ts with
  | nil => exact h
  | cons a rest =>
    obtain ⟨h1, h2, _, h4⟩ := h
    have haT : a ≠ T := fun hc => hT (hc ▸ List.mem_cons_self _ _)
    have ha := link_thread_mem_other T a w haT
    refine ⟨h1, h2, ?_, ?_⟩
    · rw [ha.2, h1]; simp [h2]
    · rw [ha.1]
      apply dseg_congr w.mem _ 0 rest a _ _ h4
      intro x hx
      have hxT : x ≠ T := fun hc => hT (hc ▸ List.mem_cons_of_mem _ hx)
      have hxa : x ≠ a := fun hc => (List.nodup_cons.mp hnd).1 (hc ▸ hx)
      have hxo := link_thread_mem_other T x w hxT
      rw [h1] at hxo
      simp only [hxa, and_false, if_false] at hxo
      exact hxo

/-- A `for_each_thread` loop whose body always returns and leaves the heap of
thread structures alone runs the body on exactly the threads of the registry,
in order. -/
theorem for_each_thread_visits (f : Nat → World → World) (hf : ∀ th v, (f th v).mem = v.mem) :
    ∀ (n p : Nat) (w : World) (ts : List Nat), threads_from w.mem n p = some ts →
      for_each_thread (fun th v => Res.ret () (f th v)) n p w
        = Res.ret () (ts.foldl (fun v th => f th v) w) := by
  intro n
  induction n with
  | zero =>
    intro p w ts h
    have hnil := threads_from_zero_nil _ _ _ h
    subst hnil
    have h0 : p = 0 := by
      by_contra hne
      simp [threads_from, hne] at h
    simp [for_each_thread, h0]
  | succ n ih =>
    intro p w ts h
    by_cases hp : p = 0
    · subst hp
      rw [threads_from_null] at h
      simp only [Option.some.injEq] at h
      subst h
      simp [for_each_thread]
    · obtain ⟨k, rest, hk, hcons, hrest⟩ := threads_from_cons w.mem _ p ts hp h
      have hk2 : k = n := by omega
      subst hk2
      subst hcons
      simp only [for_each_thread, hp, if_false, List.foldl_cons]
      apply ih
      rw [hf]
      exact hrest

/-! ## Registry lifecycle -/

/-- C8: registry lifecycle.  In a well-formed registry `ts` (a doubly linked
list from `all_threads`), for a thread `T` that is not `NULL` and not
registered, `link_thread(T)` gives the registry `T :: ts`, and
`unlink_thread(T)` after it gives back the registry `ts`: a `for_each_thread`
traversal then runs its body on exactly the threads of `ts`, in their previous
order, and not on `T`.  More generally `unlink_thread(T)` on a registered `T`
(head, middle or tail) leaves the registry `ts.erase T`, which lacks `T` and
keeps every other thread. -/
theorem C8_registry_lifecycle (w : World) (T : Nat) (ts : List Nat) (hreg : registry w ts) :
    (T ≠ 0 → T ∉ ts →
        registry (link_thread T w) (T :: ts)
          ∧ registry (unlink_thread T (link_thread T w)) ts
          ∧ ∀ (f : Nat → World → World), (∀ th v, (f th v).mem = v.mem) →
              ∀ n, ts.length ≤ n →
                for_each_thread (fun th v => Res.ret () (f th v)) n
                    (unlink_thread T (link_thread T w)).all_threads
                    (unlink_thread T (link_thread T w))
                  = Res.ret () (ts.foldl (fun v th => f th v)
                      (unlink_thread T (link_thread T w))))
      ∧ (T ∈ ts →
          registry (unlink_thread T w) (ts.erase T)
            ∧ T ∉ ts.erase T
            ∧ (∀ x, x ≠ T → (x ∈ ts.erase T ↔ x ∈ ts))
            ∧ ∀ (f : Nat → World → World), (∀ th v, (f th v).mem = v.mem) →
                ∀ n, ts.length ≤ n →
                  for_each_thread (fun th v => Res.ret () (f th v)) n
                      (unlink_thread T w).all_threads (unlink_thread T w)
                    = Res.ret () ((ts.erase T).foldl (fun v th => f th v)
                        (unlink_thread T w))) := by
  have hnd : ts.Nodup :=
    threads_from_nodup _ _ _ _ (dseg_threads_from _ _ _ _ _ hreg (le_refl _))
  constructor
  · intro hT0 hT
    have h1 := link_thread_registry w T ts hreg hT0 hT
    have h2 : registry (unlink_thread T (link_thread T w)) ts := by
      have := unlink_thread_registry (link_thread T w) T [] ts h1
      simpa using this
    refine ⟨h1, h2, ?_⟩
    intro f hf n hn
    exact for_each_thread_visits f hf n _ _ ts (dseg_threads_from _ _ _ _ _ h2 hn)
  · intro hT
    obtain ⟨pre, post, hsplit⟩ := List.append_of_mem hT
    subst hsplit
    have hTpre : T ∉ pre := by
      intro hm
      exact (List.nodup_append.mp hnd).2.2 hm (List.mem_cons_self _ _)
    have herase : (pre ++ T :: post).erase T = pre ++ post := by
      rw [List.erase_append_right _ hTpre, List.erase_cons_head]
    have h2 := unlink_thread_registry w T pre post hreg
    rw [herase]
    refine ⟨h2, ?_, ?_, ?_⟩
    · intro hm
      rcases List.mem_append.mp hm with h | h
      · exact hTpre h
      · exact (List.nodup_cons.mp (List.nodup_append.mp hnd).2.1).1 h
    · intro x hx
      simp only [List.mem_append, List.mem_cons, hx, false_or]
    · intro f hf n hn
      apply for_each_thread_visits f hf n _ _ _ (dseg_threads_from _ _ _ _ _ h2 _)
      simp only [List.length_append, List.length_cons] at hn ⊢
      omega

theorem C8_witness :
    registry stw_world [3, 2, 1]
      ∧ registry (link_thread 4 stw_world) [4, 3, 2, 1]
      ∧ registry (unlink_thread 4 (link_thread 4 stw_world)) [3, 2, 1]
      ∧ registry (unlink_thread 3 stw_world) [2, 1]
      ∧ registry (unlink_thread 2 stw_world) [3, 1]
      ∧ registry (unlink_thread 1 stw_world) [3, 2] := by
  have hreg : registry stw_world [3, 2, 1] := by decide
  have h4 := (C8_registry_lifecycle stw_world 4 [3, 2, 1] hreg).1 (by decide) (by decide)
  have h3 := (C8_registry_lifecycle stw_world 3 [3, 2, 1] hreg).2 (by decide)
  have h2 := (C8_registry_lifecycle stw_world 2 [3, 2, 1] hreg).2 (by decide)
  have h1 := (C8_registry_lifecycle stw_world 1 [3, 2, 1] hreg).2 (by decide)
  exact ⟨hreg, h4.1, h4.2.1, h3.1, h2.1, h1.1⟩

/-! ## The recycle bin -/

theorem lock_recyclebin_free (env : World → World) (f : Nat) (w : World)
    (h : w.recyclebin_lock = false) :
    lock_recyclebin env (f + 1) w = Res.ret 0 { w with recyclebin_lock := true } := by
  simp [lock_recyclebin, h]

theorem put_recyclebin_item_free (env : World → World) (f th : Nat) (w : World)
    (h : w.recyclebin_lock = false) :
    put_recyclebin_item env (f + 1) th w
      = Res.ret () { w with
          mem := Function.update w.mem th { (w.mem th) with next := w.recyclebin_threads },
          recyclebin_threads := th,
          recyclebin_lock := false } := by
  simp [put_recyclebin_item, lock_recyclebin_free env f w h, unlock_recyclebin, store_thread]

theorem get_recyclebin_item_free (env : World → World) (f : Nat) (w : World)
    (h : w.recyclebin_lock = false) :
    get_recyclebin_item env (f + 1) w
      = if w.recyclebin_threads ≠ 0 then
          Res.ret (w.mem w.recyclebin_threads).os_address
            { w with recyclebin_threads := (w.mem w.recyclebin_threads).next }
        else Res.ret 0 w := by
  simp only [get_recyclebin_item, lock_recyclebin_free env f w h, unlock_recyclebin]
  have hret : ∀ (a b : Nat) (x y : World), a = b → x = y → Res.ret a x = Res.ret b y := by
    intro a b x y h1 h2
    rw [h1, h2]
  by_cases hb : w.recyclebin_threads = 0
  · simp only [hb, ne_eq, not_true_eq_false, if_false]
    apply hret _ _ _ _ rfl
    apply World.ext_fields <;> simp [h, hb]
  · simp only [ne_eq, hb, not_false_eq_true, if_true]
    apply hret _ _ _ _ rfl
    apply World.ext_fields <;> simp [h]

/-- C9: the recycle pool is a LIFO free list.  With `recyclebin_lock` free,
`put_recyclebin_item(th)` for a non-null `th` returns with `th` at the front
of `recyclebin_threads`, linked to the previous head; the next
`get_recyclebin_item()` returns `th->os_address` and puts the previous head
back, every thread structure other than `th` being as before, so a bin that
did not hold `th` has its previous content again.  On an empty pool
`get_recyclebin_item()` returns 0 and changes nothing, and the caller
`attach_os_thread` then has `alloc_thread_struct` map fresh memory: the new
thread's `os_address` is what `os_validate` returned and no byte is scrubbed. -/
theorem C9_recyclebin_is_lifo (env : World → World) (f : Nat) (w : World)
    (hlock : w.recyclebin_lock = false) :
    (∀ th, th ≠ 0 →
        ∃ w1 w2, put_recyclebin_item env (f + 1) th w = Res.ret () w1
          ∧ w1.recyclebin_threads = th
          ∧ (w1.mem th).next = w.recyclebin_threads
          ∧ get_recyclebin_item env (f + 1) w1 = Res.ret (w.mem th).os_address w2
          ∧ w2.recyclebin_threads = w.recyclebin_threads
          ∧ w2.recyclebin_lock = false
          ∧ (∀ x, x ≠ th → w2.mem x = w.mem x)
          ∧ (∀ n bin, threads_from w.mem n w.recyclebin_threads = some bin → th ∉ bin →
              threads_from w1.mem (n + 1) w1.recyclebin_threads = some (th :: bin)
                ∧ threads_from w2.mem n w2.recyclebin_threads = some bin))
      ∧ (w.recyclebin_threads = 0 → get_recyclebin_item env (f + 1) w = Res.ret 0 w)
      ∧ (∀ cfg : Config, w.recyclebin_threads = 0 →
          cfg.os_validate cfg.THREAD_STRUCT_SIZE ≠ 0 →
          ∃ th1 w3, attach_os_thread_alloc cfg env (f + 1) w = Res.ret th1 w3
            ∧ (w3.mem th1).os_address = cfg.os_validate cfg.THREAD_STRUCT_SIZE
            ∧ w3.bytes = w.bytes
            ∧ w3.recyclebin_threads = 0) := by
  refine ⟨?_, ?_, ?_⟩
  · intro th hth
    refine ⟨_,
      { w with
        mem := Function.update w.mem th { (w.mem th) with next := w.recyclebin_threads },
        recyclebin_threads := w.recyclebin_threads,
        recyclebin_lock := false },
      put_recyclebin_item_free env f th w hlock, rfl, by simp, ?_, rfl, rfl, ?_, ?_⟩
    · rw [get_recyclebin_item_free env f _ rfl]
      simp only [ne_eq, hth, not_false_eq_true, if_true, Function.update_same]
    · intro x hx
      simp [Function.update_noteq hx]
    · intro n bin hbin hmem
      have hcongr : threads_from
          (Function.update w.mem th { (w.mem th) with next := w.recyclebin_threads })
          n w.recyclebin_threads = some bin := by
        apply threads_from_congr_on w.mem _ n _ bin hbin
        intro x hx
        have hxth : x ≠ th := fun hc => hmem (hc ▸ hx)
        simp [Function.update_noteq hxth]
      constructor
      · simp only [threads_from, hth, if_false, Function.update_same, hcongr, Option.map_some']
      · simpa using hcongr
  · intro hempty
    rw [get_recyclebin_item_free env f w hlock]
    simp [hempty]
  · intro cfg hempty hmap
    refine ⟨(alloc_thread_struct cfg 0 cfg.NO_TLS_VALUE_MARKER_WIDETAG w).1,
      (alloc_thread_struct cfg 0 cfg.NO_TLS_VALUE_MARKER_WIDETAG w).2, ?_, ?_, ?_, ?_⟩
    · unfold attach_os_thread_alloc
      rw [get_recyclebin_item_free env f w hlock]
      simp only [hempty, ne_eq, not_true_eq_false, if_false]
    · simp [alloc_thread_struct, hmap, alloc_thread_struct_init]
    · simp [alloc_thread_struct, hmap, alloc_thread_struct_init]
    · simp [alloc_thread_struct, hmap, alloc_thread_struct_init, hempty]

theorem C9_witness :
    bin_world.recyclebin_lock = false
      ∧ threads_from bin_world.mem 2 bin_world.recyclebin_threads = some [6]
      ∧ ∃ w1 w2, put_recyclebin_item id 1 7 bin_world = Res.ret () w1
          ∧ threads_from w1.mem 3 w1.recyclebin_threads = some [7, 6]
          ∧ get_recyclebin_item id 1 w1 = Res.ret 7000 w2
          ∧ threads_from w2.mem 2 w2.recyclebin_threads = some [6] := by
  refine ⟨rfl, by decide, ?_⟩
  obtain ⟨w1, w2, hput, _, _, hget, _, _, _, hbin⟩ :=
    (C9_recyclebin_is_lifo id 0 bin_world rfl).1 7 (by decide)
  have hb := hbin 2 [6] (by decide) (by decide)
  exact ⟨w1, w2, hput, hb.1, hget, hb.2⟩

/-! ## `alloc_thread_struct`: scrubbing of a recycled stack -/

theorem memset_inside (bytes : Nat → Nat) (dst c n a : Nat) (h1 : dst ≤ a) (h2 : a < dst + n) :
    memset bytes dst c n a = c := by
  simp [memset, h1, h2]

theorem alloc_thread_struct_init_thread (cfg : Config) (z : Bool) (spaces sr : Nat)
    (w : World) :
    ((alloc_thread_struct_init cfg z spaces sr w).2.mem
        (alloc_thread_struct_init cfg z spaces sr w).1).control_stack_start
        = cfg.PTR_ALIGN_UP spaces cfg.THREAD_ALIGNMENT_BYTES
      ∧ ((alloc_thread_struct_init cfg z spaces sr w).2.mem
        (alloc_thread_struct_init cfg z spaces sr w).1).control_stack_end
        = cfg.PTR_ALIGN_UP spaces cfg.THREAD_ALIGNMENT_BYTES + cfg.thread_control_stack_size
      ∧ ((alloc_thread_struct_init cfg z spaces sr w).2.mem
        (alloc_thread_struct_init cfg z spaces sr w).1).os_address = spaces := by
  simp [alloc_thread_struct_init]

/-- C10: when `alloc_thread_struct` is given recycled memory (`spaces` not
null) it builds the thread in that memory and, on return, the top of the
reused control stack is zero: in the conservative configuration every byte of
the 16384 bytes ending at `th->control_stack_end`, in the precise
configuration every byte of the
`thread_control_stack_size - 2*os_vm_page_size` bytes from
`th->control_stack_start` (the sizes being such that the C subtractions do not
wrap).  When `spaces` is null nothing is scrubbed: raw memory is as before and
the thread is built in the memory `os_validate` mapped, or `NULL` is returned
when it mapped none. -/
theorem C10_alloc_thread_struct_scrubs_recycled_stack (cfg : Config) (spaces sr : Nat)
    (w : World) :
    (spaces ≠ 0 →
        ((alloc_thread_struct cfg spaces sr w).2.mem
            (alloc_thread_struct cfg spaces sr w).1).os_address = spaces
          ∧ (cfg.GENCGC_IS_PRECISE = false →
              16384 ≤ ((alloc_thread_struct cfg spaces sr w).2.mem
                (alloc_thread_struct cfg spaces sr w).1).control_stack_end →
              ∀ a,
                ((alloc_thread_struct cfg spaces sr w).2.mem
                    (alloc_thread_struct cfg spaces sr w).1).control_stack_end - 16384 ≤ a →
                a < ((alloc_thread_struct cfg spaces sr w).2.mem
                    (alloc_thread_struct cfg spaces sr w).1).control_stack_end →
                (alloc_thread_struct cfg spaces sr w).2.bytes a = 0)
          ∧ (cfg.GENCGC_IS_PRECISE = true →
              2 * cfg.os_vm_page_size ≤ cfg.thread_control_stack_size →
              ∀ a,
                ((alloc_thread_struct cfg spaces sr w).2.mem
                    (alloc_thread_struct cfg spaces sr w).1).control_stack_start ≤ a →
                a < ((alloc_thread_struct cfg spaces sr w).2.mem
                    (alloc_thread_struct cfg spaces sr w).1).control_stack_start
                  + (cfg.thread_control_stack_size - 2 * cfg.os_vm_page_size) →
                (alloc_thread_struct cfg spaces sr w).2.bytes a = 0))
      ∧ (spaces = 0 →
          (alloc_thread_struct cfg spaces sr w).2.bytes = w.bytes
            ∧ (cfg.os_validate cfg.THREAD_STRUCT_SIZE ≠ 0 →
                ((alloc_thread_struct cfg spaces sr w).2.mem
                  (alloc_thread_struct cfg spaces sr w).1).os_address
                  = cfg.os_validate cfg.THREAD_STRUCT_SIZE)
            ∧ (cfg.os_validate cfg.THREAD_STRUCT_SIZE = 0 →
                alloc_thread_struct cfg spaces sr w = (0, w))) := by
  constructor
  · intro hs
    have hrec : alloc_thread_struct cfg spaces sr w
        = alloc_thread_struct_init cfg true spaces sr w := by
      simp [alloc_thread_struct, hs]
    rw [hrec]
    obtain ⟨hstart, hend, haddr⟩ := alloc_thread_struct_init_thread cfg true spaces sr w
    refine ⟨haddr, ?_, ?_⟩
    · intro hcons _ a ha1 ha2
      rw [hend] at ha1 ha2
      have hb : (alloc_thread_struct_init cfg true spaces sr w).2.bytes
          = memset w.bytes
              (cfg.PTR_ALIGN_UP spaces cfg.THREAD_ALIGNMENT_BYTES
                + cfg.thread_control_stack_size - 16384) 0 16384 := by
        simp [alloc_thread_struct_init, hcons]
      rw [hb]
      exact memset_inside _ _ _ _ _ ha1 (by omega)
    · intro hprec _ a ha1 ha2
      rw [hstart] at ha1 ha2
      have hb : (alloc_thread_struct_init cfg true spaces sr w).2.bytes
          = memset w.bytes (cfg.PTR_ALIGN_UP spaces cfg.THREAD_ALIGNMENT_BYTES) 0
              (cfg.thread_control_stack_size - 2 * cfg.os_vm_page_size) := by
        simp [alloc_thread_struct_init, hprec]
      rw [hb]
      exact memset_inside _ _ _ _ _ ha1 ha2
  · intro hs
    subst hs
    refine ⟨?_, ?_, ?_⟩
    · simp only [alloc_thread_struct, ne_eq, not_true_eq_false, if_false]
      split
      · rfl
      · simp [alloc_thread_struct_init]
    · intro hmap
      simp [alloc_thread_struct, hmap, alloc_thread_struct_init]
    · intro hmap
      simp [alloc_thread_struct, hmap]

theorem C10_witness :
    (alloc_thread_struct sample_config 4096 255 dirty_world).2.bytes 53248 = 0
      ∧ (alloc_thread_struct sample_config 4096 255 dirty_world).2.bytes 69631 = 0
      ∧ (alloc_thread_struct precise_config 4096 255 dirty_world).2.bytes 4096 = 0
      ∧ (alloc_thread_struct precise_config 4096 255 dirty_world).2.bytes 61439 = 0
      ∧ (alloc_thread_struct sample_config 0 255 dirty_world).2.bytes 69631 = 170 := by
  have h := C10_alloc_thread_struct_scrubs_recycled_stack sample_config 4096 255 dirty_world
  have hp := C10_alloc_thread_struct_scrubs_recycled_stack precise_config 4096 255 dirty_world
  have h0 := C10_alloc_thread_struct_scrubs_recycled_stack sample_config 0 255 dirty_world
  refine ⟨?_, ?_, ?_, ?_, ?_⟩
  · exact (h.1 (by decide)).2.1 rfl (by decide) 53248 (by decide) (by decide)
  · exact (h.1 (by decide)).2.1 rfl (by decide) 69631 (by decide) (by decide)
  · exact (hp.1 (by decide)).2.2 rfl (by decide) 4096 (by decide) (by decide)
  · exact (hp.1 (by decide)).2.2 rfl (by decide) 61439 (by decide) (by decide)
  · rw [(h0.2 rfl).1]; rfl

/-! ## The collector: tests of the embedding on concrete inputs -/

theorem sample_copy_value :
    (gc_general_copy_object sample_gc_config 0x100F 2 1 sample_gc).value? = some 0x200F := by
  decide

theorem sample_copy_mem :
    (gc_general_copy_object sample_gc_config 0x100F 2 1 sample_gc).state.mem 0x2009
      = sample_gc.mem 0x1009 := by
  decide

theorem sample_copy_resizing_value :
    (gc_copy_object_resizing sample_gc_config 0x100F 4 1 2 sample_gc).value? = some 0x200F := by
  decide

/-! ## The collector: words, tags and the allocator -/

theorem pow_pred_le_pow (n : Nat) : 2 ^ (n - 1) ≤ 2 ^ n :=
  Nat.pow_le_pow_right (by decide) (Nat.sub_le n 1)

theorem to_sword_of_lt (cfg : GcConfig) (x : Nat) (h : x < 2 ^ (N_WORD_BITS cfg - 1)) :
    to_sword cfg x = (x : Int) := by
  have hx : x % 2 ^ N_WORD_BITS cfg = x :=
    Nat.mod_eq_of_lt (Nat.lt_of_lt_of_le h (pow_pred_le_pow _))
  unfold to_sword
  rw [hx, if_pos h]

theorem to_uword_of_lt (cfg : GcConfig) (x : Int) (h0 : 0 ≤ x)
    (h : x < ((2 ^ N_WORD_BITS cfg : Nat) : Int)) : ((to_uword cfg x : Nat) : Int) = x := by
  unfold to_uword
  rw [Int.emod_eq_of_lt h0 h]
  exact Int.toNat_of_nonneg h0

theorem lowtag_of_lt (cfg : GcConfig) (obj : Nat) : lowtag_of cfg obj < 2 ^ cfg.N_LOWTAG_BITS :=
  Nat.mod_lt _ (Nat.pos_pow_of_pos _ (by decide))

theorem make_lispobj_aligned (k address lowtag : Nat) (ha : address % 2 ^ k = 0)
    (ht : lowtag < 2 ^ k) : make_lispobj address lowtag = address + lowtag := by
  unfold make_lispobj
  have h := Nat.mul_add_lt_is_or ht (address / 2 ^ k)
  have hd : 2 ^ k * (address / 2 ^ k) = address := Nat.mul_div_cancel' (Nat.dvd_of_mod_eq_zero ha)
  rw [hd] at h
  exact h.symm

theorem lowtag_of_make_lispobj (cfg : GcConfig) (address object : Nat)
    (ha : address % 2 ^ cfg.N_LOWTAG_BITS = 0) :
    lowtag_of cfg (make_lispobj address (lowtag_of cfg object)) = lowtag_of cfg object := by
  rw [make_lispobj_aligned cfg.N_LOWTAG_BITS address _ ha (lowtag_of_lt cfg object)]
  unfold lowtag_of
  rw [Nat.add_mod, ha, Nat.zero_add, Nat.mod_mod, Nat.mod_mod]

theorem native_pointer_make_lispobj (cfg : GcConfig) (address object : Nat)
    (ha : address % 2 ^ cfg.N_LOWTAG_BITS = 0) :
    native_pointer cfg (make_lispobj address (lowtag_of cfg object)) = address := by
  have h : make_lispobj address (lowtag_of cfg object) % 2 ^ cfg.N_LOWTAG_BITS
      = lowtag_of cfg object := lowtag_of_make_lispobj cfg address object ha
  unfold native_pointer
  rw [h, make_lispobj_aligned cfg.N_LOWTAG_BITS address _ ha (lowtag_of_lt cfg object)]
  omega

theorem memcpy_inside (mem : Nat → Nat) (dst src n i : Nat) (h : i < n) :
    memcpy mem dst src n (dst + i) = mem (src + i) := by
  unfold memcpy
  rw [if_pos ⟨Nat.le_add_right _ _, Nat.add_lt_add_left h _⟩, Nat.add_sub_cancel_left]

theorem memcpy_outside (mem : Nat → Nat) (dst src n a : Nat) (h : ¬ (dst ≤ a ∧ a < dst + n)) :
    memcpy mem dst src n a = mem a := by
  unfold memcpy
  rw [if_neg h]

theorem read_word_congr (cfg : GcConfig) (m1 m2 : Nat → Nat) (a b : Nat)
    (h : ∀ j, j < cfg.N_WORD_BYTES → m1 (a + j) = m2 (b + j)) :
    read_word cfg m1 a = read_word cfg m2 b := by
  unfold read_word
  congr 1
  apply List.map_congr_left
  intro j hj
  rw [h j (List.mem_range.mp hj)]

theorem gc_alloc_with_region_free (cfg : GcConfig) (region : alloc_region) (n : Nat)
    (flag : Int) :
    (gc_alloc_with_region cfg region (n : Int) flag).2.free_pointer
      = (gc_alloc_with_region cfg region (n : Int) flag).1 + n := by
  unfold gc_alloc_with_region
  simp only
  rw [← Int.ofNat_add]
  exact Int.toNat_ofNat _

theorem gc_general_alloc_ok (cfg : GcConfig) (nbytes flag : Int) (g : Gc)
    (hflag : 1 ≤ flag ∧ flag ≤ 3) :
    gc_general_alloc cfg nbytes flag g
      = GcRes.ok (gc_alloc_with_region cfg (g.gc_alloc_region (flag - 1).toNat) nbytes flag).1
          { g with
            gc_alloc_region := Function.update g.gc_alloc_region (flag - 1).toNat
              (gc_alloc_with_region cfg (g.gc_alloc_region (flag - 1).toNat) nbytes flag).2 } := by
  unfold gc_general_alloc
  rw [if_pos hflag]

theorem gc_general_alloc_lose (cfg : GcConfig) (nbytes flag : Int) (g : Gc)
    (hflag : ¬ (1 ≤ flag ∧ flag ≤ 3)) :
    gc_general_alloc cfg nbytes flag g = GcRes.lose g := by
  unfold gc_general_alloc
  rw [if_neg hflag]

theorem gc_general_copy_object_eq (cfg : GcConfig) (g : Gc) (object nwords : Nat) (flag : Int)
    (hflag : 1 ≤ flag ∧ flag ≤ 3)
    (hsize : nwords * cfg.N_WORD_BYTES < 2 ^ (N_WORD_BITS cfg - 1)) :
    gc_general_copy_object cfg object nwords flag g
      = GcRes.ok
          (make_lispobj
            (gc_alloc_with_region cfg (g.gc_alloc_region (flag - 1).toNat)
              ((nwords * cfg.N_WORD_BYTES : Nat) : Int) flag).1
            (lowtag_of cfg object))
          { g with
            gc_alloc_region := Function.update g.gc_alloc_region (flag - 1).toNat
              (gc_alloc_with_region cfg (g.gc_alloc_region (flag - 1).toNat)
                ((nwords * cfg.N_WORD_BYTES : Nat) : Int) flag).2
            gc_copied_nwords := (g.gc_copied_nwords + nwords) % 2 ^ N_WORD_BITS cfg
            mem := memcpy g.mem
              (gc_alloc_with_region cfg (g.gc_alloc_region (flag - 1).toNat)
                ((nwords * cfg.N_WORD_BYTES : Nat) : Int) flag).1
              (native_pointer cfg object) (nwords * cfg.N_WORD_BYTES) } := by
  have hx : (nwords * cfg.N_WORD_BYTES) % 2 ^ N_WORD_BITS cfg = nwords * cfg.N_WORD_BYTES :=
    Nat.mod_eq_of_lt (Nat.lt_of_lt_of_le hsize (pow_pred_le_pow _))
  unfold gc_general_copy_object
  simp only [hx, to_sword_of_lt cfg _ hsize, gc_general_alloc_ok cfg _ flag g hflag]

/-! ## C11: gc_general_copy_object -/

/-- C11: for a valid page type, a byte count that fits a signed word, new storage
`new` (the address the allocator hands out) aligned to the lowtag boundary and
disjoint from the original, `gc_general_copy_object` returns a reference with
the original's lowtag whose untagged address is `new`; the region's free pointer
is `new + nwords*N_WORD_BYTES`; every byte, hence every one of the first `nwords`
words, of the new storage equals the original's; `gc_copied_nwords` has grown
by `nwords` (as a machine word); memory outside the new storage, in particular
the original, is unchanged. -/
theorem C11_gc_general_copy_object_copies (cfg : GcConfig) (g : Gc) (object nwords : Nat)
    (flag : Int) (new : Nat)
    (hflag : 1 ≤ flag ∧ flag ≤ 3)
    (hsize : nwords * cfg.N_WORD_BYTES < 2 ^ (N_WORD_BITS cfg - 1))
    (hnew : new = (gc_alloc_with_region cfg (g.gc_alloc_region (flag - 1).toNat)
      ((nwords * cfg.N_WORD_BYTES : Nat) : Int) flag).1)
    (halign : new % 2 ^ cfg.N_LOWTAG_BITS = 0)
    (hdisj : new + nwords * cfg.N_WORD_BYTES ≤ native_pointer cfg object
      ∨ native_pointer cfg object + nwords * cfg.N_WORD_BYTES ≤ new) :
    (gc_general_copy_object cfg object nwords flag g).value?
        = some (make_lispobj new (lowtag_of cfg object))
      ∧ lowtag_of cfg (make_lispobj new (lowtag_of cfg object)) = lowtag_of cfg object
      ∧ native_pointer cfg (make_lispobj new (lowtag_of cfg object)) = new
      ∧ ((gc_general_copy_object cfg object nwords flag g).state.gc_alloc_region
            (flag - 1).toNat).free_pointer = new + nwords * cfg.N_WORD_BYTES
      ∧ (∀ i, i < nwords * cfg.N_WORD_BYTES →
          (gc_general_copy_object cfg object nwords flag g).state.mem (new + i)
            = g.mem (native_pointer cfg object + i))
      ∧ (∀ k, k < nwords →
          read_word cfg (gc_general_copy_object cfg object nwords flag g).state.mem
              (new + k * cfg.N_WORD_BYTES)
            = read_word cfg g.mem (native_pointer cfg object + k * cfg.N_WORD_BYTES))
      ∧ (gc_general_copy_object cfg object nwords flag g).state.gc_copied_nwords
          = (g.gc_copied_nwords + nwords) % 2 ^ N_WORD_BITS cfg
      ∧ (g.gc_copied_nwords + nwords < 2 ^ N_WORD_BITS cfg →
          (gc_general_copy_object cfg object nwords flag g).state.gc_copied_nwords
            = g.gc_copied_nwords + nwords)
      ∧ (∀ a, ¬ (new ≤ a ∧ a < new + nwords * cfg.N_WORD_BYTES) →
          (gc_general_copy_object cfg object nwords flag g).state.mem a = g.mem a)
      ∧ (∀ i, i < nwords * cfg.N_WORD_BYTES →
          (gc_general_copy_object cfg object nwords flag g).state.mem
              (native_pointer cfg object + i)
            = g.mem (native_pointer cfg object + i)) := by
  rw [gc_general_copy_object_eq cfg g object nwords flag hflag hsize, ← hnew]
  have hin : ∀ i, i < nwords * cfg.N_WORD_BYTES →
      memcpy g.mem new (native_pointer cfg object) (nwords * cfg.N_WORD_BYTES) (new + i)
        = g.mem (native_pointer cfg object + i) :=
    fun i hi => memcpy_inside _ _ _ _ _ hi
  have hout : ∀ a, ¬ (new ≤ a ∧ a < new + nwords * cfg.N_WORD_BYTES) →
      memcpy g.mem new (native_pointer cfg object) (nwords * cfg.N_WORD_BYTES) a = g.mem a :=
    fun a ha => memcpy_outside _ _ _ _ _ ha
  refine ⟨rfl, lowtag_of_make_lispobj cfg new object halign,
    native_pointer_make_lispobj cfg new object halign, ?_, hin, ?_, rfl, ?_, hout, ?_⟩
  · show (Function.update g.gc_alloc_region (flag - 1).toNat _ (flag - 1).toNat).free_pointer = _
    rw [Function.update_same, gc_alloc_with_region_free, ← hnew]
  · intro k hk
    apply read_word_congr
    intro j hj
    show memcpy g.mem new (native_pointer cfg object) (nwords * cfg.N_WORD_BYTES)
        (new + k * cfg.N_WORD_BYTES + j) = _
    have hlt : k * cfg.N_WORD_BYTES + j < nwords * cfg.N_WORD_BYTES := by
      have h1 : (k + 1) * cfg.N_WORD_BYTES ≤ nwords * cfg.N_WORD_BYTES :=
        Nat.mul_le_mul_right _ hk
      rw [Nat.succ_mul] at h1
      omega
    rw [Nat.add_assoc, Nat.add_assoc, hin _ hlt]
  · intro hlt
    exact Nat.mod_eq_of_lt hlt
  · intro i hi
    apply hout
    omega

theorem C11_witness :
    (gc_general_copy_object sample_gc_config 0x100F 2 1 sample_gc).value? = some 0x200F
      ∧ (gc_general_copy_object sample_gc_config 0x100F 2 1 sample_gc).state.mem 0x2009
          = sample_gc.mem 0x1009
      ∧ (gc_general_copy_object sample_gc_config 0x100F 2 1 sample_gc).state.gc_copied_nwords
          = 12
      ∧ (gc_general_copy_object sample_gc_config 0x100F 2 1 sample_gc).state.mem 0x1009
          = sample_gc.mem 0x1009 := by
  have h := C11_gc_general_copy_object_copies sample_gc_config sample_gc 0x100F 2 1 0x2000
    (by decide) (by decide) (by decide) (by decide) (by decide)
  refine ⟨h.1, ?_, ?_, ?_⟩
  · exact h.2.2.2.2.1 9 (by decide)
  · exact h.2.2.2.2.2.2.2.1 (by decide)
  · exact h.2.2.2.2.2.2.2.2.2 9 (by decide)

/-! ## C13: gc_copy_object_resizing -/

theorem to_uword_natCast (cfg : GcConfig) (n : Nat) :
    to_uword cfg (n : Int) = n % 2 ^ N_WORD_BITS cfg := by
  unfold to_uword
  rw [← Int.natCast_mod]
  exact Int.toNat_ofNat _

theorem to_signed_natCast (bits n : Nat) (h : n < 2 ^ (bits - 1)) :
    to_signed bits (n : Int) = (n : Int) := by
  have hle : 2 ^ (bits - 1) ≤ 2 ^ bits := Nat.pow_le_pow_right (by decide) (Nat.sub_le _ _)
  have hmod : (n : Int) % ((2 ^ bits : Nat) : Int) = (n : Int) := by
    rw [← Int.natCast_mod, Nat.mod_eq_of_lt (Nat.lt_of_lt_of_le h hle)]
  unfold to_signed
  rw [hmod, if_pos (by exact_mod_cast h)]

/-- An `int` product out of range: `old_nwords = 2^28` words of 8 bytes. -/
theorem sample_int_product_wraps :
    to_signed INT_BITS (268435456 * 8) = -2147483648 := by decide

theorem gc_copy_object_resizing_eq (cfg : GcConfig) (g : Gc) (object nwords old_nwords : Nat)
    (flag : Int) (hflag : 1 ≤ flag ∧ flag ≤ 3)
    (hlong : nwords * cfg.N_WORD_BYTES < 2 ^ (cfg.LONG_BITS - 1))
    (hint : old_nwords * cfg.N_WORD_BYTES < 2 ^ (INT_BITS - 1))
    (hsize : old_nwords * cfg.N_WORD_BYTES < 2 ^ N_WORD_BITS cfg) :
    gc_copy_object_resizing cfg object (nwords : Int) flag (old_nwords : Int) g
      = GcRes.ok
          (make_lispobj
            (gc_alloc_with_region cfg (g.gc_alloc_region (flag - 1).toNat)
              ((nwords * cfg.N_WORD_BYTES : Nat) : Int) flag).1
            (lowtag_of cfg object))
          { g with
            gc_alloc_region := Function.update g.gc_alloc_region (flag - 1).toNat
              (gc_alloc_with_region cfg (g.gc_alloc_region (flag - 1).toNat)
                ((nwords * cfg.N_WORD_BYTES : Nat) : Int) flag).2
            gc_copied_nwords := (g.gc_copied_nwords + old_nwords) % 2 ^ N_WORD_BITS cfg
            mem := memcpy g.mem
              (gc_alloc_with_region cfg (g.gc_alloc_region (flag - 1).toNat)
                ((nwords * cfg.N_WORD_BYTES : Nat) : Int) flag).1
              (native_pointer cfg object) (old_nwords * cfg.N_WORD_BYTES) } := by
  have h1 : to_signed cfg.LONG_BITS ((nwords : Int) * (cfg.N_WORD_BYTES : Int))
      = ((nwords * cfg.N_WORD_BYTES : Nat) : Int) := by
    rw [← Int.ofNat_mul]
    exact to_signed_natCast _ _ hlong
  have h2 : to_uword cfg (to_signed INT_BITS ((old_nwords : Int) * (cfg.N_WORD_BYTES : Int)))
      = old_nwords * cfg.N_WORD_BYTES := by
    rw [← Int.ofNat_mul, to_signed_natCast _ _ hint, to_uword_natCast]
    exact Nat.mod_eq_of_lt hsize
  have h3 : to_uword cfg ((g.gc_copied_nwords : Int) + (old_nwords : Int))
      = (g.gc_copied_nwords + old_nwords) % 2 ^ N_WORD_BITS cfg := by
    rw [← Int.ofNat_add, to_uword_natCast]
  unfold gc_copy_object_resizing
  simp only [h1, h2, gc_general_alloc_ok cfg _ flag g hflag, h3]

/-- C13: for a valid page type, counts that are non-negative values of their C
types (`nwords` a `long`, `old_nwords` an `int`) whose byte sizes
`nwords*N_WORD_BYTES` and `old_nwords*N_WORD_BYTES` do not overflow `long` and
`int`, and new storage `new` aligned to the lowtag boundary,
`gc_copy_object_resizing` returns a reference with the
original's lowtag and untagged address `new`; the region's free pointer is
`new + nwords*N_WORD_BYTES` whatever `old_nwords` is; exactly the
`old_nwords*N_WORD_BYTES` bytes at `new` are written, with the original's first
`old_nwords` words (the original being disjoint from them); `gc_copied_nwords`
has grown by `old_nwords` (as a machine word); and when `old_nwords ≤ nwords`
the bytes written lie within the allocation. -/
theorem C13_gc_copy_object_resizing (cfg : GcConfig) (g : Gc) (object nwords old_nwords : Nat)
    (flag : Int) (new : Nat)
    (hflag : 1 ≤ flag ∧ flag ≤ 3)
    (hnwords : nwords < 2 ^ (cfg.LONG_BITS - 1))
    (hold : old_nwords < 2 ^ (INT_BITS - 1))
    (hlong : nwords * cfg.N_WORD_BYTES < 2 ^ (cfg.LONG_BITS - 1))
    (hint : old_nwords * cfg.N_WORD_BYTES < 2 ^ (INT_BITS - 1))
    (hsize : old_nwords * cfg.N_WORD_BYTES < 2 ^ N_WORD_BITS cfg)
    (hnew : new = (gc_alloc_with_region cfg (g.gc_alloc_region (flag - 1).toNat)
      ((nwords * cfg.N_WORD_BYTES : Nat) : Int) flag).1)
    (halign : new % 2 ^ cfg.N_LOWTAG_BITS = 0) :
    (gc_copy_object_resizing cfg object (nwords : Int) flag (old_nwords : Int) g).value?
        = some (make_lispobj new (lowtag_of cfg object))
      ∧ lowtag_of cfg (make_lispobj new (lowtag_of cfg object)) = lowtag_of cfg object
      ∧ native_pointer cfg (make_lispobj new (lowtag_of cfg object)) = new
      ∧ ((gc_copy_object_resizing cfg object (nwords : Int) flag (old_nwords : Int)
            g).state.gc_alloc_region (flag - 1).toNat).free_pointer
          = new + nwords * cfg.N_WORD_BYTES
      ∧ (∀ i, i < old_nwords * cfg.N_WORD_BYTES →
          (gc_copy_object_resizing cfg object (nwords : Int) flag (old_nwords : Int)
              g).state.mem (new + i)
            = g.mem (native_pointer cfg object + i))
      ∧ (∀ k, k < old_nwords →
          read_word cfg
              (gc_copy_object_resizing cfg object (nwords : Int) flag (old_nwords : Int)
                g).state.mem (new + k * cfg.N_WORD_BYTES)
            = read_word cfg g.mem (native_pointer cfg object + k * cfg.N_WORD_BYTES))
      ∧ (∀ a, ¬ (new ≤ a ∧ a < new + old_nwords * cfg.N_WORD_BYTES) →
          (gc_copy_object_resizing cfg object (nwords : Int) flag (old_nwords : Int)
              g).state.mem a = g.mem a)
      ∧ (gc_copy_object_resizing cfg object (nwords : Int) flag (old_nwords : Int)
            g).state.gc_copied_nwords
          = (g.gc_copied_nwords + old_nwords) % 2 ^ N_WORD_BITS cfg
      ∧ (g.gc_copied_nwords + old_nwords < 2 ^ N_WORD_BITS cfg →
          (gc_copy_object_resizing cfg object (nwords : Int) flag (old_nwords : Int)
              g).state.gc_copied_nwords = g.gc_copied_nwords + old_nwords)
      ∧ (old_nwords ≤ nwords → ∀ i, i < old_nwords * cfg.N_WORD_BYTES →
          new + i < new + nwords * cfg.N_WORD_BYTES
            ∧ (gc_copy_object_resizing cfg object (nwords : Int) flag (old_nwords : Int)
                g).state.mem (new + i) = g.mem (native_pointer cfg object + i)) := by
  have _ := hnwords
  have _ := hold
  rw [gc_copy_object_resizing_eq cfg g object nwords old_nwords flag hflag hlong hint hsize,
    ← hnew]
  have hin : ∀ i, i < old_nwords * cfg.N_WORD_BYTES →
      memcpy g.mem new (native_pointer cfg object) (old_nwords * cfg.N_WORD_BYTES) (new + i)
        = g.mem (native_pointer cfg object + i) :=
    fun i hi => memcpy_inside _ _ _ _ _ hi
  refine ⟨rfl, lowtag_of_make_lispobj cfg new object halign,
    native_pointer_make_lispobj cfg new object halign, ?_, hin, ?_,
    fun a ha => memcpy_outside _ _ _ _ _ ha, rfl, fun hlt => Nat.mod_eq_of_lt hlt, ?_⟩
  · show (Function.update g.gc_alloc_region (flag - 1).toNat _ (flag - 1).toNat).free_pointer = _
    rw [Function.update_same, gc_alloc_with_region_free, ← hnew]
  · intro k hk
    apply read_word_congr
    intro j hj
    show memcpy g.mem new (native_pointer cfg object) (old_nwords * cfg.N_WORD_BYTES)
        (new + k * cfg.N_WORD_BYTES + j) = _
    have hlt : k * cfg.N_WORD_BYTES + j < old_nwords * cfg.N_WORD_BYTES := by
      have h1 : (k + 1) * cfg.N_WORD_BYTES ≤ old_nwords * cfg.N_WORD_BYTES :=
        Nat.mul_le_mul_right _ hk
      rw [Nat.succ_mul] at h1
      omega
    rw [Nat.add_assoc, Nat.add_assoc, hin _ hlt]
  · intro hle i hi
    have h1 : old_nwords * cfg.N_WORD_BYTES ≤ nwords * cfg.N_WORD_BYTES :=
      Nat.mul_le_mul_right _ hle
    exact ⟨by omega, hin i hi⟩

theorem C13_witness :
    (gc_copy_object_resizing sample_gc_config 0x100F 4 1 2 sample_gc).value? = some 0x200F
      ∧ ((gc_copy_object_resizing sample_gc_config 0x100F 4 1 2 sample_gc).state.gc_alloc_region
          0).free_pointer = 0x2020
      ∧ (gc_copy_object_resizing sample_gc_config 0x100F 4 1 2 sample_gc).state.mem 0x200F
          = sample_gc.mem 0x100F
      ∧ (gc_copy_object_resizing sample_gc_config 0x100F 4 1 2 sample_gc).state.mem 0x2010
          = sample_gc.mem 0x2010
      ∧ (gc_copy_object_resizing sample_gc_config 0x100F 4 1 2
          sample_gc).state.gc_copied_nwords = 12 := by
  have h := C13_gc_copy_object_resizing sample_gc_config sample_gc 0x100F 4 2 1 0x2000
    (by decide) (by decide) (by decide) (by decide) (by decide) (by decide) (by decide)
    (by decide)
  refine ⟨h.1, h.2.2.2.1, ?_, ?_, ?_⟩
  · exact h.2.2.2.2.1 15 (by decide)
  · exact h.2.2.2.2.2.2.1 0x2010 (by decide)
  · exact h.2.2.2.2.2.2.2.2.1 (by decide)

/-! ## C12: copying twice, and the forwarding protocol -/

theorem gc_alloc_with_region_room (cfg : GcConfig) (region : alloc_region) (n : Nat) (flag : Int)
    (h : region.free_pointer + n ≤ region.end_addr) :
    gc_alloc_with_region cfg region (n : Int) flag
      = (region.free_pointer, { region with free_pointer := region.free_pointer + n }) := by
  have h1 : (region.free_pointer : Int) + (n : Int) ≤ (region.end_addr : Int) := by
    exact_mod_cast h
  unfold gc_alloc_with_region
  simp only [if_pos h1]
  rw [← Int.ofNat_add, Int.toNat_ofNat]

theorem forward_or_copy_forwarded (cfg : GcConfig) (g : Gc) (object nwords : Nat) (flag : Int)
    (h : cfg.forwarding_pointer_p g.mem (native_pointer cfg object) = true) :
    forward_or_copy cfg object nwords flag g
      = GcRes.ok (cfg.forwarding_pointer_value g.mem (native_pointer cfg object)) g := by
  unfold forward_or_copy
  simp only [h, if_true]

theorem forward_or_copy_fresh (cfg : GcConfig) (g : Gc) (object nwords : Nat) (flag : Int)
    (c : Nat) (g1 : Gc)
    (h : cfg.forwarding_pointer_p g.mem (native_pointer cfg object) = false)
    (hc : gc_general_copy_object cfg object nwords flag g = GcRes.ok c g1) :
    forward_or_copy cfg object nwords flag g
      = GcRes.ok c
          { g1 with mem := cfg.set_forwarding_pointer g1.mem (native_pointer cfg object) c } := by
  unfold forward_or_copy
  simp only [h, hc]
  rfl

theorem C12_counterexample :
    (gc_general_copy_object sample_gc_config 0x100F 2 1 sample_gc).value? = some 0x200F
      ∧ (gc_general_copy_object sample_gc_config 0x100F 2 1
          (gc_general_copy_object sample_gc_config 0x100F 2 1 sample_gc).state).value?
          = some 0x201F
      ∧ sample_gc_config.forwarding_pointer_p
          (gc_general_copy_object sample_gc_config 0x100F 2 1 sample_gc).state.mem
          (native_pointer sample_gc_config 0x100F) = false := by
  decide

/-- C12 (amended): `gc_general_copy_object` neither tests nor sets a forwarding
marker.  With a valid page type, a positive size and room for two copies in an
aligned region, two calls on the same object return two different references,
the second to storage `nwords*N_WORD_BYTES` bytes after the first.  Copying at
most once is the effect of the protocol around it (`forward_or_copy`: follow
the marker if there is one, else copy and set the marker): provided that the
marker set for the copy reads back as set with that copy as its value, running
the protocol a second time returns the same reference and changes nothing. -/
theorem C12_copy_twice_and_forwarding (cfg : GcConfig) (g : Gc) (object nwords : Nat)
    (flag : Int)
    (hflag : 1 ≤ flag ∧ flag ≤ 3)
    (hpos : 0 < nwords * cfg.N_WORD_BYTES)
    (hsize : nwords * cfg.N_WORD_BYTES < 2 ^ (N_WORD_BITS cfg - 1))
    (hroom : (g.gc_alloc_region (flag - 1).toNat).free_pointer
        + nwords * cfg.N_WORD_BYTES + nwords * cfg.N_WORD_BYTES
      ≤ (g.gc_alloc_region (flag - 1).toNat).end_addr)
    (halign : (g.gc_alloc_region (flag - 1).toNat).free_pointer % 2 ^ cfg.N_LOWTAG_BITS = 0)
    (hmult : (nwords * cfg.N_WORD_BYTES) % 2 ^ cfg.N_LOWTAG_BITS = 0)
    (hfwd : ∀ mem,
      cfg.forwarding_pointer_p
          (cfg.set_forwarding_pointer mem (native_pointer cfg object)
            (make_lispobj (g.gc_alloc_region (flag - 1).toNat).free_pointer
              (lowtag_of cfg object)))
          (native_pointer cfg object) = true
        ∧ cfg.forwarding_pointer_value
            (cfg.set_forwarding_pointer mem (native_pointer cfg object)
              (make_lispobj (g.gc_alloc_region (flag - 1).toNat).free_pointer
                (lowtag_of cfg object)))
            (native_pointer cfg object)
          = make_lispobj (g.gc_alloc_region (flag - 1).toNat).free_pointer
              (lowtag_of cfg object)) :
    ((gc_general_copy_object cfg object nwords flag g).value?
        = some (make_lispobj (g.gc_alloc_region (flag - 1).toNat).free_pointer
            (lowtag_of cfg object))
      ∧ (gc_general_copy_object cfg object nwords flag
          (gc_general_copy_object cfg object nwords flag g).state).value?
        = some (make_lispobj
            ((g.gc_alloc_region (flag - 1).toNat).free_pointer + nwords * cfg.N_WORD_BYTES)
            (lowtag_of cfg object))
      ∧ make_lispobj (g.gc_alloc_region (flag - 1).toNat).free_pointer (lowtag_of cfg object)
        ≠ make_lispobj
            ((g.gc_alloc_region (flag - 1).toNat).free_pointer + nwords * cfg.N_WORD_BYTES)
            (lowtag_of cfg object))
      ∧ (∃ c, (forward_or_copy cfg object nwords flag g).value? = some c
          ∧ (forward_or_copy cfg object nwords flag
              (forward_or_copy cfg object nwords flag g).state).value? = some c
          ∧ (forward_or_copy cfg object nwords flag
              (forward_or_copy cfg object nwords flag g).state).state
            = (forward_or_copy cfg object nwords flag g).state) := by
  have hroom1 : (g.gc_alloc_region (flag - 1).toNat).free_pointer + nwords * cfg.N_WORD_BYTES
      ≤ (g.gc_alloc_region (flag - 1).toNat).end_addr := by omega
  have e1 := gc_general_copy_object_eq cfg g object nwords flag hflag hsize
  rw [gc_alloc_with_region_room cfg _ _ flag hroom1] at e1
  refine ⟨⟨?_, ?_, ?_⟩, ?_⟩
  · rw [e1]; rfl
  · rw [e1]
    simp only [GcRes.state]
    rw [gc_general_copy_object_eq cfg _ object nwords flag hflag hsize]
    simp only [Function.update_same, GcRes.value?]
    rw [gc_alloc_with_region_room cfg _ _ flag hroom]
  · have ha2 : ((g.gc_alloc_region (flag - 1).toNat).free_pointer + nwords * cfg.N_WORD_BYTES)
        % 2 ^ cfg.N_LOWTAG_BITS = 0 := by
      rw [Nat.add_mod, halign, hmult]; rfl
    rw [make_lispobj_aligned cfg.N_LOWTAG_BITS _ _ halign (lowtag_of_lt cfg object),
      make_lispobj_aligned cfg.N_LOWTAG_BITS _ _ ha2 (lowtag_of_lt cfg object)]
    omega
  · cases hp : cfg.forwarding_pointer_p g.mem (native_pointer cfg object) with
    | true =>
      have e := forward_or_copy_forwarded cfg g object nwords flag hp
      refine ⟨cfg.forwarding_pointer_value g.mem (native_pointer cfg object), ?_, ?_, ?_⟩
      · rw [e]; rfl
      · rw [e]; simp only [GcRes.state]; rw [e]; rfl
      · rw [e]; simp only [GcRes.state]; rw [e]
    | false =>
      have e := forward_or_copy_fresh cfg g object nwords flag _ _ hp e1
      have e2 := forward_or_copy_forwarded cfg (forward_or_copy cfg object nwords flag g).state
        object nwords flag (by rw [e]; exact (hfwd _).1)
      refine ⟨make_lispobj (g.gc_alloc_region (flag - 1).toNat).free_pointer
        (lowtag_of cfg object), ?_, ?_, ?_⟩
      · rw [e]; rfl
      · rw [e2, e]; exact congrArg some (hfwd _).2
      · rw [e2]; rfl

theorem sample_forwarding_roundtrip (mem : Nat → Nat) :
    sample_forwarding_pointer_p (sample_set_forwarding_pointer mem 0x1000 0x200F) 0x1000 = true
      ∧ sample_forwarding_pointer_value (sample_set_forwarding_pointer mem 0x1000 0x200F) 0x1000
        = 0x200F := by
  constructor
  · simp [sample_forwarding_pointer_p, sample_set_forwarding_pointer]
  · simp [sample_forwarding_pointer_value, sample_set_forwarding_pointer, List.range_succ]

theorem C12_witness :
    ((gc_general_copy_object sample_gc_config 0x100F 2 1 sample_gc).value? = some 0x200F
      ∧ (gc_general_copy_object sample_gc_config 0x100F 2 1
          (gc_general_copy_object sample_gc_config 0x100F 2 1 sample_gc).state).value?
        = some 0x201F
      ∧ (0x200F : Nat) ≠ 0x201F)
      ∧ (∃ c, (forward_or_copy sample_gc_config 0x100F 2 1 sample_gc).value? = some c
          ∧ (forward_or_copy sample_gc_config 0x100F 2 1
              (forward_or_copy sample_gc_config 0x100F 2 1 sample_gc).state).value? = some c
          ∧ (forward_or_copy sample_gc_config 0x100F 2 1
              (forward_or_copy sample_gc_config 0x100F 2 1 sample_gc).state).state
            = (forward_or_copy sample_gc_config 0x100F 2 1 sample_gc).state) :=
  C12_copy_twice_and_forwarding sample_gc_config sample_gc 0x100F 2 1
    (by decide) (by decide) (by decide) (by decide) (by decide) (by decide)
    (fun mem => sample_forwarding_roundtrip mem)

theorem sample_forward_or_copy_value :
    (forward_or_copy sample_gc_config 0x100F 2 1 sample_gc).value? = some 0x200F
      ∧ (forward_or_copy sample_gc_config 0x100F 2 1
          (forward_or_copy sample_gc_config 0x100F 2 1 sample_gc).state).value?
        = some 0x200F := by
  decide

/-! ## C14: weak_pointer_breakable_p -/

theorem C14_counterexample :
    sample_gc_config.from_space_p 0x100F = true
      ∧ (forwarded_gc.wps 0x6000).value = 0x100F
      ∧ sample_gc_config.forwarding_pointer_p forwarded_gc.mem
          (native_pointer sample_gc_config 0x100F) = true
      ∧ weak_pointer_breakable_p sample_gc_config 0x6000 forwarded_gc = true := by
  decide

/-- C14 (amended): `weak_pointer_breakable_p(wp)` is true if and only if the value
of `wp` is a pointer and lies in from-space, or (with immobile space) is an
immobile-space object whose generation bits equal `from_space`.  It does not
look at the forwarding marker: between two states with the same weak pointers
and the same `from_space` the answer for a from-space referent is the same,
whatever heap memory holds. -/
theorem C14_weak_pointer_breakable_p (cfg : GcConfig) (g : Gc) (wp : Nat) :
    (weak_pointer_breakable_p cfg wp g = true ↔
        cfg.is_lisp_pointer (g.wps wp).value = true
          ∧ (cfg.from_space_p (g.wps wp).value = true
            ∨ (cfg.LISP_FEATURE_IMMOBILE_SPACE = true
              ∧ cfg.immobile_space_p (g.wps wp).value = true
              ∧ (immobile_obj_gen_bits cfg g.mem (cfg.base_pointer (g.wps wp).value) : Int)
                  = g.from_space)))
      ∧ (∀ mem, cfg.is_lisp_pointer (g.wps wp).value = true →
          cfg.from_space_p (g.wps wp).value = true →
          weak_pointer_breakable_p cfg wp { g with mem := mem } = true) := by
  constructor
  · unfold weak_pointer_breakable_p
    simp only [Bool.and_eq_true, Bool.or_eq_true, decide_eq_true_eq]
  · intro mem h1 h2
    unfold weak_pointer_breakable_p
    simp only [h1, h2, Bool.true_or, Bool.and_self]

theorem C14_witness :
    weak_pointer_breakable_p sample_gc_config 0x6000 sample_gc = true
      ∧ weak_pointer_breakable_p sample_gc_config 0x6000 { sample_gc with mem := fun _ => 1 }
          = true :=
  ⟨(C14_weak_pointer_breakable_p sample_gc_config sample_gc 0x6000).1.mpr (by decide),
   (C14_weak_pointer_breakable_p sample_gc_config sample_gc 0x6000).2 (fun _ => 1)
      (by decide) (by decide)⟩

/-! ## C15: add_to_weak_pointer_chain -/

theorem chain_from_update (cfg : GcConfig) (wps : Nat → weak_pointer) (wp : Nat)
    (v : weak_pointer) :
    ∀ (fuel p : Nat) (l : List Nat), chain_from cfg wps fuel p = some l → wp ∉ l →
      chain_from cfg (Function.update wps wp v) fuel p = some l := by
  intro fuel
  induction fuel with
  | zero =>
    intro p l h _
    exact h
  | succ n ih =>
    intro p l h hmem
    by_cases hp : p = WEAK_POINTER_CHAIN_END cfg
    · simp only [chain_from, hp, if_true] at h ⊢
      exact h
    · simp only [chain_from, hp, if_false, Option.map_eq_some'] at h ⊢
      obtain ⟨l1, h1, rfl⟩ := h
      have hne : p ≠ wp := fun e => hmem (e ▸ List.mem_cons_self _ _)
      rw [Function.update_noteq hne]
      exact ⟨l1, ih _ _ h1 (fun hm => hmem (List.mem_cons_of_mem _ hm)), rfl⟩

theorem chain_from_self_loop (cfg : GcConfig) (wps : Nat → weak_pointer) (wp : Nat)
    (hend : wp ≠ WEAK_POINTER_CHAIN_END cfg) (hloop : (wps wp).next = wp) :
    ∀ fuel, chain_from cfg wps fuel wp = none := by
  intro fuel
  induction fuel with
  | zero => simp only [chain_from, hend, if_false]
  | succ n ih => simp only [chain_from, hend, if_false, hloop, ih, Option.map_none']

theorem C15_counterexample :
    chain_from sample_gc_config (add_to_weak_pointer_chain 0x6000 sample_gc).wps 8
        (add_to_weak_pointer_chain 0x6000 sample_gc).weak_pointer_chain = some [0x6000]
      ∧ ((add_to_weak_pointer_chain 0x6000
          (add_to_weak_pointer_chain 0x6000 sample_gc)).wps 0x6000).next = 0x6000
      ∧ chain_from sample_gc_config
          (add_to_weak_pointer_chain 0x6000 (add_to_weak_pointer_chain 0x6000 sample_gc)).wps 8
          (add_to_weak_pointer_chain 0x6000
            (add_to_weak_pointer_chain 0x6000 sample_gc)).weak_pointer_chain = none := by
  decide

theorem add_to_weak_pointer_chain_next (wp : Nat) (g : Gc) :
    ((add_to_weak_pointer_chain wp g).wps wp).next = g.weak_pointer_chain := by
  show (Function.update g.wps wp _ wp).next = _
  rw [Function.update_same]

theorem add_to_weak_pointer_chain_head (wp : Nat) (g : Gc) :
    (add_to_weak_pointer_chain wp g).weak_pointer_chain = wp := rfl

/-- C15 (amended): `add_to_weak_pointer_chain(wp)` pushes unconditionally: `wp`
becomes the head, its `next` is the old head, nothing else changes, and when
`wp` was not in the chain the new chain is `wp` followed by the old one.
Pushing `wp` twice makes `wp->next == wp`, a chain that never reaches
`WEAK_POINTER_CHAIN_END`.  The test of `next` is the caller's: the guarded
push (`enqueue_weak_pointer`: push only if `next` is NULL) is idempotent,
the head of the chain never being NULL. -/
theorem C15_add_to_weak_pointer_chain (cfg : GcConfig) (g : Gc) (wp fuel : Nat) (l : List Nat)
    (hend : wp ≠ WEAK_POINTER_CHAIN_END cfg)
    (hhead : g.weak_pointer_chain ≠ 0)
    (hchain : chain_from cfg g.wps fuel g.weak_pointer_chain = some l)
    (hnot : wp ∉ l) :
    ((add_to_weak_pointer_chain wp g).weak_pointer_chain = wp
      ∧ ((add_to_weak_pointer_chain wp g).wps wp).next = g.weak_pointer_chain
      ∧ ((add_to_weak_pointer_chain wp g).wps wp).value = (g.wps wp).value
      ∧ (∀ x, x ≠ wp → (add_to_weak_pointer_chain wp g).wps x = g.wps x)
      ∧ chain_from cfg (add_to_weak_pointer_chain wp g).wps (fuel + 1)
          (add_to_weak_pointer_chain wp g).weak_pointer_chain = some (wp :: l))
      ∧ (((add_to_weak_pointer_chain wp (add_to_weak_pointer_chain wp g)).wps wp).next = wp
        ∧ ∀ n, chain_from cfg (add_to_weak_pointer_chain wp (add_to_weak_pointer_chain wp g)).wps
            n (add_to_weak_pointer_chain wp (add_to_weak_pointer_chain wp g)).weak_pointer_chain
          = none)
      ∧ (enqueue_weak_pointer wp (enqueue_weak_pointer wp g) = enqueue_weak_pointer wp g
        ∧ ((g.wps wp).next = 0 → enqueue_weak_pointer wp g = add_to_weak_pointer_chain wp g)
        ∧ ((g.wps wp).next ≠ 0 → enqueue_weak_pointer wp g = g)) := by
  refine ⟨⟨rfl, add_to_weak_pointer_chain_next wp g, ?_, ?_, ?_⟩, ⟨?_, ?_⟩, ?_, ?_, ?_⟩
  · show (Function.update g.wps wp _ wp).value = _
    rw [Function.update_same]
  · intro x hx
    show Function.update g.wps wp _ x = _
    rw [Function.update_noteq hx]
  · show chain_from cfg (Function.update g.wps wp _) (fuel + 1) wp = _
    simp only [chain_from, hend, if_false, Function.update_same]
    rw [chain_from_update cfg g.wps wp _ fuel _ l hchain hnot]
    rfl
  · rw [add_to_weak_pointer_chain_next]
    rfl
  · intro n
    rw [add_to_weak_pointer_chain_head]
    apply chain_from_self_loop cfg _ wp hend
    rw [add_to_weak_pointer_chain_next]
    rfl
  · by_cases h : (g.wps wp).next = 0
    · have e : enqueue_weak_pointer wp g = add_to_weak_pointer_chain wp g := by
        unfold enqueue_weak_pointer
        rw [if_pos h]
      rw [e]
      unfold enqueue_weak_pointer
      rw [if_neg]
      rw [add_to_weak_pointer_chain_next]
      exact hhead
    · have e : enqueue_weak_pointer wp g = g := by
        unfold enqueue_weak_pointer
        rw [if_neg h]
      rw [e, e]
  · intro h
    unfold enqueue_weak_pointer
    rw [if_pos h]
  · intro h
    unfold enqueue_weak_pointer
    rw [if_neg h]

theorem C15_witness :
    chain_from sample_gc_config (add_to_weak_pointer_chain 0x6000 sample_gc).wps 1
        (add_to_weak_pointer_chain 0x6000 sample_gc).weak_pointer_chain = some [0x6000]
      ∧ (∀ n, chain_from sample_gc_config
          (add_to_weak_pointer_chain 0x6000 (add_to_weak_pointer_chain 0x6000 sample_gc)).wps n
          (add_to_weak_pointer_chain 0x6000
            (add_to_weak_pointer_chain 0x6000 sample_gc)).weak_pointer_chain = none)
      ∧ enqueue_weak_pointer 0x6000 (enqueue_weak_pointer 0x6000 sample_gc)
          = enqueue_weak_pointer 0x6000 sample_gc := by
  have h := C15_add_to_weak_pointer_chain sample_gc_config sample_gc 0x6000 0 []
    (by decide) (by decide) (by decide) (by decide)
  exact ⟨h.1.2.2.2.2, h.2.1.2, h.2.2.1⟩

/-! ## C16, C17: TEST_WEAK_CELL -/

/-- C16: when the pointee is in from-space, `TEST_WEAK_CELL` sets the cell to the
forwarding value if the pointee's old location holds a forwarding marker, and
to `broken` otherwise. -/
theorem C16_TEST_WEAK_CELL_from_space (cfg : GcConfig) (g : Gc) (cell pointee broken : Nat)
    (hfs : cfg.from_space_p pointee = true) :
    (cfg.forwarding_pointer_p g.mem (native_pointer cfg pointee) = true →
        TEST_WEAK_CELL cfg g cell pointee broken
          = cfg.forwarding_pointer_value g.mem (native_pointer cfg pointee))
      ∧ (cfg.forwarding_pointer_p g.mem (native_pointer cfg pointee) = false →
        TEST_WEAK_CELL cfg g cell pointee broken = broken) := by
  constructor
  · intro h
    unfold TEST_WEAK_CELL
    simp only [hfs, h, if_true]
  · intro h
    unfold TEST_WEAK_CELL
    simp only [hfs, h, if_true, Bool.false_eq_true, if_false]

theorem C16_witness :
    TEST_WEAK_CELL sample_gc_config forwarded_gc 0x100F 0x100F 0x59 = 0x200F
      ∧ TEST_WEAK_CELL sample_gc_config sample_gc 0x100F 0x100F 0x59 = 0x59 :=
  ⟨((C16_TEST_WEAK_CELL_from_space sample_gc_config forwarded_gc 0x100F 0x100F 0x59
      (by decide)).1 (by decide)).trans (by decide),
   (C16_TEST_WEAK_CELL_from_space sample_gc_config sample_gc 0x100F 0x100F 0x59
      (by decide)).2 (by decide)⟩

/-- C17: when the pointee is not in from-space and is not an immobile-space
object whose generation bits equal `from_space`, `TEST_WEAK_CELL` leaves the
cell as it is. -/
theorem C17_TEST_WEAK_CELL_unchanged (cfg : GcConfig) (g : Gc) (cell pointee broken : Nat)
    (hfs : cfg.from_space_p pointee = false)
    (himm : ¬ (cfg.immobile_space_p pointee = true
      ∧ (immobile_obj_gen_bits cfg g.mem (cfg.base_pointer pointee) : Int) = g.from_space)) :
    TEST_WEAK_CELL cfg g cell pointee broken = cell := by
  unfold TEST_WEAK_CELL
  simp only [hfs, Bool.false_eq_true, if_false]
  by_cases hi : cfg.immobile_space_p pointee = true
  · have hg : ¬ ((immobile_obj_gen_bits cfg g.mem (cfg.base_pointer pointee) : Int)
        = g.from_space) := fun e => himm ⟨hi, e⟩
    simp only [hi, if_true, hg, if_false]
  · simp only [hi, Bool.false_eq_true, if_false]

theorem C17_witness :
    TEST_WEAK_CELL sample_gc_config sample_gc 0x3007 0x3007 0x59 = 0x3007
      ∧ TEST_WEAK_CELL sample_gc_config sample_gc 0x801F 0x801F 0x59 = 0x801F
      ∧ TEST_WEAK_CELL sample_gc_config sample_gc 0x800F 0x800F 0x59 = 0x59 :=
  ⟨C17_TEST_WEAK_CELL_unchanged sample_gc_config sample_gc 0x3007 0x3007 0x59
      (by decide) (by decide),
   C17_TEST_WEAK_CELL_unchanged sample_gc_config sample_gc 0x801F 0x801F 0x59
      (by decide) (by decide),
   by decide⟩

/-! ## The card table: stores and frames -/

theorem Gc.eq_of_fields (a b : Gc) (h1 : a.mem = b.mem)
    (h2 : a.gc_copied_nwords = b.gc_copied_nwords) (h3 : a.gc_alloc_region = b.gc_alloc_region)
    (h4 : a.from_space = b.from_space) (h5 : a.weak_pointer_chain = b.weak_pointer_chain)
    (h6 : a.wps = b.wps) (h7 : a.gc_card_mark = b.gc_card_mark) (h8 : a.os_prot = b.os_prot)
    (h9 : a.page_flags = b.page_flags) :
    a = b := by
  cases a; cases b; simp_all

theorem unprotect_page_index_soft (cfg : GcConfig) (p : Int) (g : Gc)
    (hs : cfg.LISP_FEATURE_SOFT_CARD_MARKS = true) :
    unprotect_page_index cfg p g
      = if g.gc_card_mark (cfg.page_to_card_index p) = 1 then
          { g with
            gc_card_mark := Function.update g.gc_card_mark (cfg.page_to_card_index p) 0 }
        else g := by
  unfold unprotect_page_index
  simp only [hs, if_true]

theorem unprotect_page_index_hard (cfg : GcConfig) (p : Int) (g : Gc)
    (hs : cfg.LISP_FEATURE_SOFT_CARD_MARKS = false) :
    unprotect_page_index cfg p g
      = { g with
          os_prot := fun a =>
            if cfg.page_address p ≤ a ∧ a < cfg.page_address p + cfg.GENCGC_CARD_BYTES then
              OS_VM_PROT_JIT_ALL cfg
            else g.os_prot a
          page_flags := Function.update g.page_flags p (g.page_flags p ||| cfg.WP_CLEARED_FLAG)
          gc_card_mark := Function.update g.gc_card_mark (cfg.page_to_card_index p) 0 } := by
  unfold unprotect_page_index
  simp only [hs, Bool.false_eq_true, if_false]
  rfl

theorem OS_VM_PROT_JIT_ALL_writable (cfg : GcConfig) :
    OS_VM_PROT_JIT_ALL cfg &&& OS_VM_PROT_WRITE = OS_VM_PROT_WRITE := by
  unfold OS_VM_PROT_JIT_ALL
  cases cfg.LISP_FEATURE_DARWIN_JIT <;> decide

theorem unprotect_page_index_mark (cfg : GcConfig) (p : Int) (g : Gc) (c : Nat) :
    (unprotect_page_index cfg p g).gc_card_mark c
      = if c = cfg.page_to_card_index p
          ∧ (cfg.LISP_FEATURE_SOFT_CARD_MARKS = false ∨ g.gc_card_mark c = 1) then 0
        else g.gc_card_mark c := by
  cases hs : cfg.LISP_FEATURE_SOFT_CARD_MARKS with
  | true =>
    rw [unprotect_page_index_soft cfg p g hs]
    by_cases h1 : g.gc_card_mark (cfg.page_to_card_index p) = 1
    · rw [if_pos h1]
      show Function.update g.gc_card_mark (cfg.page_to_card_index p) 0 c = _
      by_cases hc : c = cfg.page_to_card_index p
      · subst hc
        rw [Function.update_same, if_pos ⟨rfl, Or.inr h1⟩]
      · rw [Function.update_noteq hc, if_neg (fun h => hc h.1)]
    · rw [if_neg h1, if_neg]
      rintro ⟨hc, h | h⟩
      · exact Bool.noConfusion h
      · exact h1 (hc ▸ h)
  | false =>
    rw [unprotect_page_index_hard cfg p g hs]
    show Function.update g.gc_card_mark (cfg.page_to_card_index p) 0 c = _
    by_cases hc : c = cfg.page_to_card_index p
    · subst hc
      rw [Function.update_same, if_pos ⟨rfl, Or.inl rfl⟩]
    · rw [Function.update_noteq hc, if_neg (fun h => hc h.1)]

/-! ## C18: unprotect_page_index -/

theorem C18_counterexample :
    sample_gc.gc_card_mark (sample_soft_config.page_to_card_index 5) = 2
      ∧ (unprotect_page_index sample_soft_config 5 sample_gc).gc_card_mark
          (sample_soft_config.page_to_card_index 5) = 2
      ∧ (unprotect_page_index sample_soft_config 5 sample_gc).gc_card_mark
          (sample_soft_config.page_to_card_index 5) ≠ 0 := by
  decide

/-- C18 (amended): with hardware page protection `unprotect_page_index(p)` sets
the OS protection of the page's bytes to `OS_VM_PROT_JIT_ALL`, which allows
writes, sets `WP_CLEARED_FLAG` in the page's flags and sets the page's mark to 0,
for every prior state.  With soft card marks it changes the mark 1 to 0 and
leaves every other mark (0, 2, ...) as it is, so that afterwards the mark is not
the clean value 1, and it touches neither protection nor flags.  In both
configurations no other card's mark, no protection outside the page and no
other page's flags change. -/
theorem C18_unprotect_page_index (cfg : GcConfig) (p : Int) (g : Gc) :
    (cfg.LISP_FEATURE_SOFT_CARD_MARKS = false →
        (∀ a, cfg.page_address p ≤ a → a < cfg.page_address p + cfg.GENCGC_CARD_BYTES →
            (unprotect_page_index cfg p g).os_prot a = OS_VM_PROT_JIT_ALL cfg)
          ∧ OS_VM_PROT_JIT_ALL cfg &&& OS_VM_PROT_WRITE = OS_VM_PROT_WRITE
          ∧ (unprotect_page_index cfg p g).gc_card_mark (cfg.page_to_card_index p) = 0
          ∧ (unprotect_page_index cfg p g).page_flags p
              = g.page_flags p ||| cfg.WP_CLEARED_FLAG)
      ∧ (cfg.LISP_FEATURE_SOFT_CARD_MARKS = true →
        (unprotect_page_index cfg p g).gc_card_mark (cfg.page_to_card_index p)
            = (if g.gc_card_mark (cfg.page_to_card_index p) = 1 then 0
                else g.gc_card_mark (cfg.page_to_card_index p))
          ∧ (unprotect_page_index cfg p g).os_prot = g.os_prot
          ∧ (unprotect_page_index cfg p g).page_flags = g.page_flags)
      ∧ (unprotect_page_index cfg p g).gc_card_mark (cfg.page_to_card_index p) ≠ 1
      ∧ (∀ c, c ≠ cfg.page_to_card_index p →
          (unprotect_page_index cfg p g).gc_card_mark c = g.gc_card_mark c)
      ∧ (∀ a, ¬ (cfg.page_address p ≤ a ∧ a < cfg.page_address p + cfg.GENCGC_CARD_BYTES) →
          (unprotect_page_index cfg p g).os_prot a = g.os_prot a)
      ∧ (∀ q, q ≠ p → (unprotect_page_index cfg p g).page_flags q = g.page_flags q)
      ∧ (unprotect_page_index cfg p g).mem = g.mem := by
  refine ⟨?_, ?_, ?_, ?_, ?_, ?_, ?_⟩
  · intro hs
    refine ⟨?_, OS_VM_PROT_JIT_ALL_writable cfg, ?_, ?_⟩
    · intro a h1 h2
      rw [unprotect_page_index_hard cfg p g hs]
      show (if _ then _ else _) = _
      rw [if_pos ⟨h1, h2⟩]
    · rw [unprotect_page_index_mark, if_pos ⟨rfl, Or.inl hs⟩]
    · rw [unprotect_page_index_hard cfg p g hs]
      show Function.update g.page_flags p _ p = _
      rw [Function.update_same]
  · intro hs
    refine ⟨?_, ?_, ?_⟩
    · rw [unprotect_page_index_mark]
      by_cases h1 : g.gc_card_mark (cfg.page_to_card_index p) = 1
      · rw [if_pos ⟨rfl, Or.inr h1⟩, if_pos h1]
      · rw [if_neg h1, if_neg]
        rintro ⟨_, h | h⟩
        · rw [hs] at h; exact Bool.noConfusion h
        · exact h1 h
    · rw [unprotect_page_index_soft cfg p g hs]
      split <;> rfl
    · rw [unprotect_page_index_soft cfg p g hs]
      split <;> rfl
  · rw [unprotect_page_index_mark]
    split
    · decide
    · rename_i h
      intro h1
      exact h ⟨rfl, Or.inr h1⟩
  · intro c hc
    rw [unprotect_page_index_mark, if_neg (fun h => hc h.1)]
  · intro a ha
    cases hs : cfg.LISP_FEATURE_SOFT_CARD_MARKS with
    | true =>
      rw [unprotect_page_index_soft cfg p g hs]
      split <;> rfl
    | false =>
      rw [unprotect_page_index_hard cfg p g hs]
      show (if _ then _ else _) = _
      rw [if_neg ha]
  · intro q hq
    cases hs : cfg.LISP_FEATURE_SOFT_CARD_MARKS with
    | true =>
      rw [unprotect_page_index_soft cfg p g hs]
      split <;> rfl
    | false =>
      rw [unprotect_page_index_hard cfg p g hs]
      show Function.update g.page_flags p _ q = _
      rw [Function.update_noteq hq]
  · cases hs : cfg.LISP_FEATURE_SOFT_CARD_MARKS with
    | true =>
      rw [unprotect_page_index_soft cfg p g hs]
      split <;> rfl
    | false =>
      rw [unprotect_page_index_hard cfg p g hs]

theorem C18_witness :
    (unprotect_page_index sample_gc_config 3 sample_gc).os_prot 100000 = 7
      ∧ (unprotect_page_index sample_gc_config 3 sample_gc).gc_card_mark 3 = 0
      ∧ (unprotect_page_index sample_gc_config 3 sample_gc).page_flags 3 = 0x40
      ∧ (unprotect_page_index sample_soft_config 3 sample_gc).gc_card_mark 3 = 0
      ∧ (unprotect_page_index sample_soft_config 3 sample_gc).os_prot = sample_gc.os_prot
      ∧ (unprotect_page_index sample_soft_config 5 sample_gc).gc_card_mark 5 = 2 := by
  have h := C18_unprotect_page_index sample_gc_config 3 sample_gc
  have hs := C18_unprotect_page_index sample_soft_config 3 sample_gc
  have h5 := C18_unprotect_page_index sample_soft_config 5 sample_gc
  refine ⟨?_, ?_, ?_, ?_, ?_, ?_⟩
  · exact (h.1 rfl).1 100000 (by decide) (by decide)
  · exact (h.1 rfl).2.2.1
  · exact (h.1 rfl).2.2.2
  · exact (hs.2.1 rfl).1
  · exact (hs.2.1 rfl).2.1
  · exact (h5.2.1 rfl).1

/-! ## C19: unprotect_page_index is idempotent -/

/-- C19: applying `unprotect_page_index(p)` twice gives the same state (card
marks, OS protection, page flags with `WP_CLEARED_FLAG`, and all the rest) as
applying it once, in both configurations; with soft card marks the mark 1
becomes 0 and the marks 0 and 2 stay as they are. -/
theorem C19_unprotect_page_index_idempotent (cfg : GcConfig) (p : Int) (g : Gc) :
    unprotect_page_index cfg p (unprotect_page_index cfg p g) = unprotect_page_index cfg p g
      ∧ (cfg.LISP_FEATURE_SOFT_CARD_MARKS = true →
          (g.gc_card_mark (cfg.page_to_card_index p) = 1 →
              (unprotect_page_index cfg p g).gc_card_mark (cfg.page_to_card_index p) = 0)
            ∧ (g.gc_card_mark (cfg.page_to_card_index p) = 0 →
              (unprotect_page_index cfg p g).gc_card_mark (cfg.page_to_card_index p) = 0)
            ∧ (g.gc_card_mark (cfg.page_to_card_index p) = 2 →
              (unprotect_page_index cfg p g).gc_card_mark (cfg.page_to_card_index p) = 2)) := by
  constructor
  · cases hs : cfg.LISP_FEATURE_SOFT_CARD_MARKS with
    | true =>
      by_cases h1 : g.gc_card_mark (cfg.page_to_card_index p) = 1
      · rw [unprotect_page_index_soft cfg p g hs, if_pos h1, unprotect_page_index_soft cfg p _ hs,
          if_neg]
        show ¬ (Function.update g.gc_card_mark (cfg.page_to_card_index p) 0
          (cfg.page_to_card_index p) = 1)
        rw [Function.update_same]
        decide
      · rw [unprotect_page_index_soft cfg p g hs, if_neg h1, unprotect_page_index_soft cfg p g hs,
          if_neg h1]
    | false =>
      rw [unprotect_page_index_hard cfg p g hs, unprotect_page_index_hard cfg p _ hs]
      apply Gc.eq_of_fields
      · rfl
      · rfl
      · rfl
      · rfl
      · rfl
      · rfl
      · show Function.update (Function.update g.gc_card_mark _ 0) _ 0 = _
        rw [Function.update_idem]
      · funext a
        show (if _ then _ else (if _ then _ else _)) = (if _ then _ else _)
        split <;> rfl
      · show Function.update (Function.update g.page_flags p _) p
            (Function.update g.page_flags p _ p ||| cfg.WP_CLEARED_FLAG) = _
        rw [Function.update_same, Function.update_idem, Nat.or_assoc, Nat.or_self]
  · intro hs
    refine ⟨?_, ?_, ?_⟩
    · intro h
      rw [unprotect_page_index_mark, if_pos ⟨rfl, Or.inr h⟩]
    · intro h
      rw [unprotect_page_index_mark]
      split
      · rfl
      · exact h
    · intro h
      rw [unprotect_page_index_mark, if_neg]
      · exact h
      · rintro ⟨_, h1 | h1⟩
        · rw [hs] at h1; exact Bool.noConfusion h1
        · rw [h] at h1; exact absurd h1 (by decide)

theorem C19_witness :
    (unprotect_page_index sample_soft_config 3 sample_gc).gc_card_mark 3 = 0
      ∧ (unprotect_page_index sample_soft_config 4 sample_gc).gc_card_mark 4 = 0
      ∧ (unprotect_page_index sample_soft_config 5 sample_gc).gc_card_mark 5 = 2
      ∧ unprotect_page_index sample_gc_config 3 (unprotect_page_index sample_gc_config 3 sample_gc)
          = unprotect_page_index sample_gc_config 3 sample_gc :=
  ⟨((C19_unprotect_page_index_idempotent sample_soft_config 3 sample_gc).2 rfl).1 (by decide),
   ((C19_unprotect_page_index_idempotent sample_soft_config 4 sample_gc).2 rfl).2.1 (by decide),
   ((C19_unprotect_page_index_idempotent sample_soft_config 5 sample_gc).2 rfl).2.2 (by decide),
   (C19_unprotect_page_index_idempotent sample_gc_config 3 sample_gc).1⟩

/-! ## C20: card monotonicity -/

theorem unprotect_page_index_no_new_clean (cfg : GcConfig) (p : Int) (g : Gc) (c : Nat)
    (h : (unprotect_page_index cfg p g).gc_card_mark c = 1) : g.gc_card_mark c = 1 := by
  rw [unprotect_page_index_mark] at h
  split at h
  · exact absurd h (by decide)
  · exact h

theorem ensure_ptr_word_writable_no_new_clean (cfg : GcConfig) (addr : Nat) (g : Gc) (c : Nat)
    (h : (ensure_ptr_word_writable cfg addr g).state.gc_card_mark c = 1) :
    g.gc_card_mark c = 1 := by
  unfold ensure_ptr_word_writable at h
  simp only at h
  split at h
  · exact h
  · split at h
    · exact unprotect_page_index_no_new_clean cfg _ g c h
    · exact h

theorem protect_page_mark (cfg : GcConfig) (page_addr : Nat) (p : Int) (g : Gc) :
    (protect_page cfg page_addr p g).gc_card_mark
      = Function.update g.gc_card_mark (cfg.addr_to_card_index page_addr) 1 := by
  unfold protect_page
  cases cfg.LISP_FEATURE_SOFT_CARD_MARKS <;> rfl

theorem NON_FAULTING_STORE_keeps_dirty (cfg : GcConfig) (operation : Gc → Gc) (addr : Nat)
    (g : Gc) (c : Nat)
    (hdirty : g.gc_card_mark c ≠ 1)
    (hop : ∀ g1, (operation g1).gc_card_mark = g1.gc_card_mark)
    (hhard : cfg.LISP_FEATURE_SOFT_CARD_MARKS = false →
      (∀ m, cfg.mark_protected m = true → m = 1)
        ∧ ∀ q, cfg.addr_to_card_index (cfg.page_address q) = cfg.page_to_card_index q) :
    (NON_FAULTING_STORE cfg operation addr g).gc_card_mark c ≠ 1 := by
  unfold NON_FAULTING_STORE
  cases hs : cfg.LISP_FEATURE_SOFT_CARD_MARKS with
  | true =>
    simp only [if_true]
    rw [hop]
    exact hdirty
  | false =>
    obtain ⟨hprot, hcard⟩ := hhard hs
    simp only [Bool.false_eq_true, if_false]
    split
    · rw [hop]
      exact hdirty
    · rename_i hcond
      have hp : PAGE_WRITEPROTECTED_P cfg (cfg.find_page_index addr) g = true := by
        cases hq : PAGE_WRITEPROTECTED_P cfg (cfg.find_page_index addr) g with
        | true => rfl
        | false => exact absurd (Or.inr hq) hcond
      have hclean : g.gc_card_mark (cfg.page_to_card_index (cfg.find_page_index addr)) = 1 :=
        hprot _ hp
      rw [protect_page_mark, hcard]
      have hc : c ≠ cfg.page_to_card_index (cfg.find_page_index addr) := by
        intro e
        rw [e] at hdirty
        exact hdirty hclean
      rw [Function.update_noteq hc, hop]
      intro h1
      exact hdirty (unprotect_page_index_no_new_clean cfg _ g c h1)

/-- C20: none of `unprotect_page_index`, `ensure_ptr_word_writable` and
`NON_FAULTING_STORE` turns a dirty card clean: a card whose mark is not the
clean value 1 before still has a mark other than 1 afterwards (the `operation`
of `NON_FAULTING_STORE` not writing card marks; with hardware protection, a
page reading as write-protected only when its mark is 1, and the card of a
page's address being the page's card).  With soft card marks
`unprotect_page_index` leaves a mark of 2 as it is.  A mark that is 1 after
`unprotect_page_index` or `ensure_ptr_word_writable` was 1 before;
`protect_page` writes 1 to the card of its address and to no other. -/
theorem C20_card_monotonicity (cfg : GcConfig) (operation : Gc → Gc) (p : Int)
    (addr page_addr : Nat) (g : Gc) (c : Nat)
    (hdirty : g.gc_card_mark c ≠ 1)
    (hop : ∀ g1, (operation g1).gc_card_mark = g1.gc_card_mark)
    (hhard : cfg.LISP_FEATURE_SOFT_CARD_MARKS = false →
      (∀ m, cfg.mark_protected m = true → m = 1)
        ∧ ∀ q, cfg.addr_to_card_index (cfg.page_address q) = cfg.page_to_card_index q) :
    (unprotect_page_index cfg p g).gc_card_mark c ≠ 1
      ∧ (ensure_ptr_word_writable cfg addr g).state.gc_card_mark c ≠ 1
      ∧ (NON_FAULTING_STORE cfg operation addr g).gc_card_mark c ≠ 1
      ∧ (cfg.LISP_FEATURE_SOFT_CARD_MARKS = true → g.gc_card_mark c = 2 →
          (unprotect_page_index cfg p g).gc_card_mark c = 2)
      ∧ (∀ d, (unprotect_page_index cfg p g).gc_card_mark d = 1 → g.gc_card_mark d = 1)
      ∧ (∀ d, (ensure_ptr_word_writable cfg addr g).state.gc_card_mark d = 1 →
          g.gc_card_mark d = 1)
      ∧ (protect_page cfg page_addr p g).gc_card_mark (cfg.addr_to_card_index page_addr) = 1
      ∧ (∀ d, d ≠ cfg.addr_to_card_index page_addr →
          (protect_page cfg page_addr p g).gc_card_mark d = g.gc_card_mark d) := by
  refine ⟨fun h => hdirty (unprotect_page_index_no_new_clean cfg p g c h),
    fun h => hdirty (ensure_ptr_word_writable_no_new_clean cfg addr g c h),
    NON_FAULTING_STORE_keeps_dirty cfg operation addr g c hdirty hop hhard, ?_,
    fun d h => unprotect_page_index_no_new_clean cfg p g d h,
    fun d h => ensure_ptr_word_writable_no_new_clean cfg addr g d h, ?_, ?_⟩
  · intro hs h2
    rw [unprotect_page_index_mark, if_neg]
    · exact h2
    · rintro ⟨_, h1 | h1⟩
      · rw [hs] at h1; exact Bool.noConfusion h1
      · exact hdirty h1
  · rw [protect_page_mark, Function.update_same]
  · intro d hd
    rw [protect_page_mark, Function.update_noteq hd]

theorem C20_witness :
    (unprotect_page_index sample_gc_config 5 sample_gc).gc_card_mark 5 ≠ 1
      ∧ (ensure_ptr_word_writable sample_gc_config 98312 sample_gc).state.gc_card_mark 5 ≠ 1
      ∧ (NON_FAULTING_STORE sample_gc_config sample_store 98312 sample_gc).gc_card_mark 5 ≠ 1
      ∧ (NON_FAULTING_STORE sample_gc_config sample_store 98312 sample_gc).gc_card_mark 3 = 1
      ∧ (NON_FAULTING_STORE sample_gc_config sample_store 98312 sample_gc).mem 98312 = 7
      ∧ (unprotect_page_index sample_soft_config 5 sample_gc).gc_card_mark 5 = 2 := by
  have h := C20_card_monotonicity sample_gc_config sample_store 5 98312 98304 sample_gc 5
    (by decide) (fun _ => rfl)
    (fun _ => ⟨fun m hm => of_decide_eq_true hm, fun q => by simp [sample_gc_config]⟩)
  have hs := C20_card_monotonicity sample_soft_config sample_store 5 98312 98304 sample_gc 5
    (by decide) (fun _ => rfl) (fun hf => Bool.noConfusion hf)
  exact ⟨h.1, h.2.1, h.2.2.1, by decide, by decide, hs.2.2.2.1 rfl (by decide)⟩

/-! ## Headers and bitmaps: tests of the embedding on concrete inputs -/

theorem sample_bitmap_logbitp :
    bitmap_logbitp sample_gc_config 1 sample_bitmap = true
      ∧ bitmap_logbitp sample_gc_config 0 sample_bitmap = false
      ∧ bitmap_logbitp sample_gc_config 64 sample_bitmap = false
      ∧ bitmap_logbitp sample_gc_config 65 sample_bitmap = true
      ∧ bitmap_logbitp sample_gc_config 1000 sample_bitmap = true
      ∧ Int.testBit (bitmap_value sample_gc_config sample_bitmap.bits 1 0) 65 = true
      ∧ Int.testBit (bitmap_value sample_gc_config sample_bitmap.bits 1 0) 64 = false
      ∧ Int.testBit (bitmap_value sample_gc_config sample_bitmap.bits 1 0) 1000 = true := by
  decide

theorem sample_assign_generation :
    immobile_obj_generation sample_gc_config (assign_generation sample_gc_config 0x8000 5
        sample_gc.mem) 0x8000 = 5
      ∧ assign_generation sample_gc_config 0x8000 5 sample_gc.mem 0x8003 = 0x25
      ∧ set_visited sample_gc_config 0x8000
          (assign_generation sample_gc_config 0x8000 5 sample_gc.mem) 0x8003 = 0x35 := by
  decide

/-! ## C30: gc_general_alloc -/

/-- C30: for a page type flag from 1 to 3 `gc_general_alloc` returns what
`gc_alloc_with_region` gives for `gc_alloc_region[flag-1]`, `nbytes` and that
flag, and stores the region back; for any other flag (0 and the negative ones
included) it ends in `lose` in the unchanged state, and so do
`gc_general_copy_object` and `gc_copy_object_resizing`: no region is touched,
no word is copied, `gc_copied_nwords` is not changed. -/
theorem C30_gc_general_alloc_flag (cfg : GcConfig) (g : Gc) (nbytes flag : Int)
    (object nwords : Nat) (nwords_r old_nwords : Int) :
    (1 ≤ flag ∧ flag ≤ 3 →
        (flag - 1).toNat < 3
          ∧ gc_general_alloc cfg nbytes flag g
            = GcRes.ok
                (gc_alloc_with_region cfg (g.gc_alloc_region (flag - 1).toNat) nbytes flag).1
                { g with
                  gc_alloc_region := Function.update g.gc_alloc_region (flag - 1).toNat
                    (gc_alloc_with_region cfg (g.gc_alloc_region (flag - 1).toNat) nbytes
                      flag).2 })
      ∧ (¬ (1 ≤ flag ∧ flag ≤ 3) →
        gc_general_alloc cfg nbytes flag g = GcRes.lose g
          ∧ gc_general_copy_object cfg object nwords flag g = GcRes.lose g
          ∧ gc_copy_object_resizing cfg object nwords_r flag old_nwords g = GcRes.lose g) := by
  constructor
  · intro h
    refine ⟨?_, gc_general_alloc_ok cfg nbytes flag g h⟩
    omega
  · intro h
    refine ⟨gc_general_alloc_lose cfg nbytes flag g h, ?_, ?_⟩
    · unfold gc_general_copy_object
      simp only [gc_general_alloc_lose cfg _ flag g h]
    · unfold gc_copy_object_resizing
      simp only [gc_general_alloc_lose cfg _ flag g h]

theorem C30_witness :
    (gc_general_alloc sample_gc_config 16 2 sample_gc).value? = some 0x2000
      ∧ gc_general_alloc sample_gc_config 16 0 sample_gc = GcRes.lose sample_gc
      ∧ gc_general_alloc sample_gc_config 16 (-1) sample_gc = GcRes.lose sample_gc
      ∧ gc_general_copy_object sample_gc_config 0x100F 2 4 sample_gc = GcRes.lose sample_gc
      ∧ gc_copy_object_resizing sample_gc_config 0x100F 4 0 2 sample_gc
          = GcRes.lose sample_gc :=
  ⟨(congrArg GcRes.value?
      ((C30_gc_general_alloc_flag sample_gc_config sample_gc 16 2 0x100F 2 4 2).1
        (by decide)).2).trans (by decide),
   ((C30_gc_general_alloc_flag sample_gc_config sample_gc 16 0 0x100F 2 4 2).2 (by decide)).1,
   ((C30_gc_general_alloc_flag sample_gc_config sample_gc 16 (-1) 0x100F 2 4 2).2
      (by decide)).1,
   ((C30_gc_general_alloc_flag sample_gc_config sample_gc 16 4 0x100F 2 4 2).2
      (by decide)).2.1,
   ((C30_gc_general_alloc_flag sample_gc_config sample_gc 16 0 0x100F 2 4 2).2
      (by decide)).2.2⟩

/-! ## C23: WP_CLEARED_FLAG stays set -/

theorem or_and_self_right (a b : Nat) : (a ||| b) &&& b = b := by
  apply Nat.eq_of_testBit_eq
  intro i
  rw [Nat.testBit_and, Nat.testBit_or]
  cases a.testBit i <;> cases b.testBit i <;> rfl

theorem protect_page_page_flags (cfg : GcConfig) (a : Nat) (q : Int) (g : Gc) :
    (protect_page cfg a q g).page_flags = g.page_flags := by
  unfold protect_page
  cases cfg.LISP_FEATURE_SOFT_CARD_MARKS <;> rfl

theorem unprotect_page_index_page_flags (cfg : GcConfig) (q : Int) (g : Gc) (p : Int) :
    (unprotect_page_index cfg q g).page_flags p
      = if cfg.LISP_FEATURE_SOFT_CARD_MARKS = false ∧ p = q then
          g.page_flags p ||| cfg.WP_CLEARED_FLAG
        else g.page_flags p := by
  cases hs : cfg.LISP_FEATURE_SOFT_CARD_MARKS with
  | true =>
    have hr : ¬ (true = false ∧ p = q) := fun h => Bool.noConfusion h.1
    rw [if_neg hr, unprotect_page_index_soft cfg q g hs]
    split <;> rfl
  | false =>
    rw [unprotect_page_index_hard cfg q g hs]
    show Function.update g.page_flags q _ p = _
    by_cases hp : p = q
    · subst hp
      rw [Function.update_same, if_pos ⟨rfl, rfl⟩]
    · rw [Function.update_noteq hp, if_neg (fun h => hp h.2)]

theorem run_page_call_keeps_cleared (cfg : GcConfig) (c : page_call) (g : Gc) (p : Int)
    (h : g.page_flags p &&& cfg.WP_CLEARED_FLAG = cfg.WP_CLEARED_FLAG) :
    (run_page_call cfg c g).page_flags p &&& cfg.WP_CLEARED_FLAG = cfg.WP_CLEARED_FLAG := by
  cases c with
  | unprotect q =>
    show (unprotect_page_index cfg q g).page_flags p &&& _ = _
    rw [unprotect_page_index_page_flags]
    split
    · exact or_and_self_right _ _
    · exact h
  | protect a q =>
    show (protect_page cfg a q g).page_flags p &&& _ = _
    rw [protect_page_page_flags]
    exact h

/-- C23: with hardware page protection `unprotect_page_index(p)` leaves
`WP_CLEARED_FLAG` set in the flags of page `p`; `protect_page` does not change
any page's flags; and after any sequence of `unprotect_page_index` and
`protect_page` calls (on this page or on others) a `WP_CLEARED_FLAG` that was
set for page `p` is still set. -/
theorem C23_wp_cleared_stays_set (cfg : GcConfig) (p : Int) (g : Gc)
    (hhard : cfg.LISP_FEATURE_SOFT_CARD_MARKS = false) :
    (unprotect_page_index cfg p g).page_flags p &&& cfg.WP_CLEARED_FLAG = cfg.WP_CLEARED_FLAG
      ∧ (∀ a q, (protect_page cfg a q g).page_flags = g.page_flags)
      ∧ (∀ calls : List page_call,
          g.page_flags p &&& cfg.WP_CLEARED_FLAG = cfg.WP_CLEARED_FLAG →
          (run_page_calls cfg calls g).page_flags p &&& cfg.WP_CLEARED_FLAG
            = cfg.WP_CLEARED_FLAG)
      ∧ (∀ calls : List page_call,
          (run_page_calls cfg calls (unprotect_page_index cfg p g)).page_flags p
              &&& cfg.WP_CLEARED_FLAG = cfg.WP_CLEARED_FLAG) := by
  have h1 : (unprotect_page_index cfg p g).page_flags p &&& cfg.WP_CLEARED_FLAG
      = cfg.WP_CLEARED_FLAG := by
    rw [unprotect_page_index_page_flags, if_pos ⟨hhard, rfl⟩]
    exact or_and_self_right _ _
  have hrun : ∀ (calls : List page_call) (g1 : Gc),
      g1.page_flags p &&& cfg.WP_CLEARED_FLAG = cfg.WP_CLEARED_FLAG →
      (run_page_calls cfg calls g1).page_flags p &&& cfg.WP_CLEARED_FLAG
        = cfg.WP_CLEARED_FLAG := by
    intro calls
    induction calls with
    | nil => intro g1 h; exact h
    | cons c cs ih =>
      intro g1 h
      exact ih _ (run_page_call_keeps_cleared cfg c g1 p h)
  exact ⟨h1, fun a q => protect_page_page_flags cfg a q g, fun calls h => hrun calls g h,
    fun calls => hrun calls _ h1⟩

theorem C23_witness :
    (unprotect_page_index sample_gc_config 3 sample_gc).page_flags 3 &&& 0x40 = 0x40
      ∧ (run_page_calls sample_gc_config
          [page_call.protect 98304 3, page_call.unprotect 4, page_call.unprotect 3,
            page_call.protect 98304 3]
          (unprotect_page_index sample_gc_config 3 sample_gc)).page_flags 3 &&& 0x40 = 0x40 :=
  ⟨(C23_wp_cleared_stays_set sample_gc_config 3 sample_gc rfl).1,
   (C23_wp_cleared_stays_set sample_gc_config 3 sample_gc rfl).2.2.2 _⟩

/-! ## C24: `next` is non-NULL exactly in the chain -/

theorem WEAK_POINTER_CHAIN_END_ne_zero (cfg : GcConfig) (hW : 0 < cfg.N_WORD_BYTES) :
    WEAK_POINTER_CHAIN_END cfg ≠ 0 := by
  unfold WEAK_POINTER_CHAIN_END N_WORD_BITS
  have h : 2 ^ 1 ≤ 2 ^ (8 * cfg.N_WORD_BYTES) :=
    Nat.pow_le_pow_right (by decide) (by omega)
  have h2 : (2 : Nat) ^ 1 = 2 := rfl
  omega

theorem chain_from_head (cfg : GcConfig) (wps : Nat → weak_pointer) (fuel p : Nat)
    (l : List Nat) (h : chain_from cfg wps fuel p = some l) :
    p = WEAK_POINTER_CHAIN_END cfg ∨ p ∈ l := by
  by_cases hp : p = WEAK_POINTER_CHAIN_END cfg
  · exact Or.inl hp
  · right
    cases fuel with
    | zero => simp [chain_from, hp] at h
    | succ n =>
      simp only [chain_from, hp, if_false, Option.map_eq_some'] at h
      obtain ⟨l1, _, rfl⟩ := h
      exact List.mem_cons_self _ _

theorem chain_from_next_mem (cfg : GcConfig) (wps : Nat → weak_pointer) :
    ∀ (fuel p : Nat) (l : List Nat), chain_from cfg wps fuel p = some l →
      ∀ x ∈ l, (wps x).next = WEAK_POINTER_CHAIN_END cfg ∨ (wps x).next ∈ l := by
  intro fuel
  induction fuel with
  | zero =>
    intro p l h x hx
    by_cases hp : p = WEAK_POINTER_CHAIN_END cfg
    · simp [chain_from, hp] at h
      subst h
      exact absurd hx (List.not_mem_nil _)
    · simp [chain_from, hp] at h
  | succ n ih =>
    intro p l h x hx
    by_cases hp : p = WEAK_POINTER_CHAIN_END cfg
    · simp [chain_from, hp] at h
      subst h
      exact absurd hx (List.not_mem_nil _)
    · simp only [chain_from, hp, if_false, Option.map_eq_some'] at h
      obtain ⟨l1, h1, rfl⟩ := h
      rcases List.mem_cons.mp hx with rfl | hx1
      · rcases chain_from_head cfg wps n _ l1 h1 with he | hm
        · exact Or.inl he
        · exact Or.inr (List.mem_cons_of_mem _ hm)
      · rcases ih _ _ h1 x hx1 with he | hm
        · exact Or.inl he
        · exact Or.inr (List.mem_cons_of_mem _ hm)

/-- C24: let the chain from `weak_pointer_chain` be `l`, ending at
`WEAK_POINTER_CHAIN_END`, with no NULL in it, and let every weak pointer outside
`l` have `next == NULL`.  Then every weak pointer of `l` has a non-NULL `next`,
and after `add_to_weak_pointer_chain(wp)`, for a non-NULL `wp` outside `l`: `wp`
is the head, `wp->next` is the previous head and is not NULL, the chain is `wp`
followed by `l`, every weak pointer in it has a non-NULL `next` and every weak
pointer outside it has `next == NULL`. -/
theorem C24_next_nonnull_iff_in_chain (cfg : GcConfig) (g : Gc) (wp fuel : Nat) (l : List Nat)
    (hW : 0 < cfg.N_WORD_BYTES)
    (hhead : g.weak_pointer_chain ≠ 0)
    (hchain : chain_from cfg g.wps fuel g.weak_pointer_chain = some l)
    (hnull : 0 ∉ l)
    (hout : ∀ x, x ∉ l → (g.wps x).next = 0)
    (hwp0 : wp ≠ 0)
    (hend : wp ≠ WEAK_POINTER_CHAIN_END cfg)
    (hnot : wp ∉ l) :
    (∀ x ∈ l, (g.wps x).next ≠ 0)
      ∧ (add_to_weak_pointer_chain wp g).weak_pointer_chain = wp
      ∧ ((add_to_weak_pointer_chain wp g).wps wp).next = g.weak_pointer_chain
      ∧ ((add_to_weak_pointer_chain wp g).wps wp).next ≠ 0
      ∧ chain_from cfg (add_to_weak_pointer_chain wp g).wps (fuel + 1)
          (add_to_weak_pointer_chain wp g).weak_pointer_chain = some (wp :: l)
      ∧ (∀ x, x ∈ wp :: l ↔ ((add_to_weak_pointer_chain wp g).wps x).next ≠ 0)
      ∧ (add_to_weak_pointer_chain wp g).weak_pointer_chain ≠ 0
      ∧ 0 ∉ wp :: l := by
  have hin : ∀ x ∈ l, (g.wps x).next ≠ 0 := by
    intro x hx h0
    rcases chain_from_next_mem cfg g.wps fuel _ l hchain x hx with he | hm
    · exact WEAK_POINTER_CHAIN_END_ne_zero cfg hW (he ▸ h0)
    · exact hnull (h0 ▸ hm)
  have hother : ∀ x, x ≠ wp → (add_to_weak_pointer_chain wp g).wps x = g.wps x := by
    intro x hx
    show Function.update g.wps wp _ x = _
    rw [Function.update_noteq hx]
  refine ⟨hin, rfl, add_to_weak_pointer_chain_next wp g, ?_, ?_, ?_, hwp0, ?_⟩
  · rw [add_to_weak_pointer_chain_next]
    exact hhead
  · show chain_from cfg (Function.update g.wps wp _) (fuel + 1) wp = _
    simp only [chain_from, hend, if_false, Function.update_same]
    rw [chain_from_update cfg g.wps wp _ fuel _ l hchain hnot]
    rfl
  · intro x
    by_cases hx : x = wp
    · subst hx
      rw [add_to_weak_pointer_chain_next]
      exact ⟨fun _ => hhead, fun _ => List.mem_cons_self _ _⟩
    · rw [hother x hx]
      constructor
      · intro hm
        rcases List.mem_cons.mp hm with h1 | h1
        · exact absurd h1 hx
        · exact hin x h1
      · intro hn
        by_cases hm : x ∈ l
        · exact List.mem_cons_of_mem _ hm
        · exact absurd (hout x hm) hn
  · intro h0
    rcases List.mem_cons.mp h0 with h1 | h1
    · exact hwp0 h1.symm
    · exact hnull h1

theorem C24_witness :
    (add_to_weak_pointer_chain 0x6000 sample_gc).weak_pointer_chain = 0x6000
      ∧ ((add_to_weak_pointer_chain 0x6000 sample_gc).wps 0x6000).next = 2 ^ 64 - 1
      ∧ chain_from sample_gc_config (add_to_weak_pointer_chain 0x6000 sample_gc).wps 1
          (add_to_weak_pointer_chain 0x6000 sample_gc).weak_pointer_chain = some [0x6000]
      ∧ ((add_to_weak_pointer_chain 0x6000 sample_gc).wps 0x7000).next = 0 := by
  have h := C24_next_nonnull_iff_in_chain sample_gc_config sample_gc 0x6000 0 []
    (by decide) (by decide) (by decide) (by decide) (fun x _ => by
      show (sample_gc.wps x).next = 0
      unfold sample_gc
      simp only
      split <;> rfl)
    (by decide) (by decide) (by decide)
  refine ⟨h.2.1, h.2.2.1, h.2.2.2.2.1, ?_⟩
  by_contra hn
  have hm := (h.2.2.2.2.2.1 0x7000).mpr hn
  exact absurd hm (by decide)

/-! ## C26: assign_generation and set_visited -/

set_option maxRecDepth 100000 in
theorem generation_byte_facts : ∀ b < 256, ∀ g < 16,
    ((b &&& 0xE0) ||| g) &&& 0x10 = 0
      ∧ ((b &&& 0xE0) ||| g) &&& 0xE0 = b &&& 0xE0
      ∧ ((b &&& 0xE0) ||| g) &&& 0x40 = b &&& 0x40
      ∧ (((b &&& 0xE0) ||| g) &&& 0x1F) &&& 0xF = g
      ∧ ((b &&& 0xE0) ||| g) < 256 := by
  decide

set_option maxRecDepth 100000 in
theorem visited_byte_facts : ∀ n < 256,
    ((n ||| 0x10) &&& 0x1F) &&& 0xF = (n &&& 0x1F) &&& 0xF
      ∧ (n ||| 0x10) &&& 0x10 = 0x10
      ∧ (n ||| 0x10) &&& 0xEF = n &&& 0xEF := by
  decide

theorem immobile_obj_gen_bits_eq (cfg : GcConfig) (mem : Nat → Nat) (obj : Nat) :
    immobile_obj_gen_bits cfg mem obj
      = mem (obj + (if widetag_of mem obj = cfg.FDEFN_WIDETAG then 1 else 3)) &&& 0x1F := by
  unfold immobile_obj_gen_bits
  split <;> rfl

theorem generation_byte_pos (cfg : GcConfig) (mem : Nat → Nat) (obj : Nat) :
    obj ≠ obj + (if widetag_of mem obj = cfg.FDEFN_WIDETAG then 1 else 3) := by
  split <;> omega

theorem widetag_of_assign_generation (cfg : GcConfig) (mem : Nat → Nat) (obj gen : Nat) :
    widetag_of (assign_generation cfg obj gen mem) obj = widetag_of mem obj := by
  unfold assign_generation widetag_of
  exact Function.update_noteq (generation_byte_pos cfg mem obj) _ _

theorem widetag_of_set_visited (cfg : GcConfig) (mem : Nat → Nat) (obj : Nat) :
    widetag_of (set_visited cfg obj mem) obj = widetag_of mem obj := by
  unfold set_visited widetag_of
  exact Function.update_noteq (generation_byte_pos cfg mem obj) _ _

theorem assign_generation_at (cfg : GcConfig) (mem : Nat → Nat) (obj gen : Nat) :
    assign_generation cfg obj gen mem
        (obj + (if widetag_of mem obj = cfg.FDEFN_WIDETAG then 1 else 3))
      = (mem (obj + (if widetag_of mem obj = cfg.FDEFN_WIDETAG then 1 else 3)) &&& 0xE0)
          ||| gen := by
  unfold assign_generation
  exact Function.update_same _ _ _

theorem set_visited_at (cfg : GcConfig) (mem : Nat → Nat) (obj : Nat) :
    set_visited cfg obj mem (obj + (if widetag_of mem obj = cfg.FDEFN_WIDETAG then 1 else 3))
      = mem (obj + (if widetag_of mem obj = cfg.FDEFN_WIDETAG then 1 else 3))
          ||| IMMOBILE_OBJ_VISITED_FLAG := by
  unfold set_visited
  exact Function.update_same _ _ _

/-- C26: let the generation byte of the header at `obj` be byte 1 when the
widetag is `FDEFN_WIDETAG` and byte 3 otherwise, the byte `immobile_obj_gen_bits`
reads.  For `gen < 16`, after `assign_generation(obj, gen)` the generation is
`gen`, the VISITED flag (0x10) is clear, the bits of mask 0xE0 of the generation
byte (`OBJ_WRITTEN_FLAG` among them) are as before, and no other byte of memory
has changed (so the widetag, and with it the choice of byte, is the same).
`set_visited(obj)` after it sets the VISITED flag, changes no other bit of that
byte and no other byte, and leaves the generation equal to `gen`. -/
theorem C26_assign_generation (cfg : GcConfig) (mem : Nat → Nat) (obj gen : Nat)
    (hg : gen < 16)
    (hb : mem (obj + (if widetag_of mem obj = cfg.FDEFN_WIDETAG then 1 else 3)) < 256) :
    (immobile_obj_generation cfg (assign_generation cfg obj gen mem) obj = gen
      ∧ immobile_obj_gen_bits cfg (assign_generation cfg obj gen mem) obj
          &&& IMMOBILE_OBJ_VISITED_FLAG = 0
      ∧ assign_generation cfg obj gen mem
            (obj + (if widetag_of mem obj = cfg.FDEFN_WIDETAG then 1 else 3)) &&& 0xE0
          = mem (obj + (if widetag_of mem obj = cfg.FDEFN_WIDETAG then 1 else 3)) &&& 0xE0
      ∧ assign_generation cfg obj gen mem
            (obj + (if widetag_of mem obj = cfg.FDEFN_WIDETAG then 1 else 3))
            &&& OBJ_WRITTEN_FLAG
          = mem (obj + (if widetag_of mem obj = cfg.FDEFN_WIDETAG then 1 else 3))
            &&& OBJ_WRITTEN_FLAG
      ∧ (∀ a, a ≠ obj + (if widetag_of mem obj = cfg.FDEFN_WIDETAG then 1 else 3) →
          assign_generation cfg obj gen mem a = mem a)
      ∧ widetag_of (assign_generation cfg obj gen mem) obj = widetag_of mem obj)
      ∧ (immobile_obj_generation cfg
            (set_visited cfg obj (assign_generation cfg obj gen mem)) obj = gen
        ∧ immobile_obj_gen_bits cfg
              (set_visited cfg obj (assign_generation cfg obj gen mem)) obj
            &&& IMMOBILE_OBJ_VISITED_FLAG = IMMOBILE_OBJ_VISITED_FLAG
        ∧ set_visited cfg obj (assign_generation cfg obj gen mem)
              (obj + (if widetag_of mem obj = cfg.FDEFN_WIDETAG then 1 else 3)) &&& 0xEF
            = assign_generation cfg obj gen mem
              (obj + (if widetag_of mem obj = cfg.FDEFN_WIDETAG then 1 else 3)) &&& 0xEF
        ∧ (∀ a, a ≠ obj + (if widetag_of mem obj = cfg.FDEFN_WIDETAG then 1 else 3) →
            set_visited cfg obj (assign_generation cfg obj gen mem) a
              = assign_generation cfg obj gen mem a)) := by
  obtain ⟨f1, f2, f3, f4, f5⟩ := generation_byte_facts _ hb gen hg
  obtain ⟨v1, v2, v3⟩ := visited_byte_facts _ f5
  have hat := assign_generation_at cfg mem obj gen
  have hw := widetag_of_assign_generation cfg mem obj gen
  have hvat := set_visited_at cfg (assign_generation cfg obj gen mem) obj
  rw [hw, hat] at hvat
  have hwv := widetag_of_set_visited cfg (assign_generation cfg obj gen mem) obj
  rw [hw] at hwv
  refine ⟨⟨?_, ?_, ?_, ?_, ?_, hw⟩, ?_, ?_, ?_, ?_⟩
  · unfold immobile_obj_generation
    rw [immobile_obj_gen_bits_eq, hw, hat]
    exact f4
  · rw [immobile_obj_gen_bits_eq, hw, hat]
    show (_ &&& 0x1F) &&& 0x10 = 0
    rw [Nat.and_assoc]
    exact f1
  · rw [hat]; exact f2
  · rw [hat]; exact f3
  · intro a ha
    unfold assign_generation
    exact Function.update_noteq ha _ _
  · unfold immobile_obj_generation
    rw [immobile_obj_gen_bits_eq, hwv, hvat]
    exact v1.trans f4
  · rw [immobile_obj_gen_bits_eq, hwv, hvat]
    show (_ &&& 0x1F) &&& 0x10 = 0x10
    rw [Nat.and_assoc]
    exact v2
  · rw [hvat, hat]; exact v3
  · intro a ha
    unfold set_visited
    rw [hw]
    exact Function.update_noteq ha _ _

theorem C26_witness :
    immobile_obj_generation sample_gc_config
        (assign_generation sample_gc_config 0x8000 5 sample_gc.mem) 0x8000 = 5
      ∧ assign_generation sample_gc_config 0x8000 5 sample_gc.mem 0x8000 = 0x2D
      ∧ immobile_obj_generation sample_gc_config
          (set_visited sample_gc_config 0x8000
            (assign_generation sample_gc_config 0x8000 5 sample_gc.mem)) 0x8000 = 5 :=
  ⟨(C26_assign_generation sample_gc_config sample_gc.mem 0x8000 5 (by decide) (by decide)).1.1,
   ((C26_assign_generation sample_gc_config sample_gc.mem 0x8000 5 (by decide)
      (by decide)).1.2.2.2.2.1 0x8000 (by decide)).trans (by decide),
   (C26_assign_generation sample_gc_config sample_gc.mem 0x8000 5 (by decide) (by decide)).2.1⟩

/-! ## C27: bitmap_logbitp -/

theorem testBit_eq_shift (x : Int) (b : Nat) :
    Int.testBit x b = decide ((x >>> b) % 2 ≠ 0) := by
  cases x with
  | ofNat m =>
    show Nat.testBit m b = decide (((m >>> b : Nat) : Int) % 2 ≠ 0)
    rw [Nat.testBit_to_div_mod, Nat.shiftRight_eq_div_pow]
    have h : ((((m / 2 ^ b : Nat) : Int) % 2 ≠ 0)) ↔ (m / 2 ^ b % 2 = 1) := by omega
    simp only [h]
  | negSucc m =>
    show (!Nat.testBit m b) = decide (Int.negSucc (m >>> b) % 2 ≠ 0)
    rw [Nat.testBit_to_div_mod, Nat.shiftRight_eq_div_pow, Int.negSucc_eq]
    have h : ((-(((m / 2 ^ b : Nat) : Int) + 1)) % 2 ≠ 0) ↔ ¬ (m / 2 ^ b % 2 = 1) := by omega
    simp only [h, decide_not]

theorem testBit_eq_div (x : Int) (i : Nat) :
    Int.testBit x i = decide ((x / ((2 ^ i : Nat) : Int)) % 2 ≠ 0) := by
  rw [testBit_eq_shift, Int.shiftRight_eq_div_pow]

theorem testBit_add_mul (W i : Nat) (lo hi : Int) (h0 : 0 ≤ lo)
    (h1 : lo < ((2 ^ W : Nat) : Int)) :
    Int.testBit (lo + ((2 ^ W : Nat) : Int) * hi) i
      = if i < W then Int.testBit lo i else Int.testBit hi (i - W) := by
  have hpos : ∀ n : Nat, (0 : Int) < ((2 ^ n : Nat) : Int) := fun n => by positivity
  by_cases hi' : i < W
  · rw [if_pos hi', testBit_eq_div, testBit_eq_div]
    have hW : ((2 ^ W : Nat) : Int) = ((2 ^ i : Nat) : Int) * (2 * ((2 ^ (W - i - 1) : Nat) : Int)) := by
      have : W = i + (1 + (W - i - 1)) := by omega
      conv_lhs => rw [this]
      rw [Nat.pow_add, Nat.pow_add]
      push_cast
      ring
    rw [hW, Int.mul_assoc, Int.add_mul_ediv_left _ _ (ne_of_gt (hpos i)), Int.mul_assoc,
      Int.add_mul_emod_self_left]
  · rw [if_neg hi', testBit_eq_div, testBit_eq_div]
    have hi2 : ((2 ^ i : Nat) : Int) = ((2 ^ W : Nat) : Int) * ((2 ^ (i - W) : Nat) : Int) := by
      have : i = W + (i - W) := by omega
      conv_lhs => rw [this]
      rw [Nat.pow_add]
      push_cast
      ring
    have hP := hpos W
    have hQ := hpos (i - W)
    have hr0 := Int.emod_nonneg hi (ne_of_gt hQ)
    have hr1 := Int.emod_lt_of_pos hi hQ
    have he := Int.emod_add_ediv hi ((2 ^ (i - W) : Nat) : Int)
    have hle : ((2 ^ W : Nat) : Int) * (hi % ((2 ^ (i - W) : Nat) : Int))
        ≤ ((2 ^ W : Nat) : Int) * (((2 ^ (i - W) : Nat) : Int) - 1) :=
      mul_le_mul_of_nonneg_left (by omega) (le_of_lt hP)
    have h := (Int.ediv_emod_unique (a := lo + ((2 ^ W : Nat) : Int) * hi)
      (b := ((2 ^ W : Nat) : Int) * ((2 ^ (i - W) : Nat) : Int))
      (r := lo + ((2 ^ W : Nat) : Int) * (hi % ((2 ^ (i - W) : Nat) : Int)))
      (q := hi / ((2 ^ (i - W) : Nat) : Int)) (mul_pos hP hQ)).mpr
      ⟨by linear_combination ((2 ^ W : Nat) : Int) * he,
       add_nonneg h0 (mul_nonneg (le_of_lt hP) hr0),
       by rw [mul_sub, mul_one] at hle; linarith⟩
    rw [hi2, h.1]

theorem testBit_emod (W i : Nat) (x : Int) (h : i < W) :
    Int.testBit (x % ((2 ^ W : Nat) : Int)) i = Int.testBit x i := by
  have hpos : (0 : Int) < ((2 ^ W : Nat) : Int) := by positivity
  have e : x = x % ((2 ^ W : Nat) : Int) + ((2 ^ W : Nat) : Int) * (x / ((2 ^ W : Nat) : Int)) :=
    (Int.emod_add_ediv x _).symm
  conv_rhs => rw [e]
  rw [testBit_add_mul W i _ _ (Int.emod_nonneg _ (ne_of_gt hpos)) (Int.emod_lt_of_pos _ hpos),
    if_pos h]

theorem testBit_sign (W i : Nat) (x : Int) (hW : 0 < W) (hi : W ≤ i + 1)
    (hlo : -((2 ^ (W - 1) : Nat) : Int) ≤ x) (hhi : x < ((2 ^ (W - 1) : Nat) : Int)) :
    Int.testBit x i = decide (x < 0) := by
  have hle : ((2 ^ (W - 1) : Nat) : Int) ≤ ((2 ^ i : Nat) : Int) := by
    exact_mod_cast Nat.pow_le_pow_right (by decide) (by omega)
  have hpos : (0 : Int) < ((2 ^ i : Nat) : Int) := by positivity
  rw [testBit_eq_div]
  by_cases hx : x < 0
  · have h := (Int.ediv_emod_unique (a := x) (r := x + ((2 ^ i : Nat) : Int)) (q := -1) hpos).mpr
      ⟨by ring, by omega, by omega⟩
    rw [h.1]
    simp [hx]
  · rw [Int.ediv_eq_zero_of_lt (by omega) (by omega)]
    simp [hx]

theorem bitmap_value_testBit (cfg : GcConfig) (bits : Nat → Int) (hW : 0 < N_WORD_BITS cfg) :
    ∀ (n start idx : Nat),
      (∀ i, i ≤ n → -((2 ^ (N_WORD_BITS cfg - 1) : Nat) : Int) ≤ bits (start + i)
        ∧ bits (start + i) < ((2 ^ (N_WORD_BITS cfg - 1) : Nat) : Int)) →
      Int.testBit (bitmap_value cfg bits n start) idx
        = if idx / N_WORD_BITS cfg ≤ n then
            Int.testBit (bits (start + idx / N_WORD_BITS cfg)) (idx % N_WORD_BITS cfg)
          else decide (bits (start + n) < 0) := by
  intro n
  induction n with
  | zero =>
    intro start idx hr
    show Int.testBit (bits start) idx = _
    by_cases h : idx < N_WORD_BITS cfg
    · rw [Nat.div_eq_of_lt h, Nat.mod_eq_of_lt h, if_pos (Nat.le_refl 0)]
      rfl
    · have hd : ¬ (idx / N_WORD_BITS cfg ≤ 0) := by
        have := Nat.div_pos (Nat.le_of_not_lt h) hW
        omega
      rw [if_neg hd]
      exact testBit_sign (N_WORD_BITS cfg) idx (bits start) hW (by omega) (hr 0 (Nat.le_refl 0)).1
        (hr 0 (Nat.le_refl 0)).2
  | succ n ih =>
    intro start idx hr
    have hpos : (0 : Int) < ((2 ^ N_WORD_BITS cfg : Nat) : Int) := by positivity
    show Int.testBit (bits start % ((2 ^ N_WORD_BITS cfg : Nat) : Int)
      + ((2 ^ N_WORD_BITS cfg : Nat) : Int) * bitmap_value cfg bits n (start + 1)) idx = _
    rw [testBit_add_mul (N_WORD_BITS cfg) idx _ _ (Int.emod_nonneg _ (ne_of_gt hpos))
      (Int.emod_lt_of_pos _ hpos)]
    by_cases h : idx < N_WORD_BITS cfg
    · rw [if_pos h, testBit_emod _ _ _ h, Nat.div_eq_of_lt h, Nat.mod_eq_of_lt h,
        if_pos (Nat.zero_le _)]
      rfl
    · rw [if_neg h]
      have hidx : idx = N_WORD_BITS cfg + (idx - N_WORD_BITS cfg) := by omega
      have hdiv : idx / N_WORD_BITS cfg = (idx - N_WORD_BITS cfg) / N_WORD_BITS cfg + 1 := by
        conv_lhs => rw [hidx]
        exact Nat.add_div_left _ hW
      have hmod : idx % N_WORD_BITS cfg = (idx - N_WORD_BITS cfg) % N_WORD_BITS cfg := by
        conv_lhs => rw [hidx]
        exact Nat.add_mod_left _ _
      have hr1 : ∀ i, i ≤ n →
          -((2 ^ (N_WORD_BITS cfg - 1) : Nat) : Int) ≤ bits (start + 1 + i)
            ∧ bits (start + 1 + i) < ((2 ^ (N_WORD_BITS cfg - 1) : Nat) : Int) := by
        intro i hi
        have := hr (1 + i) (by omega)
        rwa [← Nat.add_assoc] at this
      rw [ih (start + 1) (idx - N_WORD_BITS cfg) hr1, hdiv, hmod]
      have e1 : start + 1 + (idx - N_WORD_BITS cfg) / N_WORD_BITS cfg
          = start + ((idx - N_WORD_BITS cfg) / N_WORD_BITS cfg + 1) := by omega
      have e2 : start + 1 + n = start + (n + 1) := by omega
      rw [e1, e2]
      by_cases hc : (idx - N_WORD_BITS cfg) / N_WORD_BITS cfg ≤ n
      · rw [if_pos hc, if_pos (by omega)]
      · rw [if_neg hc, if_neg (by omega)]

theorem bitmap_logbitp_eq (cfg : GcConfig) (index : Nat) (bm : bitmap) (hidx : index < 2 ^ 32)
    (hn : 1 ≤ bm.nwords) (hn32 : bm.nwords < 2 ^ 32) :
    bitmap_logbitp cfg index bm
      = if index / N_WORD_BITS cfg < bm.nwords then
          Int.testBit (bm.bits (index / N_WORD_BITS cfg)) (index % N_WORD_BITS cfg)
        else decide (bm.bits (bm.nwords - 1) < 0) := by
  have hlast : (bm.nwords + 2 ^ 32 - 1) % 2 ^ 32 = bm.nwords - 1 := by omega
  unfold bitmap_logbitp
  simp only [Nat.mod_eq_of_lt hidx, hlast]
  by_cases h : index / N_WORD_BITS cfg < bm.nwords
  · rw [if_pos h, if_neg (by omega), testBit_eq_shift]
  · rw [if_neg h, if_pos (by omega)]

/-- C27: for an `unsigned int` index and a bitmap of `nwords ≥ 1` words,
`bitmap_logbitp` is bit `index mod N_WORD_BITS` of word `index / N_WORD_BITS`
when that word index is below `nwords`, and the sign bit of the last word
`bits[nwords-1]` otherwise; it reads no word outside `bits[0 .. nwords-1]`
(bitmaps that agree there give the same answer); and, the words being in the
range of `sword_t`, it is bit `index` of the integer the bitmap denotes when
read with the last word signed (sign-extended). -/
theorem C27_bitmap_logbitp (cfg : GcConfig) (index : Nat) (bm : bitmap)
    (hW : 0 < cfg.N_WORD_BYTES) (hidx : index < 2 ^ 32)
    (hn : 1 ≤ bm.nwords) (hn32 : bm.nwords < 2 ^ 32) :
    (index / N_WORD_BITS cfg < bm.nwords →
        bitmap_logbitp cfg index bm
          = Int.testBit (bm.bits (index / N_WORD_BITS cfg)) (index % N_WORD_BITS cfg))
      ∧ (bm.nwords ≤ index / N_WORD_BITS cfg →
        bitmap_logbitp cfg index bm = decide (bm.bits (bm.nwords - 1) < 0))
      ∧ (∀ bits1 : Nat → Int, (∀ i, i < bm.nwords → bits1 i = bm.bits i) →
          bitmap_logbitp cfg index { bits := bits1, nwords := bm.nwords }
            = bitmap_logbitp cfg index bm)
      ∧ ((∀ i, i < bm.nwords →
            -((2 ^ (N_WORD_BITS cfg - 1) : Nat) : Int) ≤ bm.bits i
              ∧ bm.bits i < ((2 ^ (N_WORD_BITS cfg - 1) : Nat) : Int)) →
          bitmap_logbitp cfg index bm
            = Int.testBit (bitmap_value cfg bm.bits (bm.nwords - 1) 0) index) := by
  have hWb : 0 < N_WORD_BITS cfg := by unfold N_WORD_BITS; omega
  have e := bitmap_logbitp_eq cfg index bm hidx hn hn32
  refine ⟨?_, ?_, ?_, ?_⟩
  · intro h
    rw [e, if_pos h]
  · intro h
    rw [e, if_neg (by omega)]
  · intro bits1 hb
    rw [e, bitmap_logbitp_eq cfg index { bits := bits1, nwords := bm.nwords } hidx hn hn32]
    show (if index / N_WORD_BITS cfg < bm.nwords then
        Int.testBit (bits1 (index / N_WORD_BITS cfg)) (index % N_WORD_BITS cfg)
      else decide (bits1 (bm.nwords - 1) < 0)) = _
    by_cases h : index / N_WORD_BITS cfg < bm.nwords
    · rw [if_pos h, if_pos h, hb _ h]
    · rw [if_neg h, if_neg h, hb _ (by omega)]
  · intro hr
    have hr0 : ∀ i, i ≤ bm.nwords - 1 →
        -((2 ^ (N_WORD_BITS cfg - 1) : Nat) : Int) ≤ bm.bits (0 + i)
          ∧ bm.bits (0 + i) < ((2 ^ (N_WORD_BITS cfg - 1) : Nat) : Int) := by
      intro i hi
      rw [Nat.zero_add]
      exact hr i (by omega)
    rw [e, bitmap_value_testBit cfg bm.bits hWb (bm.nwords - 1) 0 index hr0]
    simp only [Nat.zero_add]
    by_cases h : index / N_WORD_BITS cfg < bm.nwords
    · rw [if_pos h, if_pos (by omega)]
    · rw [if_neg h, if_neg (by omega)]

theorem C27_witness :
    bitmap_logbitp sample_gc_config 65 sample_bitmap = true
      ∧ bitmap_logbitp sample_gc_config 64 sample_bitmap = false
      ∧ bitmap_logbitp sample_gc_config 1000 sample_bitmap = true
      ∧ bitmap_logbitp sample_gc_config 1000 sample_bitmap
          = Int.testBit (bitmap_value sample_gc_config sample_bitmap.bits 1 0) 1000 := by
  have h65 := C27_bitmap_logbitp sample_gc_config 65 sample_bitmap
    (by decide) (by decide) (by decide) (by decide)
  have h64 := C27_bitmap_logbitp sample_gc_config 64 sample_bitmap
    (by decide) (by decide) (by decide) (by decide)
  have h1000 := C27_bitmap_logbitp sample_gc_config 1000 sample_bitmap
    (by decide) (by decide) (by decide) (by decide)
  refine ⟨(h65.1 (by decide)).trans (by decide), (h64.1 (by decide)).trans (by decide),
    (h1000.2.1 (by decide)).trans (by decide), h1000.2.2.2 ?_⟩
  intro i hi
  have h2 : i = 0 ∨ i = 1 := by
    have : i < 2 := hi
    omega
  rcases h2 with rfl | rfl <;> decide

/-! ## Thread start and exit: tests of the embedding on concrete inputs -/

theorem sample_run_pauses :
    (run_pauses sample_pauses sample_world).stats.n_gcs_done = 2
      ∧ (run_pauses sample_pauses sample_world).stats.stw_sum_duration = 12
      ∧ (run_pauses sample_pauses sample_world).stats.stw_min_duration = 5
      ∧ (run_pauses sample_pauses sample_world).stats.stw_max_duration = 7
      ∧ (run_pauses sample_pauses sample_world).stats.gc_sum_duration = 160
      ∧ (run_pauses sample_pauses sample_world).stats.gc_min_duration = 60
      ∧ (run_pauses sample_pauses sample_world).stats.gc_max_duration = 100 := by
  decide

theorem sample_unregister_thread :
    (unregister_thread id 2 2 stw_world).value? = some ()
      ∧ registry (Res.world stw_world (unregister_thread id 2 2 stw_world)) [3, 1]
      ∧ ((Res.world stw_world (unregister_thread id 2 2 stw_world)).mem 2).state = STATE_DEAD
      ∧ (init_new_thread id arch_init_ok 1 4 stw_world).value? = some ()
      ∧ registry (Res.world stw_world (init_new_thread id arch_init_ok 1 4 stw_world))
          [4, 3, 2, 1] := by
  decide

/-! ## C25: pause statistics -/

theorem gc_start_stats_not_counted (p : pause_times) (w : World)
    (h : pause_counted p = false) :
    gc_start_stats (with_pause_times p w) = with_pause_times p w := by
  have hc : p.stw_elapsed < 0 ∨ elapsed_ns p.gc_end_time p.gc_start_time < 0 := by
    unfold pause_counted at h
    simp only [decide_eq_false_iff_not, not_and_or, not_le] at h
    exact h
  unfold gc_start_stats with_pause_times
  simp only [hc, if_true]

theorem gc_start_stats_counted (p : pause_times) (w : World) (h : pause_counted p = true) :
    (gc_start_stats (with_pause_times p w)).stats
      = { (with_pause_times p w).stats with
          stw_sum_duration := w.stats.stw_sum_duration + p.stw_elapsed,
          stw_min_duration :=
            if p.stw_elapsed < w.stats.stw_min_duration then p.stw_elapsed
            else w.stats.stw_min_duration,
          stw_max_duration :=
            if p.stw_elapsed > w.stats.stw_max_duration then p.stw_elapsed
            else w.stats.stw_max_duration,
          gc_sum_duration :=
            w.stats.gc_sum_duration + elapsed_ns p.gc_end_time p.gc_start_time,
          gc_min_duration :=
            if elapsed_ns p.gc_end_time p.gc_start_time < w.stats.gc_min_duration then
              elapsed_ns p.gc_end_time p.gc_start_time
            else w.stats.gc_min_duration,
          gc_max_duration :=
            if elapsed_ns p.gc_end_time p.gc_start_time > w.stats.gc_max_duration then
              elapsed_ns p.gc_end_time p.gc_start_time
            else w.stats.gc_max_duration,
          n_gcs_done := w.stats.n_gcs_done + 1 } := by
  have hc : ¬ (p.stw_elapsed < 0 ∨ elapsed_ns p.gc_end_time p.gc_start_time < 0) := by
    unfold pause_counted at h
    simp only [decide_eq_true_eq] at h
    omega
  unfold gc_start_stats with_pause_times
  simp only [hc, if_false]

theorem consistent_step (n mn mx sm e : Int) (hn : 0 ≤ n) (h1 : n * mn ≤ sm) (h2 : sm ≤ n * mx) :
    (n + 1) * (if e < mn then e else mn) ≤ sm + e
      ∧ sm + e ≤ (n + 1) * (if e > mx then e else mx) := by
  constructor
  · split
    · rename_i h
      have := mul_le_mul_of_nonneg_left (le_of_lt h) hn
      linarith
    · rename_i h
      linarith
  · split
    · rename_i h
      have := mul_le_mul_of_nonneg_left (le_of_lt h) hn
      linarith
    · rename_i h
      linarith

theorem gc_start_stats_consistent (p : pause_times) (w : World)
    (h : stats_consistent w.stats) :
    stats_consistent (gc_start_stats (with_pause_times p w)).stats
      ∧ (gc_start_stats (with_pause_times p w)).stats.n_gcs_done
          = w.stats.n_gcs_done + (if pause_counted p then 1 else 0) := by
  obtain ⟨h0, h1, h2, h3, h4, h5, h6⟩ := h
  cases hc : pause_counted p with
  | false =>
    rw [gc_start_stats_not_counted p w hc]
    exact ⟨⟨h0, h1, h2, h3, h4, h5, h6⟩, by simp [with_pause_times]⟩
  | true =>
    rw [gc_start_stats_counted p w hc]
    have a := consistent_step _ _ _ _ p.stw_elapsed h0 h1 h2
    have b := consistent_step _ _ _ _ (elapsed_ns p.gc_end_time p.gc_start_time) h0 h3 h4
    have he : 0 ≤ p.stw_elapsed ∧ 0 ≤ elapsed_ns p.gc_end_time p.gc_start_time := by
      unfold pause_counted at hc
      simpa only [decide_eq_true_eq] using hc
    exact ⟨⟨by show 0 ≤ w.stats.n_gcs_done + 1; omega, a.1, a.2, b.1, b.2,
      by show 0 ≤ w.stats.stw_sum_duration + p.stw_elapsed; omega,
      by show 0 ≤ w.stats.gc_sum_duration + elapsed_ns p.gc_end_time p.gc_start_time; omega⟩,
      by simp⟩

theorem run_pauses_consistent :
    ∀ (ps : List pause_times) (w : World), stats_consistent w.stats →
      stats_consistent (run_pauses ps w).stats
        ∧ (run_pauses ps w).stats.n_gcs_done
            = w.stats.n_gcs_done + ((ps.countP pause_counted : Nat) : Int) := by
  intro ps
  induction ps with
  | nil =>
    intro w h
    exact ⟨h, by simp [run_pauses]⟩
  | cons p ps ih =>
    intro w h
    obtain ⟨hc, hn⟩ := gc_start_stats_consistent p w h
    obtain ⟨hc2, hn2⟩ := ih _ hc
    refine ⟨hc2, ?_⟩
    show (run_pauses ps (gc_start_stats (with_pause_times p w))).stats.n_gcs_done = _
    rw [hn2, hn, List.countP_cons]
    cases pause_counted p
    · simp
    · simp
      omega

theorem stats_fresh_consistent (st : gc_stats) (h : stats_fresh st) : stats_consistent st := by
  obtain ⟨_, _, h3, _, _, h6, h7⟩ := h
  unfold stats_consistent
  rw [h3, h6, h7]
  simp

theorem gc_start_the_world_ret (env : World → World) (fuel me : Nat) (w : World)
    (ts : List Nat)
    (hts : threads_from w.mem fuel w.all_threads = some ts)
    (hos : ∀ th ∈ ts, (w.mem th).os_thread ≠ 0)
    (hst : ∀ th ∈ ts, th ≠ me →
      (w.mem th).state = STATE_STOPPED ∨ (w.mem th).state = STATE_DEAD)
    (hsem : ∀ th ∈ ts, th ≠ me → 0 < (w.mem th).extra.state_sem) :
    gc_start_the_world env fuel me w
      = Res.ret () { (gc_start_stats w) with
          mem := started_mem me ts w.mem, all_threads_lock := none } := by
  have hloop : for_each_thread (gc_start_thread env fuel me) fuel (gc_start_stats w).all_threads
      (gc_start_stats w)
      = Res.ret () { (gc_start_stats w) with mem := started_mem me ts w.mem } := by
    cases fuel with
    | zero =>
      have hnil := threads_from_zero_nil _ _ _ hts
      subst hnil
      have h0 : w.all_threads = 0 := by
        by_contra hne
        simp [threads_from, hne] at hts
      simp only [for_each_thread, gc_start_stats_all_threads, h0, if_true, started_mem_nil]
      apply congrArg
      apply World.ext_fields <;> simp [gc_start_stats_mem, gc_start_stats_all_threads, h0]
    | succ k =>
      have h := for_each_start_eq env k me (k + 1) (gc_start_stats w).all_threads
        (gc_start_stats w) ts
        (by rw [gc_start_stats_mem, gc_start_stats_all_threads]; exact hts)
        (by rw [gc_start_stats_mem]; exact hos)
        (by rw [gc_start_stats_mem]; exact hst)
        (by rw [gc_start_stats_mem]; exact hsem)
      rw [h, gc_start_stats_mem]
  unfold gc_start_the_world
  simp only [hloop, unlock_all_threads]
  simp

/-- C25: starting from statistics as at program start or after
`reset_gc_stats`, after any sequence of calls of `gc_start_the_world` (each
finding its own `stw_elapsed`, `gc_start_time` and clock), `n_gcs_done` is the
number of calls in which both elapsed times were non-negative, and when it is
positive the averages the runtime prints (C division of the sums, which are
non-negative, by `n_gcs_done`) lie between the minimum and the maximum, for the
time to stop the world and for the collection.  A call with a negative elapsed
time changes nothing.  The statistics a call of `gc_start_the_world` leaves are
those of its statistics block. -/
theorem C25_pause_statistics (w : World) (ps : List pause_times)
    (hfresh : stats_fresh w.stats) :
    (run_pauses ps w).stats.n_gcs_done = ((ps.countP pause_counted : Nat) : Int)
      ∧ (0 < (run_pauses ps w).stats.n_gcs_done →
          (run_pauses ps w).stats.stw_min_duration
              ≤ Int.tdiv (run_pauses ps w).stats.stw_sum_duration
                  (run_pauses ps w).stats.n_gcs_done
            ∧ Int.tdiv (run_pauses ps w).stats.stw_sum_duration
                  (run_pauses ps w).stats.n_gcs_done
              ≤ (run_pauses ps w).stats.stw_max_duration
            ∧ (run_pauses ps w).stats.gc_min_duration
              ≤ Int.tdiv (run_pauses ps w).stats.gc_sum_duration
                  (run_pauses ps w).stats.n_gcs_done
            ∧ Int.tdiv (run_pauses ps w).stats.gc_sum_duration
                  (run_pauses ps w).stats.n_gcs_done
              ≤ (run_pauses ps w).stats.gc_max_duration)
      ∧ (∀ (p : pause_times) (v : World), pause_counted p = false →
          gc_start_stats (with_pause_times p v) = with_pause_times p v)
      ∧ (∀ v : World, stats_fresh (reset_gc_stats v).stats)
      ∧ (∀ (env : World → World) (fuel me : Nat) (v : World) (ts : List Nat),
          threads_from v.mem fuel v.all_threads = some ts →
          (∀ th ∈ ts, (v.mem th).os_thread ≠ 0) →
          (∀ th ∈ ts, th ≠ me →
            (v.mem th).state = STATE_STOPPED ∨ (v.mem th).state = STATE_DEAD) →
          (∀ th ∈ ts, th ≠ me → 0 < (v.mem th).extra.state_sem) →
          ∃ v1, gc_start_the_world env fuel me v = Res.ret () v1
            ∧ v1.stats = (gc_start_stats v).stats) := by
  obtain ⟨hc, hn⟩ := run_pauses_consistent ps w (stats_fresh_consistent _ hfresh)
  obtain ⟨h0, h1, h2, h3, h4, h5, h6⟩ := hc
  refine ⟨?_, ?_, gc_start_stats_not_counted, ?_, ?_⟩
  · rw [hn, hfresh.2.2.2.2.2.2, Int.zero_add]
  · intro hpos
    rw [Int.tdiv_eq_ediv h5 h0, Int.tdiv_eq_ediv h6 h0]
    refine ⟨(Int.le_ediv_iff_mul_le hpos).mpr ?_, Int.ediv_le_of_le_mul hpos ?_,
      (Int.le_ediv_iff_mul_le hpos).mpr ?_, Int.ediv_le_of_le_mul hpos ?_⟩
    · rw [Int.mul_comm]; exact h1
    · rw [Int.mul_comm]; exact h2
    · rw [Int.mul_comm]; exact h3
    · rw [Int.mul_comm]; exact h4
  · intro v
    exact ⟨rfl, rfl, rfl, rfl, rfl, rfl, rfl⟩
  · intro env fuel me v ts hts hos hst hsem
    exact ⟨_, gc_start_the_world_ret env fuel me v ts hts hos hst hsem, rfl⟩

theorem C25_witness :
    (run_pauses sample_pauses sample_world).stats.n_gcs_done = 2
      ∧ (run_pauses sample_pauses sample_world).stats.stw_min_duration
          ≤ Int.tdiv (run_pauses sample_pauses sample_world).stats.stw_sum_duration
              (run_pauses sample_pauses sample_world).stats.n_gcs_done
      ∧ Int.tdiv (run_pauses sample_pauses sample_world).stats.gc_sum_duration
            (run_pauses sample_pauses sample_world).stats.n_gcs_done
          ≤ (run_pauses sample_pauses sample_world).stats.gc_max_duration :=
  ⟨(C25_pause_statistics sample_world sample_pauses ⟨rfl, rfl, rfl, rfl, rfl, rfl, rfl⟩).1,
   ((C25_pause_statistics sample_world sample_pauses ⟨rfl, rfl, rfl, rfl, rfl, rfl, rfl⟩).2.1
      (by decide)).1,
   ((C25_pause_statistics sample_world sample_pauses ⟨rfl, rfl, rfl, rfl, rfl, rfl, rfl⟩).2.1
      (by decide)).2.2.2⟩

/-! ## C29: link_thread and unlink_thread keep the registry well formed -/

theorem dseg_links (mem : Nat → thread) :
    ∀ (ts : List Nat) (prev p : Nat), dseg mem prev p ts 0 →
      (p = 0 ∨ (mem p).prev = prev)
        ∧ ∀ n ∈ ts, (mem n).next ≠ 0 → (mem (mem n).next).prev = n := by
  intro ts
  induction ts with
  | nil =>
    intro prev p h
    exact ⟨Or.inl h, fun n hn => absurd hn (List.not_mem_nil _)⟩
  | cons x xs ih =>
    intro prev p h
    obtain ⟨hp, _, hprev, hrest⟩ := h
    obtain ⟨hhead, hall⟩ := ih x (mem x).next hrest
    refine ⟨Or.inr (hp ▸ hprev), ?_⟩
    intro n hn hnext
    rcases List.mem_cons.mp hn with rfl | hn1
    · rcases hhead with h0 | h1
      · exact absurd h0 hnext
      · exact h1
    · exact hall n hn1 hnext

theorem dseg_of_links (mem : Nat → thread) :
    ∀ (n p prev : Nat) (ts : List Nat), threads_from mem n p = some ts →
      (p = 0 ∨ (mem p).prev = prev) →
      (∀ x ∈ ts, (mem x).next ≠ 0 → (mem (mem x).next).prev = x) →
      dseg mem prev p ts 0 := by
  intro n
  induction n with
  | zero =>
    intro p prev ts h _ _
    have hnil := threads_from_zero_nil _ _ _ h
    subst hnil
    by_contra hne
    have hp : p ≠ 0 := hne
    simp [threads_from, hp] at h
  | succ k ih =>
    intro p prev ts h hhead hall
    by_cases hp : p = 0
    · subst hp
      rw [threads_from_null] at h
      simp only [Option.some.injEq] at h
      subst h
      rfl
    · obtain ⟨k1, rest, hk, hcons, hrest⟩ := threads_from_cons mem _ p ts hp h
      have hk1 : k1 = k := by omega
      subst hk1
      subst hcons
      refine ⟨rfl, hp, ?_, ?_⟩
      · rcases hhead with h0 | h1
        · exact absurd h0 hp
        · exact h1
      · apply ih _ _ rest hrest
        · by_cases hn : (mem p).next = 0
          · exact Or.inl hn
          · exact Or.inr (hall p (List.mem_cons_self _ _) hn)
        · intro x hx
          exact hall x (List.mem_cons_of_mem _ hx)

theorem registry_iff_wf (w : World) (ts : List Nat) : registry w ts ↔ registry_wf w ts := by
  constructor
  · intro h
    obtain ⟨h1, h2⟩ := dseg_links w.mem ts 0 w.all_threads h
    exact ⟨dseg_threads_from w.mem ts 0 w.all_threads ts.length h (Nat.le_refl _), h1, h2⟩
  · intro h
    exact dseg_of_links w.mem ts.length w.all_threads 0 ts h.1 h.2.1 h.2.2

/-- C29: let the registry be well formed with threads `ts` (`all_threads` is
NULL or has `prev == 0`, the walk along `next` ends in NULL, every thread `n`
with `n->next != NULL` has `n->next->prev == n`).  After `link_thread(th)`, for a
non-NULL `th` not in `ts`, it is well formed with threads `th :: ts`, `th` is
the head, `th->prev == 0` and `th->next` is the old head.  After
`unlink_thread(th)`, for `th` in `ts`, it is well formed with the threads of
`ts` other than `th`, in the same order. -/
theorem C29_link_unlink_well_formed (w : World) (th : Nat) (ts : List Nat)
    (hwf : registry_wf w ts) :
    (th ≠ 0 → th ∉ ts →
        registry_wf (link_thread th w) (th :: ts)
          ∧ (link_thread th w).all_threads = th
          ∧ ((link_thread th w).mem th).prev = 0
          ∧ ((link_thread th w).mem th).next = w.all_threads)
      ∧ (th ∈ ts →
        registry_wf (unlink_thread th w) (ts.erase th)
          ∧ th ∉ ts.erase th
          ∧ ∀ x, x ≠ th → (x ∈ ts.erase th ↔ x ∈ ts)) := by
  have hreg : registry w ts := (registry_iff_wf w ts).mpr hwf
  have hnd : ts.Nodup := threads_from_nodup _ _ _ _ hwf.1
  constructor
  · intro h0 hnot
    exact ⟨(registry_iff_wf _ _).mp (link_thread_registry w th ts hreg h0 hnot), rfl,
      (link_thread_mem_self th w).2, (link_thread_mem_self th w).1⟩
  · intro hmem
    obtain ⟨pre, post, hsplit⟩ := List.append_of_mem hmem
    subst hsplit
    have hpre : th ∉ pre := by
      intro hp
      have := (List.nodup_append.mp hnd).2.2
      exact this hp (List.mem_cons_self _ _)
    have hpost : th ∉ post := (List.nodup_cons.mp (List.nodup_append.mp hnd).2.1).1
    have herase : (pre ++ th :: post).erase th = pre ++ post := by
      rw [List.erase_append_right _ hpre, List.erase_cons_head]
    rw [herase]
    refine ⟨(registry_iff_wf _ _).mp (unlink_thread_registry w th pre post hreg), ?_, ?_⟩
    · intro hx
      rcases List.mem_append.mp hx with h | h
      · exact hpre h
      · exact hpost h
    · intro x hx
      simp only [List.mem_append, List.mem_cons, hx, false_or]

theorem C29_witness :
    registry_wf (link_thread 4 stw_world) [4, 3, 2, 1]
      ∧ (link_thread 4 stw_world).all_threads = 4
      ∧ registry_wf (unlink_thread 2 stw_world) [3, 1]
      ∧ registry_wf (unlink_thread 3 stw_world) [2, 1]
      ∧ registry_wf (unlink_thread 1 stw_world) [3, 2] := by
  have hwf : registry_wf stw_world [3, 2, 1] :=
    ⟨by decide, by decide, by decide⟩
  exact ⟨((C29_link_unlink_well_formed stw_world 4 [3, 2, 1] hwf).1 (by decide) (by decide)).1,
    ((C29_link_unlink_well_formed stw_world 4 [3, 2, 1] hwf).1 (by decide) (by decide)).2.1,
    ((C29_link_unlink_well_formed stw_world 2 [3, 2, 1] hwf).2 (by decide)).1,
    ((C29_link_unlink_well_formed stw_world 3 [3, 2, 1] hwf).2 (by decide)).1,
    ((C29_link_unlink_well_formed stw_world 1 [3, 2, 1] hwf).2 (by decide)).1⟩

/-! ## C28: when gc_start_the_world aborts -/

theorem gc_start_thread_bad (env : World → World) (k me th : Nat) (w : World)
    (hos : (w.mem th).os_thread ≠ 0) (hme : th ≠ me)
    (hS : (w.mem th).state ≠ STATE_STOPPED) (hD : (w.mem th).state ≠ STATE_DEAD) :
    gc_start_thread env k me th w = Res.lose w := by
  unfold gc_start_thread
  simp only [hos, if_false, get_thread_state, ne_eq, hme, not_false_eq_true, if_true, hD, hS]

theorem gc_start_stats_lock (w : World) :
    (gc_start_stats w).all_threads_lock = w.all_threads_lock := by
  unfold gc_start_stats
  simp only
  split <;> rfl

theorem exists_first (P : Nat → Prop) :
    ∀ l : List Nat, (∃ x ∈ l, P x) →
      ∃ pre b post, l = pre ++ b :: post ∧ P b ∧ ∀ x ∈ pre, ¬ P x := by
  intro l
  induction l with
  | nil =>
    rintro ⟨x, hx, _⟩
    exact absurd hx (List.not_mem_nil _)
  | cons a l ih =>
    rintro ⟨x, hx, hP⟩
    by_cases ha : P a
    · exact ⟨[], a, l, rfl, ha, fun y hy => absurd hy (List.not_mem_nil _)⟩
    · rcases List.mem_cons.mp hx with rfl | hx1
      · exact absurd hP ha
      · obtain ⟨pre, b, post, hl, hb, hpre⟩ := ih ⟨x, hx1, hP⟩
        refine ⟨a :: pre, b, post, by rw [hl]; rfl, hb, ?_⟩
        intro y hy
        rcases List.mem_cons.mp hy with rfl | hy1
        · exact ha
        · exact hpre y hy1

theorem for_each_start_lose (env : World → World) (k me bad : Nat) (post : List Nat) :
    ∀ (pre : List Nat) (fuel th : Nat) (w : World),
      threads_from w.mem fuel th = some (pre ++ bad :: post) →
      (∀ x ∈ pre, (w.mem x).os_thread ≠ 0) →
      (w.mem bad).os_thread ≠ 0 →
      (∀ x ∈ pre, x ≠ me →
        (w.mem x).state = STATE_STOPPED ∨ (w.mem x).state = STATE_DEAD) →
      (∀ x ∈ pre, x ≠ me → 0 < (w.mem x).extra.state_sem) →
      bad ≠ me → (w.mem bad).state ≠ STATE_STOPPED → (w.mem bad).state ≠ STATE_DEAD →
      for_each_thread (gc_start_thread env (k + 1) me) fuel th w
        = Res.lose { w with mem := started_mem me pre w.mem } := by
  intro pre
  induction pre with
  | nil =>
    intro fuel th w hts _ hosb _ _ hme hS hD
    have hth : th ≠ 0 := by
      intro h0
      subst h0
      rw [threads_from_null] at hts
      simp at hts
    obtain ⟨n, rest, hn, hcons, _⟩ := threads_from_cons w.mem _ th _ hth hts
    subst hn
    have hb : bad = th := by
      simp only [List.nil_append, List.cons.injEq] at hcons
      exact hcons.1
    subst hb
    simp only [for_each_thread, hth, if_false]
    rw [gc_start_thread_bad env (k + 1) me bad w hosb hme hS hD, started_mem_nil]
  | cons a pre ih =>
    intro fuel th w hts hos hosb hst hsem hme hS hD
    have hth : th ≠ 0 := by
      intro h0
      subst h0
      rw [threads_from_null] at hts
      simp at hts
    have hnd := threads_from_nodup _ _ _ _ hts
    obtain ⟨n, rest, hn, hcons, hrest⟩ := threads_from_cons w.mem _ th _ hth hts
    subst hn
    have ha : a = th ∧ pre ++ bad :: post = rest := by
      simpa only [List.cons_append, List.cons.injEq] using hcons
    obtain ⟨hath, hrest2⟩ := ha
    subst hath
    subst hrest2
    have hanot : a ∉ pre ++ bad :: post := (List.nodup_cons.mp hnd).1
    have hapre : a ∉ pre := fun h => hanot (List.mem_append_left _ h)
    have habad : bad ≠ a := fun h => hanot (h ▸ List.mem_append_right _ (List.mem_cons_self _ _))
    simp only [for_each_thread, hth, if_false]
    rw [gc_start_thread_free env k me a w (hos a (List.mem_cons_self _ _))
      (hst a (List.mem_cons_self _ _)) (hsem a (List.mem_cons_self _ _))]
    simp only
    have hother : ∀ x, x ≠ a →
        ((if a ≠ me ∧ (w.mem a).state = STATE_STOPPED then
          store_thread w a (set_thread_state_locked STATE_RUNNING (w.mem a))
          else w).mem x) = w.mem x := by
      intro x hx
      split
      · simp [store_thread, Function.update_noteq hx]
      · rfl
    have hnextall : ∀ x,
        ((if a ≠ me ∧ (w.mem a).state = STATE_STOPPED then
          store_thread w a (set_thread_state_locked STATE_RUNNING (w.mem a))
          else w).mem x).next = (w.mem x).next := by
      intro x
      by_cases hx : x = a
      · subst hx
        split
        · rw [store_thread_mem_same, set_thread_state_locked_next]
        · rfl
      · rw [hother x hx]
    have hne : ∀ x ∈ pre, x ≠ a := fun x hx hxe => hapre (hxe ▸ hx)
    rw [ih _ _ _]
    · apply congrArg
      refine World.ext_fields _ _ ?h1 ?h2 ?h3 ?h4 ?h5 ?h6 ?h7 ?h8 ?h9 ?h10
      case h2 =>
        funext p
        simp only [started_mem]
        by_cases hp : p = a
        · subst hp
          simp only [hapre, false_and, if_false, List.mem_cons, true_or, true_and]
          split
          · rw [store_thread_mem_same]
          · rfl
        · rw [hother p hp]
          simp only [List.mem_cons, hp, false_or]
      all_goals split <;> rfl
    · rw [threads_from_congr _ w.mem hnextall, hnextall a]
      exact hrest
    · intro x hx
      rw [hother x (hne x hx)]
      exact hos x (List.mem_cons_of_mem _ hx)
    · rw [hother bad habad]
      exact hosb
    · intro x hx hxme
      rw [hother x (hne x hx)]
      exact hst x (List.mem_cons_of_mem _ hx) hxme
    · intro x hx hxme
      rw [hother x (hne x hx)]
      exact hsem x (List.mem_cons_of_mem _ hx) hxme
    · exact hme
    · rw [hother bad habad]
      exact hS
    · rw [hother bad habad]
      exact hD

theorem gc_start_the_world_lose (env : World → World) (fuel me bad : Nat) (w : World)
    (pre post : List Nat)
    (hts : threads_from w.mem fuel w.all_threads = some (pre ++ bad :: post))
    (hos : ∀ th ∈ pre ++ bad :: post, (w.mem th).os_thread ≠ 0)
    (hst : ∀ x ∈ pre, x ≠ me →
      (w.mem x).state = STATE_STOPPED ∨ (w.mem x).state = STATE_DEAD)
    (hsem : ∀ x ∈ pre, x ≠ me → 0 < (w.mem x).extra.state_sem)
    (hme : bad ≠ me) (hS : (w.mem bad).state ≠ STATE_STOPPED)
    (hD : (w.mem bad).state ≠ STATE_DEAD) :
    gc_start_the_world env fuel me w
      = Res.lose { (gc_start_stats w) with mem := started_mem me pre w.mem } := by
  cases fuel with
  | zero =>
    have hnil := threads_from_zero_nil _ _ _ hts
    simp at hnil
  | succ k =>
    have h := for_each_start_lose env k me bad post pre (k + 1) (gc_start_stats w).all_threads
      (gc_start_stats w)
      (by rw [gc_start_stats_mem, gc_start_stats_all_threads]; exact hts)
      (by rw [gc_start_stats_mem]; exact fun x hx => hos x (List.mem_append_left _ hx))
      (by rw [gc_start_stats_mem]
          exact hos bad (List.mem_append_right _ (List.mem_cons_self _ _)))
      (by rw [gc_start_stats_mem]; exact hst)
      (by rw [gc_start_stats_mem]; exact hsem)
      hme (by rw [gc_start_stats_mem]; exact hS) (by rw [gc_start_stats_mem]; exact hD)
    unfold gc_start_the_world
    simp only [h, gc_start_stats_mem]

/-- C28: in a registry `ts` whose threads all have an OS thread and a free
`state_sem`, `gc_start_the_world` ends in `lose` if and only if some thread of
`ts` other than the caller has a state that is neither STOPPED nor DEAD; a
thread other than the caller in state RUNNING is such a thread.  When it ends in
`lose` at the first such thread `bad`, `all_threads_lock` is as it was (not
released), `bad` and the threads after it in the registry are as they were (none
is resumed), and the STOPPED threads before it have been resumed. -/
theorem C28_gc_start_the_world_aborts (env : World → World) (fuel me : Nat) (w : World)
    (ts : List Nat)
    (hts : threads_from w.mem fuel w.all_threads = some ts)
    (hos : ∀ th ∈ ts, (w.mem th).os_thread ≠ 0)
    (hsem : ∀ th ∈ ts, th ≠ me → 0 < (w.mem th).extra.state_sem) :
    ((gc_start_the_world env fuel me w).lost = true ↔
        ∃ th ∈ ts, th ≠ me ∧ (w.mem th).state ≠ STATE_STOPPED
          ∧ (w.mem th).state ≠ STATE_DEAD)
      ∧ ((∃ th ∈ ts, th ≠ me ∧ (w.mem th).state = STATE_RUNNING) →
          (gc_start_the_world env fuel me w).lost = true)
      ∧ (∀ (pre post : List Nat) (bad : Nat), ts = pre ++ bad :: post →
          bad ≠ me → (w.mem bad).state ≠ STATE_STOPPED → (w.mem bad).state ≠ STATE_DEAD →
          (∀ x ∈ pre, x ≠ me →
            (w.mem x).state = STATE_STOPPED ∨ (w.mem x).state = STATE_DEAD) →
          ∃ w1, gc_start_the_world env fuel me w = Res.lose w1
            ∧ w1.all_threads_lock = w.all_threads_lock
            ∧ w1.mem bad = w.mem bad
            ∧ (∀ x ∈ post, w1.mem x = w.mem x)
            ∧ (∀ x ∈ pre, x ≠ me → (w.mem x).state = STATE_STOPPED →
                (w1.mem x).state = STATE_RUNNING)) := by
  have hnd : ts.Nodup := threads_from_nodup _ _ _ _ hts
  have hstep : ∀ (pre post : List Nat) (bad : Nat), ts = pre ++ bad :: post →
      bad ≠ me → (w.mem bad).state ≠ STATE_STOPPED → (w.mem bad).state ≠ STATE_DEAD →
      (∀ x ∈ pre, x ≠ me →
        (w.mem x).state = STATE_STOPPED ∨ (w.mem x).state = STATE_DEAD) →
      gc_start_the_world env fuel me w
        = Res.lose { (gc_start_stats w) with mem := started_mem me pre w.mem } := by
    intro pre post bad hsplit hme hS hD hpre
    subst hsplit
    exact gc_start_the_world_lose env fuel me bad w pre post hts hos hpre
      (fun x hx => hsem x (List.mem_append_left _ hx)) hme hS hD
  have hbad : (∃ th ∈ ts, th ≠ me ∧ (w.mem th).state ≠ STATE_STOPPED
      ∧ (w.mem th).state ≠ STATE_DEAD) → (gc_start_the_world env fuel me w).lost = true := by
    intro hex
    obtain ⟨pre, b, post, hsplit, hb, hpre⟩ :=
      exists_first (fun th => th ≠ me ∧ (w.mem th).state ≠ STATE_STOPPED
        ∧ (w.mem th).state ≠ STATE_DEAD) ts hex
    have hgood : ∀ x ∈ pre, x ≠ me →
        (w.mem x).state = STATE_STOPPED ∨ (w.mem x).state = STATE_DEAD := by
      intro x hx hxme
      by_contra hc
      exact hpre x hx ⟨hxme, fun h => hc (Or.inl h), fun h => hc (Or.inr h)⟩
    rw [hstep pre post b hsplit hb.1 hb.2.1 hb.2.2 hgood]
    rfl
  refine ⟨⟨?_, hbad⟩, ?_, ?_⟩
  · intro hl
    by_contra hno
    have hst : ∀ th ∈ ts, th ≠ me →
        (w.mem th).state = STATE_STOPPED ∨ (w.mem th).state = STATE_DEAD := by
      intro th hth hme
      by_contra hc
      exact hno ⟨th, hth, hme, fun h => hc (Or.inl h), fun h => hc (Or.inr h)⟩
    rw [gc_start_the_world_ret env fuel me w ts hts hos hst hsem] at hl
    exact Bool.noConfusion hl
  · rintro ⟨th, hth, hme, hrun⟩
    apply hbad
    refine ⟨th, hth, hme, ?_, ?_⟩
    · rw [hrun]; decide
    · rw [hrun]; decide
  · intro pre post bad hsplit hme hS hD hpre
    refine ⟨_, hstep pre post bad hsplit hme hS hD hpre, gc_start_stats_lock w, ?_, ?_, ?_⟩
    · show started_mem me pre w.mem bad = w.mem bad
      have hbp : bad ∉ pre := by
        intro hb
        rw [hsplit] at hnd
        exact (List.nodup_append.mp hnd).2.2 hb (List.mem_cons_self _ _)
      simp [started_mem, hbp]
    · intro x hx
      show started_mem me pre w.mem x = w.mem x
      have hxp : x ∉ pre := by
        intro hb
        rw [hsplit] at hnd
        exact (List.nodup_append.mp hnd).2.2 hb (List.mem_cons_of_mem _ hx)
      simp [started_mem, hxp]
    · intro x hx hxme hs
      show (started_mem me pre w.mem x).state = STATE_RUNNING
      simp only [started_mem, hx, hxme, hs, ne_eq, not_false_eq_true, and_self, if_true]
      exact set_thread_state_locked_state _ _

theorem C28_witness :
    (gc_start_the_world id 5 1 bad_pause_world).lost = true
      ∧ (∃ w1, gc_start_the_world id 5 1 bad_pause_world = Res.lose w1
          ∧ w1.all_threads_lock = some 1
          ∧ (w1.mem 3).state = STATE_RUNNING
          ∧ (w1.mem 2).state = STATE_STOPPED
          ∧ (w1.mem 4).state = STATE_RUNNING)
      ∧ (gc_start_the_world id 4 1 paused_world).lost = false := by
  have h := C28_gc_start_the_world_aborts id 5 1 bad_pause_world [4, 3, 2, 1]
    (by decide) (by decide) (by decide)
  have hp := C28_gc_start_the_world_aborts id 4 1 paused_world [3, 2, 1]
    (by decide) (by decide) (by decide)
  refine ⟨h.1.mpr ⟨3, by decide, by decide, by decide, by decide⟩, ?_, ?_⟩
  · obtain ⟨w1, he, hl, hb, hpost, hpre⟩ := h.2.2 [4] [2, 1] 3 rfl
      (by decide) (by decide) (by decide) (by decide)
    refine ⟨w1, he, hl, ?_, ?_, hpre 4 (by decide) (by decide) (by decide)⟩
    · rw [hb]; decide
    · rw [hpost 2 (by decide)]; decide
  · exact Bool.eq_false_iff.mpr (fun hl => absurd (hp.1.mp hl) (by decide))

/-! ## C21: DEAD threads and the registry -/

theorem set_thread_state_locked_prev (s : Int) (t : thread) :
    (set_thread_state_locked s t).prev = t.prev := by
  unfold set_thread_state_locked
  simp only [post_times_eq]
  split <;> [skip; rfl]
  split <;> split <;> rfl

theorem registry_store_state (w : World) (th : Nat) (s : Int) (ts : List Nat)
    (h : registry w ts) :
    registry (store_thread w th (set_thread_state_locked s (w.mem th))) ts := by
  unfold registry at h ⊢
  apply dseg_congr w.mem _ 0 ts 0 w.all_threads _ h
  intro x _
  show ((Function.update w.mem th (set_thread_state_locked s (w.mem th)) x).next = _
    ∧ (Function.update w.mem th (set_thread_state_locked s (w.mem th)) x).prev = _)
  by_cases hx : x = th
  · subst hx
    rw [Function.update_same]
    exact ⟨set_thread_state_locked_next _ _, set_thread_state_locked_prev _ _⟩
  · rw [Function.update_noteq hx]
    exact ⟨rfl, rfl⟩

theorem store_state_other (w : World) (th x : Nat) (s : Int) (hx : x ≠ th) :
    (store_thread w th (set_thread_state_locked s (w.mem th))).mem x = w.mem x := by
  show Function.update w.mem th _ x = _
  rw [Function.update_noteq hx]

theorem lock_all_threads_free (env : World → World) (k me : Nat) (w : World)
    (h : w.all_threads_lock = none) :
    lock_all_threads env (k + 1) me w = Res.ret 0 { w with all_threads_lock := some me } := by
  rw [lock_all_threads]
  simp only [h]

theorem unregister_thread_dead_eq (env : World → World) (k th : Nat) (w : World)
    (hsem : 0 < (w.mem th).extra.state_sem) :
    unregister_thread_dead env (k + 1) th w
      = Res.ret () (store_thread (block_blockable_signals w) th
          (set_thread_state_locked STATE_DEAD (w.mem th))) := by
  unfold unregister_thread_dead
  exact set_thread_state_free env k th STATE_DEAD true (block_blockable_signals w) hsem

theorem unregister_thread_unlink_eq (env : World → World) (k th : Nat) (w : World)
    (hlock : w.all_threads_lock = none) :
    unregister_thread_unlink env (k + 1) th w
      = Res.ret ()
          { (unlink_thread th { w with all_threads_lock := some th }) with
            all_threads_lock := none } := by
  unfold unregister_thread_unlink
  rw [lock_all_threads_free env k th w hlock]
  simp [unlock_all_threads]

theorem init_new_thread_eq (env : World → World) (init : Nat → Int) (k th : Nat) (w : World)
    (hinit : init th ≠ 0) (hlock : w.all_threads_lock = none) :
    init_new_thread env init (k + 1) th w
      = Res.ret ()
          { (link_thread th { w with all_threads_lock := some th }) with
            all_threads_lock := none } := by
  unfold init_new_thread
  rw [if_neg hinit, lock_all_threads_free env k th w hlock]
  simp [unlock_all_threads]

theorem store_next_state (w : World) (a n x : Nat) :
    ((store_thread w a { (w.mem a) with next := n }).mem x).state = (w.mem x).state := by
  by_cases hx : x = a
  · subst hx
    rw [store_thread_mem_same]
  · show (Function.update w.mem a _ x).state = _
    rw [Function.update_noteq hx]

theorem store_prev_state (w : World) (a n x : Nat) :
    ((store_thread w a { (w.mem a) with prev := n }).mem x).state = (w.mem x).state := by
  by_cases hx : x = a
  · subst hx
    rw [store_thread_mem_same]
  · show (Function.update w.mem a _ x).state = _
    rw [Function.update_noteq hx]

theorem unlink_thread_mem_state (T x : Nat) (w : World) :
    ((unlink_thread T w).mem x).state = (w.mem x).state := by
  have hw1 : ∀ y,
      ((if (w.mem T).prev ≠ 0 then
          store_thread w (w.mem T).prev
            { (w.mem (w.mem T).prev) with next := (w.mem T).next }
        else { w with all_threads := (w.mem T).next }).mem y).state = (w.mem y).state := by
    intro y
    split
    · exact store_next_state w _ _ y
    · rfl
  have haux : ∀ w1 : World,
      ((if (w1.mem T).next ≠ 0 then
          store_thread w1 (w1.mem T).next
            { (w1.mem (w1.mem T).next) with prev := (w1.mem T).prev }
        else w1).mem x).state = (w1.mem x).state := by
    intro w1
    split
    · exact store_prev_state w1 _ _ x
    · rfl
  exact (haux (if (w.mem T).prev ≠ 0 then
      store_thread w (w.mem T).prev { (w.mem (w.mem T).prev) with next := (w.mem T).next }
    else { w with all_threads := (w.mem T).next })).trans (hw1 x)

theorem link_thread_mem_state (T x : Nat) (w : World) :
    ((link_thread T w).mem x).state = (w.mem x).state := by
  have hw1 : ∀ y,
      ((if w.all_threads ≠ 0 then
          store_thread w w.all_threads { (w.mem w.all_threads) with prev := T }
        else w).mem y).state = (w.mem y).state := by
    intro y
    split
    · exact store_prev_state w _ _ y
    · rfl
  have h3 := store_prev_state
    (store_thread (if w.all_threads ≠ 0 then
        store_thread w w.all_threads { (w.mem w.all_threads) with prev := T } else w) T
      { ((if w.all_threads ≠ 0 then
          store_thread w w.all_threads { (w.mem w.all_threads) with prev := T }
          else w).mem T) with
        next := (if w.all_threads ≠ 0 then
          store_thread w w.all_threads { (w.mem w.all_threads) with prev := T }
          else w).all_threads }) T 0 x
  have h2 := store_next_state
    (if w.all_threads ≠ 0 then
      store_thread w w.all_threads { (w.mem w.all_threads) with prev := T } else w) T
    (if w.all_threads ≠ 0 then
      store_thread w w.all_threads { (w.mem w.all_threads) with prev := T }
      else w).all_threads x
  exact (h3.trans h2).trans (hw1 x)

theorem registry_nodup (w : World) (ts : List Nat) (h : registry w ts) : ts.Nodup :=
  threads_from_nodup _ _ _ _ (dseg_threads_from w.mem ts 0 w.all_threads ts.length h
    (Nat.le_refl _))

theorem unlink_thread_registry_erase (w : World) (th : Nat) (ts : List Nat)
    (hreg : registry w ts) (hmem : th ∈ ts) :
    registry (unlink_thread th w) (ts.erase th) ∧ th ∉ ts.erase th
      ∧ ∀ x, x ∈ ts.erase th → x ∈ ts := by
  have hnd := registry_nodup w ts hreg
  obtain ⟨pre, post, hsplit⟩ := List.append_of_mem hmem
  subst hsplit
  have hpre : th ∉ pre := fun hp =>
    (List.nodup_append.mp hnd).2.2 hp (List.mem_cons_self _ _)
  have hpost : th ∉ post := (List.nodup_cons.mp (List.nodup_append.mp hnd).2.1).1
  have herase : (pre ++ th :: post).erase th = pre ++ post := by
    rw [List.erase_append_right _ hpre, List.erase_cons_head]
  rw [herase]
  refine ⟨unlink_thread_registry w th pre post hreg, ?_, ?_⟩
  · intro hx
    rcases List.mem_append.mp hx with h | h
    · exact hpre h
    · exact hpost h
  · intro x hx
    rcases List.mem_append.mp hx with h | h
    · exact List.mem_append_left _ h
    · exact List.mem_append_right _ (List.mem_cons_of_mem _ h)

theorem store_state_known (w : World) (th : Nat) (s : Int) (t : Nat)
    (hs : s = STATE_RUNNING ∨ s = STATE_STOPPED ∨ s = STATE_DEAD)
    (ht : (w.mem t).state = STATE_RUNNING ∨ (w.mem t).state = STATE_STOPPED
      ∨ (w.mem t).state = STATE_DEAD) :
    ((store_thread w th (set_thread_state_locked s (w.mem th))).mem t).state = STATE_RUNNING
      ∨ ((store_thread w th (set_thread_state_locked s (w.mem th))).mem t).state = STATE_STOPPED
      ∨ ((store_thread w th (set_thread_state_locked s (w.mem th))).mem t).state = STATE_DEAD := by
  by_cases hx : t = th
  · subst hx
    rw [store_thread_mem_same, set_thread_state_locked_state]
    exact hs
  · rw [store_state_other w th t s hx]
    exact ht

theorem C21_counterexample :
    registry stw_world [3, 2, 1]
      ∧ (stw_world.mem 2).state = STATE_RUNNING
      ∧ (unregister_thread_dead id 2 2 stw_world).value? = some ()
      ∧ ((Res.world stw_world (unregister_thread_dead id 2 2 stw_world)).mem 2).state
          = STATE_DEAD
      ∧ registry (Res.world stw_world (unregister_thread_dead id 2 2 stw_world)) [3, 2, 1]
      ∧ threads_from (Res.world stw_world (unregister_thread_dead id 2 2 stw_world)).mem 3
          (Res.world stw_world (unregister_thread_dead id 2 2 stw_world)).all_threads
          = some [3, 2, 1] := by
  decide

/-- C21 (amended): in a well-formed registry `ts` whose threads are RUNNING,
STOPPED or DEAD, with `all_threads_lock` free and the `state_sem` concerned
free: `unregister_thread(th)` first records DEAD, which leaves `th` linked (the
registry is still `ts`, and it is the list `for_each_thread` walks in
`gc_stop_the_world`, whose first loop sends such a thread no signal), and only
then unlinks it; when `unregister_thread` has returned `th` is DEAD and not in
the registry.  `init_new_thread` links a RUNNING thread, and
`set_thread_state` to RUNNING, STOPPED or DEAD changes no link; after each of
them every registered thread is RUNNING, STOPPED or DEAD. -/
theorem C21_dead_until_unlinked (env : World → World) (init pk : Nat → Int)
    (k th nt x me : Nat) (s : Int) (sab : Bool) (w : World) (ts : List Nat)
    (hreg : registry w ts)
    (hstates : ∀ t ∈ ts, (w.mem t).state = STATE_RUNNING ∨ (w.mem t).state = STATE_STOPPED
      ∨ (w.mem t).state = STATE_DEAD)
    (hlock : w.all_threads_lock = none) :
    (th ∈ ts → 0 < (w.mem th).extra.state_sem →
        (∃ w1, unregister_thread_dead env (k + 1) th w = Res.ret () w1
          ∧ (w1.mem th).state = STATE_DEAD
          ∧ registry w1 ts
          ∧ threads_from w1.mem ts.length w1.all_threads = some ts
          ∧ (th ≠ me → (w.mem th).os_thread ≠ 0 →
              gc_stop_signal_thread env pk (k + 1) me th w1 = Res.ret () w1))
          ∧ ∃ w2, unregister_thread env (k + 1) th w = Res.ret () w2
            ∧ (w2.mem th).state = STATE_DEAD
            ∧ registry w2 (ts.erase th)
            ∧ th ∉ ts.erase th
            ∧ w2.all_threads_lock = none
            ∧ ∀ t ∈ ts.erase th, (w2.mem t).state = STATE_RUNNING
                ∨ (w2.mem t).state = STATE_STOPPED ∨ (w2.mem t).state = STATE_DEAD)
      ∧ (nt ≠ 0 → nt ∉ ts → init nt ≠ 0 → (w.mem nt).state = STATE_RUNNING →
          ∃ w1, init_new_thread env init (k + 1) nt w = Res.ret () w1
            ∧ registry w1 (nt :: ts)
            ∧ ∀ t ∈ nt :: ts, (w1.mem t).state = STATE_RUNNING
                ∨ (w1.mem t).state = STATE_STOPPED ∨ (w1.mem t).state = STATE_DEAD)
      ∧ (0 < (w.mem x).extra.state_sem →
          s = STATE_RUNNING ∨ s = STATE_STOPPED ∨ s = STATE_DEAD →
          ∃ w1, set_thread_state env (k + 1) x s sab w = Res.ret () w1
            ∧ registry w1 ts
            ∧ ∀ t ∈ ts, (w1.mem t).state = STATE_RUNNING
                ∨ (w1.mem t).state = STATE_STOPPED ∨ (w1.mem t).state = STATE_DEAD) := by
  refine ⟨?_, ?_, ?_⟩
  · intro hth hsem
    have e1 := unregister_thread_dead_eq env k th w hsem
    have hreg1 : registry (store_thread (block_blockable_signals w) th
        (set_thread_state_locked STATE_DEAD (w.mem th))) ts :=
      registry_store_state (block_blockable_signals w) th STATE_DEAD ts hreg
    have hdead : ((store_thread (block_blockable_signals w) th
        (set_thread_state_locked STATE_DEAD (w.mem th))).mem th).state = STATE_DEAD := by
      rw [store_thread_mem_same, set_thread_state_locked_state]
    refine ⟨⟨_, e1, hdead, hreg1, dseg_threads_from _ ts 0 _ ts.length hreg1 (Nat.le_refl _), ?_⟩,
      ?_⟩
    · intro hme hos
      rw [gc_stop_signal_thread_free env pk k me th _ (fun _ => by
        rw [store_thread_mem_same, set_thread_state_locked_state_sem]; exact hsem)]
      have hos1 : ((store_thread (block_blockable_signals w) th
          (set_thread_state_locked STATE_DEAD (w.mem th))).mem th).os_thread ≠ 0 := by
        rw [store_thread_mem_same]
        unfold set_thread_state_locked
        simp only [post_times_eq]
        split <;> [skip; exact hos]
        split <;> split <;> exact hos
      have hnr : ¬ (((store_thread (block_blockable_signals w) th
          (set_thread_state_locked STATE_DEAD (w.mem th))).mem th).state = STATE_RUNNING) := by
        rw [hdead]; decide
      simp only [signal_list, ne_eq, hme, not_false_eq_true, if_true, hos1, if_false, hnr]
    · have e2 := unregister_thread_unlink_eq env k th
        (store_thread (block_blockable_signals w) th
          (set_thread_state_locked STATE_DEAD (w.mem th))) hlock
      obtain ⟨hr, hn, hsub⟩ := unlink_thread_registry_erase
        { (store_thread (block_blockable_signals w) th
          (set_thread_state_locked STATE_DEAD (w.mem th))) with all_threads_lock := some th }
        th ts hreg1 hth
      have e3 : unregister_thread env (k + 1) th w
          = Res.ret ()
              { (unlink_thread th
                  { (store_thread (block_blockable_signals w) th
                      (set_thread_state_locked STATE_DEAD (w.mem th))) with
                    all_threads_lock := some th }) with
                all_threads_lock := none } := by
        unfold unregister_thread
        rw [e1]
        exact e2
      refine ⟨_, e3, ?_, hr, hn, rfl, ?_⟩
      · exact (unlink_thread_mem_state th th _).trans hdead
      · intro t ht
        have h1 := unlink_thread_mem_state th t
          { (store_thread (block_blockable_signals w) th
            (set_thread_state_locked STATE_DEAD (w.mem th))) with all_threads_lock := some th }
        have h2 := store_state_known (block_blockable_signals w) th STATE_DEAD t
          (Or.inr (Or.inr rfl)) (hstates t (hsub t ht))
        show ((unlink_thread th _).mem t).state = _ ∨ ((unlink_thread th _).mem t).state = _
          ∨ ((unlink_thread th _).mem t).state = _
        rw [h1]
        exact h2
  · intro h0 hnot hinit hrun
    have e := init_new_thread_eq env init k nt w hinit hlock
    have hr := link_thread_registry { w with all_threads_lock := some nt } nt ts hreg h0 hnot
    refine ⟨_, e, hr, ?_⟩
    intro t ht
    have h1 := link_thread_mem_state nt t { w with all_threads_lock := some nt }
    show ((link_thread nt _).mem t).state = _ ∨ ((link_thread nt _).mem t).state = _
      ∨ ((link_thread nt _).mem t).state = _
    rw [h1]
    rcases List.mem_cons.mp ht with rfl | ht1
    · exact Or.inl hrun
    · exact hstates t ht1
  · intro hsem hs
    refine ⟨_, set_thread_state_free env k x s sab w hsem, registry_store_state w x s ts hreg, ?_⟩
    intro t ht
    exact store_state_known w x s t hs (hstates t ht)

theorem C21_witness :
    (∃ w1, unregister_thread_dead id 2 2 new_thread_world = Res.ret () w1
        ∧ (w1.mem 2).state = STATE_DEAD ∧ registry w1 [3, 2, 1])
      ∧ (∃ w2, unregister_thread id 2 2 new_thread_world = Res.ret () w2
        ∧ (w2.mem 2).state = STATE_DEAD ∧ registry w2 [3, 1])
      ∧ (∃ w1, init_new_thread id arch_init_ok 2 4 new_thread_world = Res.ret () w1
        ∧ registry w1 [4, 3, 2, 1]) := by
  have h := C21_dead_until_unlinked id arch_init_ok kill_ok 1 2 4 2 1 STATE_STOPPED true
    new_thread_world [3, 2, 1] (by decide) (by decide) rfl
  obtain ⟨⟨w1, e1, hd, hr, _⟩, w2, e2, hd2, hr2, _⟩ := h.1 (by decide) (by decide)
  obtain ⟨w3, e3, hr3, _⟩ := h.2.1 (by decide) (by decide) (by decide) (by decide)
  exact ⟨⟨w1, e1, hd, hr⟩, ⟨w2, e2, hd2, hr2⟩, ⟨w3, e3, hr3⟩⟩

/-! ## `all_threads_lock` while another thread holds it -/

theorem lock_all_threads_held (env : World → World) (o : Nat)
    (henv : ∀ v : World, v.all_threads_lock = some o → (env v).all_threads_lock = some o) :
    ∀ (fuel me : Nat) (w : World), w.all_threads_lock = some o →
      lock_all_threads env fuel me w = Res.blocked := by
  intro fuel
  induction fuel with
  | zero => intro me w _; rfl
  | succ n ih =>
    intro me w h
    rw [lock_all_threads]
    simp only [h]
    exact ih me (env w) (henv w h)

theorem gc_stop_the_world_held (env : World → World) (pk : Nat → Int) (o fuel me : Nat)
    (w : World)
    (henv : ∀ v : World, v.all_threads_lock = some o → (env v).all_threads_lock = some o)
    (h : w.all_threads_lock = some o) :
    gc_stop_the_world env pk fuel me w = Res.blocked := by
  unfold gc_stop_the_world
  simp only [lock_all_threads_held env o henv fuel me w h]

end SbclThread
